import Mathlib

/-!
Shallow embedding of the mapping-and-triggering subsystem of the
`autosar-data-abstraction` communication layer
(`src/autosar-data-abstraction/src/communication/pdu/mod.rs` and
`src/autosar-data-abstraction/src/communication/signal/mod.rs`).

The generic element store (the `autosar_data` crate) is an external
collaborator: it is embedded as an explicit graph of elements (`Model`),
each element carrying its kind tag, optional item name, parent link,
children, character data and an optional reference target.  All operations
of the abstraction layer are translated statement by statement from the Rust
source, threading the shared mutable graph explicitly; a Rust method that
returns `Result` becomes a Lean function returning `Except Err _ × Model`
(the model component records the mutations applied before a failure, since
the Rust code mutates the shared graph in place and never rolls back).
-/

set_option maxHeartbeats 1000000
set_option maxRecDepth 4000

namespace Autosar

/-- Element kind tags (the subset of `ElementName` used by the embedded code),
plus `UnknownKind`, standing for any tag that is none of the modelled ones. -/
inductive EName where
  | ISignalIPdu | NmPdu | NPdu | DcmIPdu | GeneralPurposePdu | GeneralPurposeIPdu
  | ContainerIPdu | SecuredIPdu | MultiplexedIPdu
  | Elements | Length
  | ISignalToPduMappings | ISignalToIPduMapping
  | ISignalRef | PackingByteOrder | StartPosition | UpdateIndicationBitPosition
  | TransferProperty
  | PduTriggerings | PduTriggering | IPduRef | IPduPortRefs | IPduPortRef | IPduPort
  | ISignalTriggerings | ISignalTriggering | ISignalTriggeringRefConditional
  | ISignalTriggeringRef | ISignalPortRefs | ISignalPortRef | ISignalPort
  | EcuCommPortInstances | CommunicationDirection
  | ISignal | SystemSignal | SystemSignalRef | DataTypePolicy
  | ISignalGroup | SystemSignalGroup | SystemSignalGroupRef | Signals
  | ArPackage | EcuInstance | Connectors | CommunicationConnectorRef
  | CanCommunicationConnector | EthernetCommunicationConnector
  | FlexrayCommunicationConnector
  | CanPhysicalChannel | EthernetPhysicalChannel | FlexrayPhysicalChannel
  | UnknownKind
deriving DecidableEq, Repr

/-- The `EnumItem` values used by the embedded code. -/
inductive EnumItem where
  | In | Out
  | Pending | Triggered | TriggeredOnChange | TriggeredOnChangeWithoutRepetition
  | TriggeredWithoutRepetition
  | MostSignificantByteFirst | MostSignificantByteLast
  | Override | Always | Never
deriving DecidableEq, Repr

/-- Character data stored in an element (string, integer or enumerated). -/
inductive CData where
  | str (s : String)
  | int (n : Nat)
  | enum (e : EnumItem)
deriving DecidableEq, Repr

/-- The error kinds of `AutosarAbstractionError` (with the wrapped
`AutosarDataError` cases that the embedded code can produce folded in:
`ItemDeleted`, and `DuplicateItemName` for a named-element name collision). -/
inductive Err where
  | InvalidParameter (s : String)
  | ConversionError (element : Nat) (dest : String)
  | ValueConversionError (value : String) (dest : String)
  | ItemDeleted
  | DuplicateItemName
deriving DecidableEq, Repr

/-- Decidable equality of results, used to evaluate the embedded operations
on concrete inputs. -/
instance {ε α : Type} [DecidableEq ε] [DecidableEq α] : DecidableEq (Except ε α) :=
  fun x y =>
    match x, y with
    | .ok a, .ok b =>
      if h : a = b then .isTrue (by rw [h]) else .isFalse (by intro hh; cases hh; exact h rfl)
    | .error a, .error b =>
      if h : a = b then .isTrue (by rw [h]) else .isFalse (by intro hh; cases hh; exact h rfl)
    | .ok _, .error _ => .isFalse (by intro hh; cases hh)
    | .error _, .ok _ => .isFalse (by intro hh; cases hh)

/-- One node of the element graph. -/
structure Elem where
  ename : EName
  itemName : Option String := none
  parent : Option Nat := none
  children : List Nat := []
  cdata : Option CData := none
  target : Option Nat := none
deriving DecidableEq, Repr

/-- The shared element graph; element identity is the index into `elems`. -/
structure Model where
  elems : List Elem
deriving DecidableEq, Repr

def Model.get (m : Model) (i : Nat) : Option Elem := m.elems[i]?

def Model.fresh (m : Model) : Nat := m.elems.length

def Model.push (m : Model) (e : Elem) : Model := ⟨m.elems ++ [e]⟩

def Model.modifyAt (m : Model) (i : Nat) (f : Elem → Elem) : Model :=
  match m.elems[i]? with
  | none => m
  | some e => ⟨m.elems.set i (f e)⟩

def Model.addChild (m : Model) (p c : Nat) : Model :=
  m.modifyAt p fun e => { e with children := e.children ++ [c] }

/-- Embeds `Element::set_character_data`. -/
def set_character_data (m : Model) (i : Nat) (cd : CData) : Model :=
  m.modifyAt i fun e => { e with cdata := some cd }

/-- Embeds `Element::set_reference_target`. -/
def set_reference_target (m : Model) (i t : Nat) : Model :=
  m.modifyAt i fun e => { e with target := some t }

/-- Embeds `Element::get_reference_target().ok()`: the stored reference,
provided its target still resolves to an element of the graph. -/
def get_reference_target (m : Model) (i : Nat) : Option Nat :=
  (m.get i).bind fun e => e.target.bind fun t => (m.get t).map fun _ => t

/-- Embeds `Element::item_name` / `AbstractionElement::name`. -/
def elemName (m : Model) (i : Nat) : Option String := (m.get i).bind Elem.itemName

/-- The kind tag of an element. -/
def elemKind (m : Model) (i : Nat) : Option EName := (m.get i).map Elem.ename

/-- The children list of an element (empty for a dangling id). -/
def childList (m : Model) (i : Nat) : List Nat :=
  ((m.get i).map Elem.children).getD []

/-- Embeds `Element::get_sub_element`: the first child with the given kind. -/
def getSubElement (m : Model) (i : Nat) (n : EName) : Option Nat :=
  (m.get i).bind fun e => e.children.find? fun c => decide (elemKind m c = some n)

/-- Fuelled ancestor walk behind `namedParentW`.  The walk is guarded by
strictly decreasing ids, so fuel `i + 1` computes the full walk from `i`. -/
def namedParentA (m : Model) : Nat → Nat → Option Nat
  | 0, _ => none
  | fuel + 1, i =>
    match m.get i with
    | none => none
    | some e =>
      match e.parent with
      | none => none
      | some p =>
        if p < i then
          match m.get p with
          | none => none
          | some pe => if pe.itemName.isSome then some p else namedParentA m fuel p
        else none

/-- Embeds `Element::named_parent`: the nearest ancestor carrying an item name.
The walk is guarded by decreasing ids; in every model built by the embedded
operations a parent id is strictly below its child's id. -/
def namedParentW (m : Model) (i : Nat) : Option Nat := namedParentA m (i + 1) i

/-- Fuelled ancestor walk behind `pathScope`. -/
def pathScopeA (m : Model) : Nat → Nat → Option Nat
  | 0, _ => none
  | fuel + 1, i =>
    match m.get i with
    | none => none
    | some e =>
      if e.itemName.isSome then some i
      else
        match e.parent with
        | none => none
        | some p => if p < i then pathScopeA m fuel p else none

/-- The named element that governs the path of a new child of `i`:
`i` itself when named, else its nearest named ancestor. -/
def pathScope (m : Model) (i : Nat) : Option Nat := pathScopeA m (i + 1) i

/-- Item names of the named elements reachable from the given ids by
descending only through unnamed (grouping) elements. -/
def pathChildNamesAux (m : Model) : Nat → List Nat → List String
  | 0, _ => []
  | fuel + 1, ids =>
    ids.flatMap fun i =>
      match m.get i with
      | none => []
      | some e =>
        match e.itemName with
        | some nm => [nm]
        | none => pathChildNamesAux m fuel e.children

/-- Item names of the path-level children of element `i` (the names that a
new named element in `i`'s path scope must not collide with). -/
def pathChildNames (m : Model) (i : Nat) : List String :=
  match m.get i with
  | none => []
  | some e => pathChildNamesAux m m.elems.length e.children

/-- Whether creating a named element under parent `p` with the given name
would collide with an existing name in the same path scope. -/
def nameConflict (m : Model) (p : Nat) (name : String) : Bool :=
  match pathScope m p with
  | none => false
  | some s => (pathChildNames m s).contains name

/-- Embeds `Element::create_sub_element` (an unnamed element; the schema
always admits the kinds the embedded code creates, so this is total). -/
def create_sub_element (m : Model) (p : Nat) (n : EName) : Nat × Model :=
  let i := m.fresh
  (i, (m.push { ename := n, parent := some p }).addChild p i)

/-- Embeds `Element::create_named_sub_element`: fails when the item name
collides with an existing name in the same path scope. -/
def create_named_sub_element (m : Model) (p : Nat) (n : EName) (name : String) :
    Except Err (Nat × Model) :=
  if nameConflict m p name then .error .DuplicateItemName
  else
    let i := m.fresh
    .ok (i, (m.push { ename := n, itemName := some name, parent := some p }).addChild p i)

/-- Embeds `Element::get_or_create_sub_element`. -/
def get_or_create_sub_element (m : Model) (p : Nat) (n : EName) : Nat × Model :=
  match getSubElement m p n with
  | some c => (c, m)
  | none => create_sub_element m p n

/-- Embeds `AutosarModel::get_references_to`: all reference elements whose
target is the given element (the reverse-reference index). -/
def get_references_to (m : Model) (t : Nat) : List Nat :=
  (List.range m.elems.length).filter fun i => decide ((m.get i).bind Elem.target = some t)

/-- Modelled from the spec: `make_unique_name` (§4.6, a provided primitive of
the repository outside `src/`): append a numeric disambiguator to the
candidate name until it collides with no existing name under the base scope. -/
def uniqueNameAux (m : Model) (base : Nat) (name : String) : Nat → Nat → String
  | 0, k => name ++ "_" ++ toString k
  | fuel + 1, k =>
    let cand := name ++ "_" ++ toString k
    if (pathChildNames m base).contains cand then uniqueNameAux m base name fuel (k + 1)
    else cand

/-- Modelled from the spec: `make_unique_name` (§4.6): produce a name that
does not collide with any existing sibling name under the base scope. -/
def make_unique_name (m : Model) (base : Nat) (name : String) : String :=
  if (pathChildNames m base).contains name then
    uniqueNameAux m base name (m.elems.length + 1) 1
  else name

/-- The communication direction of a port (`CommunicationDirection` in Rust). -/
inductive CommunicationDirection where
  | In | Out
deriving DecidableEq, Repr

/-- Modelled from the spec: byte order of a mapped signal (big/little endian);
the `ByteOrder` type lives outside `src/`. -/
inductive ByteOrder where
  | MostSignificantByteFirst | MostSignificantByteLast
deriving DecidableEq, Repr

/-- The transfer property of a signal mapping (`TransferProperty` in Rust). -/
inductive TransferProperty where
  | Pending | Triggered | TriggeredOnChange | TriggeredOnChangeWithoutRepetition
  | TriggeredWithoutRepetition
deriving DecidableEq, Repr

/-- Embeds `From<CommunicationDirection> for EnumItem`. -/
def dirToEnum : CommunicationDirection → EnumItem
  | .In => .In
  | .Out => .Out

/-- Embeds `TryFrom<EnumItem> for CommunicationDirection` (as an `Option`,
matching the `.ok()` uses). -/
def dirFromEnum : EnumItem → Option CommunicationDirection
  | .In => some .In
  | .Out => some .Out
  | _ => none

/-- Modelled from the spec: `From<ByteOrder> for EnumItem`. -/
def byteOrderToEnum : ByteOrder → EnumItem
  | .MostSignificantByteFirst => .MostSignificantByteFirst
  | .MostSignificantByteLast => .MostSignificantByteLast

/-- Modelled from the spec: `TryFrom<EnumItem> for ByteOrder` as an `Option`. -/
def byteOrderFromEnum : EnumItem → Option ByteOrder
  | .MostSignificantByteFirst => some .MostSignificantByteFirst
  | .MostSignificantByteLast => some .MostSignificantByteLast
  | _ => none

/-- Embeds `From<TransferProperty> for EnumItem`. -/
def tpToEnum : TransferProperty → EnumItem
  | .Pending => .Pending
  | .Triggered => .Triggered
  | .TriggeredOnChange => .TriggeredOnChange
  | .TriggeredOnChangeWithoutRepetition => .TriggeredOnChangeWithoutRepetition
  | .TriggeredWithoutRepetition => .TriggeredWithoutRepetition

/-- Embeds `TryFrom<EnumItem> for TransferProperty` as an `Option`. -/
def tpFromEnum : EnumItem → Option TransferProperty
  | .Pending => some .Pending
  | .Triggered => some .Triggered
  | .TriggeredOnChange => some .TriggeredOnChange
  | .TriggeredOnChangeWithoutRepetition => some .TriggeredOnChangeWithoutRepetition
  | .TriggeredWithoutRepetition => some .TriggeredWithoutRepetition
  | _ => none

/-- Embeds `CharacterData::enum_value`. -/
def cdataEnum : CData → Option EnumItem
  | .enum e => some e
  | _ => none

/-- Embeds `CharacterData::decode_integer` on the integer encodings the
embedded code writes. -/
def cdataInt : CData → Option Nat
  | .int n => some n
  | _ => none

/-- Embeds `IPduPort::ecu` and `ISignalPort::ecu` (identical bodies in the
source): the named parent of the port is its communication connector, whose
named parent must convert to an `EcuInstance`. -/
def port_ecu (m : Model) (p : Nat) : Option Nat :=
  (namedParentW m p).bind fun conn =>
  (namedParentW m conn).bind fun ecu =>
  if decide (elemKind m ecu = some .EcuInstance) then some ecu else none

/-- Embeds `IPduPort::communication_direction` and
`ISignalPort::communication_direction` (identical bodies in the source). -/
def port_direction (m : Model) (p : Nat) : Option CommunicationDirection :=
  (getSubElement m p .CommunicationDirection).bind fun cd =>
  ((m.get cd).bind Elem.cdata).bind fun c => (cdataEnum c).bind dirFromEnum

/-- Embeds `PduTriggering::pdu_ports` (the `IPduPortIterator`, which resolves
each reference and keeps only elements converting to `IPduPort`). -/
def pdu_ports (m : Model) (pt : Nat) : List Nat :=
  match getSubElement m pt .IPduPortRefs with
  | none => []
  | some refs =>
    (childList m refs).filterMap fun r =>
      (get_reference_target m r).bind fun t =>
        if decide (elemKind m t = some .IPduPort) then some t else none

/-- Embeds `ISignalTriggering::signal_ports` (the `ISignalPortIterator`). -/
def signal_ports (m : Model) (st : Nat) : List Nat :=
  match getSubElement m st .ISignalPortRefs with
  | none => []
  | some refs =>
    (childList m refs).filterMap fun r =>
      (get_reference_target m r).bind fun t =>
        if decide (elemKind m t = some .ISignalPort) then some t else none

/-- Embeds `PduTriggering::signal_triggerings` (the
`PtSignalTriggeringsIterator`: each conditional child's
`ISignalTriggeringRef` resolved, kept when it is an `ISignalTriggering`). -/
def signal_triggerings (m : Model) (pt : Nat) : List Nat :=
  match getSubElement m pt .ISignalTriggerings with
  | none => []
  | some grp =>
    (childList m grp).filterMap fun c =>
      (getSubElement m c .ISignalTriggeringRef).bind fun r =>
      (get_reference_target m r).bind fun t =>
      if decide (elemKind m t = some .ISignalTriggering) then some t else none

/-- Embeds `ISignalIPdu::mapped_signals` (the `ISIgnalToIPduMappingsIterator`:
children of the mappings collection converting to `ISignalToIPduMapping`). -/
def mapped_signals (m : Model) (pdu : Nat) : List Nat :=
  match getSubElement m pdu .ISignalToPduMappings with
  | none => []
  | some grp =>
    (childList m grp).filter fun c => decide (elemKind m c = some .ISignalToIPduMapping)

/-- Embeds `ISignalIPdu::pdu_triggerings` (the `PduTriggeringsIterator` over
the reverse-reference list: each referring element's named parent, kept when
it converts to a `PduTriggering`). -/
def pdu_triggerings (m : Model) (pdu : Nat) : List Nat :=
  (get_references_to m pdu).filterMap fun r =>
    (namedParentW m r).bind fun p =>
      if decide (elemKind m p = some .PduTriggering) then some p else none

/-- The scan loop at the head of both `connect_to_ecu` implementations:
the first port of the list whose ECU and direction both resolve and match. -/
def findPort (m : Model) (ports : List Nat) (ecu : Nat)
    (dir : CommunicationDirection) : Option Nat :=
  ports.find? fun p =>
    match port_ecu m p, port_direction m p with
    | some e, some d => decide (e = ecu) && decide (d = dir)
    | _, _ => false

/-- Whether the kind is one of the physical-channel kinds. -/
def isChannelKind : EName → Bool
  | .CanPhysicalChannel | .EthernetPhysicalChannel | .FlexrayPhysicalChannel => true
  | _ => false

/-- Embeds `PduTriggering::physical_channel` / `ISignalTriggering::physical_channel`
(identical bodies); `PhysicalChannel::try_from` is modelled from the spec
(the channel union type lives outside `src/`): it succeeds exactly on
physical-channel kind tags. -/
def physical_channel (m : Model) (t : Nat) : Except Err Nat :=
  match namedParentW m t with
  | none => .error .ItemDeleted
  | some ch =>
    match elemKind m ch with
    | some k => if isChannelKind k then .ok ch else .error (.ConversionError ch "PhysicalChannel")
    | none => .error (.ConversionError ch "PhysicalChannel")

/-- Whether the kind is one of the communication-connector kinds. -/
def isConnectorKind : EName → Bool
  | .CanCommunicationConnector | .EthernetCommunicationConnector
  | .FlexrayCommunicationConnector => true
  | _ => false

/-- Modelled from the spec: the channel/connector topology collaborator (§6):
lookup of the connector node for a (channel, ECU) pair.  A connector is a
connector-kind child of the ECU's `Connectors` collection whose channel
reference resolves to the given channel. -/
def get_ecu_connector (m : Model) (channel ecu : Nat) : Option Nat :=
  (getSubElement m ecu .Connectors).bind fun conns =>
    (childList m conns).find? fun c =>
      (match elemKind m c with
       | some k => isConnectorKind k
       | none => false) &&
      decide ((getSubElement m c .CommunicationConnectorRef).bind
        (fun r => get_reference_target m r) = some channel)

/-- The Rx/Tx suffix for a port name. -/
def dirSuffix : CommunicationDirection → String
  | .In => "Rx"
  | .Out => "Tx"

namespace ISignalTriggering

/-- Embeds `ISignalTriggering::new`: a named `ISignalTriggering` element under
the channel's triggerings collection, referencing the signal. -/
def new (m : Model) (signal channel : Nat) : Except Err Nat × Model :=
  match elemName m signal with
  | none => (.error (.InvalidParameter "invalid signal"), m)
  | some signal_name =>
    let pt_name := make_unique_name m channel ("ST_" ++ signal_name)
    let trgsM := get_or_create_sub_element m channel .ISignalTriggerings
    match create_named_sub_element trgsM.2 trgsM.1 .ISignalTriggering pt_name with
    | .error e => (.error e, trgsM.2)
    | .ok stM =>
      let rM := create_sub_element stM.2 stM.1 .ISignalRef
      (.ok stM.1, set_reference_target rM.2 rM.1 signal)

/-- Embeds `ISignalTriggering::connect_to_ecu`. -/
def connect_to_ecu (m : Model) (st ecu : Nat) (direction : CommunicationDirection) :
    Except Err Nat × Model :=
  match findPort m (signal_ports m st) ecu direction with
  | some p => (.ok p, m)
  | none =>
    match physical_channel m st with
    | .error e => (.error e, m)
    | .ok channel =>
      match get_ecu_connector m channel ecu with
      | none => (.error (.InvalidParameter "The ECU is not connected to the channel"), m)
      | some connector =>
        match elemName m st with
        | none => (.error .ItemDeleted, m)
        | some name =>
          let port_name := name ++ "_" ++ dirSuffix direction
          let cpiM := get_or_create_sub_element m connector .EcuCommPortInstances
          match create_named_sub_element cpiM.2 cpiM.1 .ISignalPort port_name with
          | .error e => (.error e, cpiM.2)
          | .ok spM =>
            let cdM := create_sub_element spM.2 spM.1 .CommunicationDirection
            let m4 := set_character_data cdM.2 cdM.1 (.enum (dirToEnum direction))
            let refsM := get_or_create_sub_element m4 st .ISignalPortRefs
            let rM := create_sub_element refsM.2 refsM.1 .ISignalPortRef
            (.ok spM.1, set_reference_target rM.2 rM.1 spM.1)

end ISignalTriggering

/-- The fan-out loop over the ports of a `PduTriggering`, connecting the given
`ISignalTriggering` to each resolvable (ECU, direction) pair: the body of both
`for pdu_port in ... { if let (Some(ecu), Some(direction)) = ... }` loops in
`PduTriggering::add_signal_triggering` and `ISignalIPdu::map_signal`. -/
def propagate_ports (m : Model) (ports : List Nat) (st : Nat) : Except Err Unit × Model :=
  match ports with
  | [] => (.ok (), m)
  | p :: rest =>
    match port_ecu m p, port_direction m p with
    | some ecu, some dir =>
      match ISignalTriggering.connect_to_ecu m st ecu dir with
      | (.error e, m1) => (.error e, m1)
      | (.ok _, m1) => propagate_ports m1 rest st
    | _, _ => propagate_ports m rest st

namespace PduTriggering

/-- Embeds `PduTriggering::add_signal_triggering`: create an
`ISignalTriggering` on the triggering's channel, register it, then connect it
to every (ECU, direction) pair already present on the `PduTriggering`. -/
def add_signal_triggering (m : Model) (pt signal : Nat) : Except Err Nat × Model :=
  match physical_channel m pt with
  | .error e => (.error e, m)
  | .ok channel =>
    match ISignalTriggering.new m signal channel with
    | (.error e, m1) => (.error e, m1)
    | (.ok st, m1) =>
      let trgsM := get_or_create_sub_element m1 pt .ISignalTriggerings
      let condM := create_sub_element trgsM.2 trgsM.1 .ISignalTriggeringRefConditional
      let rM := create_sub_element condM.2 condM.1 .ISignalTriggeringRef
      let m5 := set_reference_target rM.2 rM.1 st
      match propagate_ports m5 (pdu_ports m5 pt) st with
      | (.error e, m6) => (.error e, m6)
      | (.ok _, m6) => (.ok st, m6)

/-- The propagation loop at the end of `PduTriggering::connect_to_ecu`:
connect every child `ISignalTriggering` to the same (ECU, direction). -/
def connect_loop (m : Model) (sts : List Nat) (ecu : Nat)
    (dir : CommunicationDirection) : Except Err Unit × Model :=
  match sts with
  | [] => (.ok (), m)
  | st :: rest =>
    match ISignalTriggering.connect_to_ecu m st ecu dir with
    | (.error e, m1) => (.error e, m1)
    | (.ok _, m1) => connect_loop m1 rest ecu dir

/-- Embeds `PduTriggering::connect_to_ecu`. -/
def connect_to_ecu (m : Model) (pt ecu : Nat) (direction : CommunicationDirection) :
    Except Err Nat × Model :=
  match findPort m (pdu_ports m pt) ecu direction with
  | some p => (.ok p, m)
  | none =>
    match physical_channel m pt with
    | .error e => (.error e, m)
    | .ok channel =>
      match get_ecu_connector m channel ecu with
      | none => (.error (.InvalidParameter "The ECU is not connected to the channel"), m)
      | some connector =>
        match elemName m pt with
        | none => (.error .ItemDeleted, m)
        | some name =>
          let port_name := name ++ "_" ++ dirSuffix direction
          let cpiM := get_or_create_sub_element m connector .EcuCommPortInstances
          match create_named_sub_element cpiM.2 cpiM.1 .IPduPort port_name with
          | .error e => (.error e, cpiM.2)
          | .ok ppM =>
            let cdM := create_sub_element ppM.2 ppM.1 .CommunicationDirection
            let m4 := set_character_data cdM.2 cdM.1 (.enum (dirToEnum direction))
            let refsM := get_or_create_sub_element m4 pt .IPduPortRefs
            let rM := create_sub_element refsM.2 refsM.1 .IPduPortRef
            let m7 := set_reference_target rM.2 rM.1 ppM.1
            match connect_loop m7 (signal_triggerings m7 pt) ecu direction with
            | (.error e, m8) => (.error e, m8)
            | (.ok _, m8) => (.ok ppM.1, m8)

end PduTriggering

/-- Embeds `ISignalToIPduMapping::signal`: the `ISignalRef` target, when it
converts to a `Signal` (an `ISignal` element). -/
def mapping_signal (m : Model) (mp : Nat) : Option Nat :=
  (getSubElement m mp .ISignalRef).bind fun r =>
  (get_reference_target m r).bind fun t =>
  if decide (elemKind m t = some .ISignal) then some t else none

/-- The back-fill loop of `PduTriggering::new`: one `ISignalTriggering` per
mapping whose signal reference resolves. -/
def backfill (m : Model) (maps : List Nat) (pt : Nat) : Except Err Unit × Model :=
  match maps with
  | [] => (.ok (), m)
  | mp :: rest =>
    match mapping_signal m mp with
    | none => backfill m rest pt
    | some s =>
      match PduTriggering.add_signal_triggering m pt s with
      | (.error e, m1) => (.error e, m1)
      | (.ok _, m1) => backfill m1 rest pt

/-- The `Pdu` tagged union over the nine variant kinds; each variant wraps the
underlying element (as in the Rust one-field tuple structs). -/
inductive Pdu where
  | ISignalIPdu (el : Nat)
  | NmPdu (el : Nat)
  | NPdu (el : Nat)
  | DcmIPdu (el : Nat)
  | GeneralPurposePdu (el : Nat)
  | GeneralPurposeIPdu (el : Nat)
  | ContainerIPdu (el : Nat)
  | SecuredIPdu (el : Nat)
  | MultiplexedIPdu (el : Nat)
deriving DecidableEq, Repr

/-- Embeds `AbstractionElement::element` for `Pdu`. -/
def Pdu.element : Pdu → Nat
  | .ISignalIPdu e | .NmPdu e | .NPdu e | .DcmIPdu e | .GeneralPurposePdu e
  | .GeneralPurposeIPdu e | .ContainerIPdu e | .SecuredIPdu e | .MultiplexedIPdu e => e

/-- The kind tag created by each `Pdu` variant's constructor. -/
def pduKindOf : Pdu → EName
  | .ISignalIPdu _ => .ISignalIPdu
  | .NmPdu _ => .NmPdu
  | .NPdu _ => .NPdu
  | .DcmIPdu _ => .DcmIPdu
  | .GeneralPurposePdu _ => .GeneralPurposePdu
  | .GeneralPurposeIPdu _ => .GeneralPurposeIPdu
  | .ContainerIPdu _ => .ContainerIPdu
  | .SecuredIPdu _ => .SecuredIPdu
  | .MultiplexedIPdu _ => .MultiplexedIPdu

/-- The common body of the nine `Pdu` variant constructors (`ISignalIPdu::new`,
`NmPdu::new`, ...): a named element of the variant's kind under the package's
`Elements` collection, with a `Length` attribute. -/
def pduNew (k : EName) (m : Model) (name : String) (package : Nat) (length : Nat) :
    Except Err Nat × Model :=
  let elsM := get_or_create_sub_element m package .Elements
  match create_named_sub_element elsM.2 elsM.1 k name with
  | .error e => (.error e, elsM.2)
  | .ok pM =>
    let lenM := create_sub_element pM.2 pM.1 .Length
    (.ok pM.1, set_character_data lenM.2 lenM.1 (.str (toString length)))

/-- Modelled from the spec: the `abstraction_element!`-generated
`TryFrom<Element>` for a single variant type (§4.2): succeed exactly on the
variant's kind tag, else a conversion error naming the element and the
destination type. -/
def variantTryFrom (m : Model) (e : Nat) (k : EName) (dest : String) : Except Err Nat :=
  if elemKind m e = some k then .ok e else .error (.ConversionError e dest)

/-- Embeds `impl TryFrom<Element> for Pdu`: dispatch on the kind tag through
the variant conversions; an unrecognized tag fails with a conversion error
carrying the element and destination "Pdu". -/
def Pdu.try_from (m : Model) (element : Nat) : Except Err Pdu :=
  match elemKind m element with
  | some .ISignalIPdu => (variantTryFrom m element .ISignalIPdu "ISignalIPdu").map Pdu.ISignalIPdu
  | some .NmPdu => (variantTryFrom m element .NmPdu "NmPdu").map Pdu.NmPdu
  | some .NPdu => (variantTryFrom m element .NPdu "NPdu").map Pdu.NPdu
  | some .DcmIPdu => (variantTryFrom m element .DcmIPdu "DcmIPdu").map Pdu.DcmIPdu
  | some .GeneralPurposePdu =>
    (variantTryFrom m element .GeneralPurposePdu "GeneralPurposePdu").map Pdu.GeneralPurposePdu
  | some .GeneralPurposeIPdu =>
    (variantTryFrom m element .GeneralPurposeIPdu "GeneralPurposeIPdu").map Pdu.GeneralPurposeIPdu
  | some .ContainerIPdu => (variantTryFrom m element .ContainerIPdu "ContainerIPdu").map Pdu.ContainerIPdu
  | some .SecuredIPdu => (variantTryFrom m element .SecuredIPdu "SecuredIPdu").map Pdu.SecuredIPdu
  | some .MultiplexedIPdu => (variantTryFrom m element .MultiplexedIPdu "MultiplexedIPdu").map Pdu.MultiplexedIPdu
  | _ => .error (.ConversionError element "Pdu")

namespace PduTriggering

/-- Embeds `PduTriggering::new`: a named `PT_<pdu-name>` element under the
channel's `PduTriggerings` collection referencing the Pdu; when the Pdu is an
`ISignalIPdu`, back-fill one `ISignalTriggering` per mapping whose signal
resolves. -/
def new (m : Model) (pdu : Pdu) (channel : Nat) : Except Err Nat × Model :=
  match elemName m pdu.element with
  | none => (.error (.InvalidParameter "invalid pdu"), m)
  | some pdu_name =>
    let pt_name := make_unique_name m channel ("PT_" ++ pdu_name)
    let trgsM := get_or_create_sub_element m channel .PduTriggerings
    match create_named_sub_element trgsM.2 trgsM.1 .PduTriggering pt_name with
    | .error e => (.error e, trgsM.2)
    | .ok ptM =>
      let refM := create_sub_element ptM.2 ptM.1 .IPduRef
      let m4 := set_reference_target refM.2 refM.1 pdu.element
      match pdu with
      | .ISignalIPdu ipdu =>
        match backfill m4 (mapped_signals m4 ipdu) ptM.1 with
        | (.error e, m5) => (.error e, m5)
        | (.ok _, m5) => (.ok ptM.1, m5)
      | _ => (.ok ptM.1, m4)

end PduTriggering

namespace ISignalToIPduMapping

/-- Embeds `ISignalToIPduMapping::new`: a named mapping element holding the
signal reference, packing byte order, start position, transfer property and,
when supplied, the update indication bit position. -/
def new (m : Model) (name : String) (mappings signal : Nat) (start_position : Nat)
    (byte_order : ByteOrder) (update_bit : Option Nat)
    (transfer_property : TransferProperty) : Except Err Nat × Model :=
  match create_named_sub_element m mappings .ISignalToIPduMapping name with
  | .error e => (.error e, m)
  | .ok smM =>
    let sm := smM.1
    let srM := create_sub_element smM.2 sm .ISignalRef
    let m3 := set_reference_target srM.2 srM.1 signal
    let pboM := create_sub_element m3 sm .PackingByteOrder
    let m5 := set_character_data pboM.2 pboM.1 (.enum (byteOrderToEnum byte_order))
    let sposM := create_sub_element m5 sm .StartPosition
    let m7 := set_character_data sposM.2 sposM.1 (.int start_position)
    let tpM := create_sub_element m7 sm .TransferProperty
    let m9 := set_character_data tpM.2 tpM.1 (.enum (tpToEnum transfer_property))
    match update_bit with
    | some update_bit_pos =>
      let ubM := create_sub_element m9 sm .UpdateIndicationBitPosition
      (.ok sm, set_character_data ubM.2 ubM.1 (.int update_bit_pos))
    | none => (.ok sm, m9)

/-- Embeds `ISignalToIPduMapping::signal`. -/
def signal (m : Model) (mp : Nat) : Option Nat := mapping_signal m mp

/-- Embeds `ISignalToIPduMapping::byte_order`. -/
def byte_order (m : Model) (mp : Nat) : Option ByteOrder :=
  (getSubElement m mp .PackingByteOrder).bind fun x =>
  ((m.get x).bind Elem.cdata).bind fun c => (cdataEnum c).bind byteOrderFromEnum

/-- Embeds `ISignalToIPduMapping::start_position`: reads the `StartPosition`
sub-element's integer. -/
def start_position (m : Model) (mp : Nat) : Option Nat :=
  (getSubElement m mp .StartPosition).bind fun x =>
  ((m.get x).bind Elem.cdata).bind cdataInt

/-- Embeds `ISignalToIPduMapping::update_bit`: as in the source, it reads the
`StartPosition` sub-element's integer (not `UpdateIndicationBitPosition`). -/
def update_bit (m : Model) (mp : Nat) : Option Nat :=
  (getSubElement m mp .StartPosition).bind fun x =>
  ((m.get x).bind Elem.cdata).bind cdataInt

/-- Embeds `ISignalToIPduMapping::transfer_property`. -/
def transfer_property (m : Model) (mp : Nat) : Option TransferProperty :=
  (getSubElement m mp .TransferProperty).bind fun x =>
  ((m.get x).bind Elem.cdata).bind fun c => (cdataEnum c).bind tpFromEnum

end ISignalToIPduMapping

/-- Embeds `NmPdu::new`. -/
def NmPdu.new (m : Model) (name : String) (package : Nat) (length : Nat) :
    Except Err Nat × Model :=
  pduNew .NmPdu m name package length

/-- Embeds `NPdu::new`. -/
def NPdu.new (m : Model) (name : String) (package : Nat) (length : Nat) :
    Except Err Nat × Model :=
  pduNew .NPdu m name package length

/-- Embeds `DcmIPdu::new`. -/
def DcmIPdu.new (m : Model) (name : String) (package : Nat) (length : Nat) :
    Except Err Nat × Model :=
  pduNew .DcmIPdu m name package length

/-- Embeds `GeneralPurposePdu::new`. -/
def GeneralPurposePdu.new (m : Model) (name : String) (package : Nat) (length : Nat) :
    Except Err Nat × Model :=
  pduNew .GeneralPurposePdu m name package length

/-- Embeds `GeneralPurposeIPdu::new`. -/
def GeneralPurposeIPdu.new (m : Model) (name : String) (package : Nat) (length : Nat) :
    Except Err Nat × Model :=
  pduNew .GeneralPurposeIPdu m name package length

/-- Embeds `ContainerIPdu::new`. -/
def ContainerIPdu.new (m : Model) (name : String) (package : Nat) (length : Nat) :
    Except Err Nat × Model :=
  pduNew .ContainerIPdu m name package length

/-- Embeds `SecuredIPdu::new`. -/
def SecuredIPdu.new (m : Model) (name : String) (package : Nat) (length : Nat) :
    Except Err Nat × Model :=
  pduNew .SecuredIPdu m name package length

/-- Embeds `MultiplexedIPdu::new`. -/
def MultiplexedIPdu.new (m : Model) (name : String) (package : Nat) (length : Nat) :
    Except Err Nat × Model :=
  pduNew .MultiplexedIPdu m name package length

/-- Whether a kind tag is one of the nine `Pdu` variant kinds. -/
def isPduKind : EName → Bool
  | .ISignalIPdu | .NmPdu | .NPdu | .DcmIPdu | .GeneralPurposePdu | .GeneralPurposeIPdu
  | .ContainerIPdu | .SecuredIPdu | .MultiplexedIPdu => true
  | _ => false

namespace ISignalIPdu

/-- Embeds `ISignalIPdu::new`. -/
def new (m : Model) (name : String) (package : Nat) (length : Nat) :
    Except Err Nat × Model :=
  pduNew .ISignalIPdu m name package length

/-- The fan-out loop of `ISignalIPdu::map_signal`: for each `PduTriggering`
of the Pdu, add a signal triggering and connect it to every (ECU, direction)
pair of that triggering's ports. -/
def mapSignalLoop (m : Model) (pts : List Nat) (signal : Nat) : Except Err Unit × Model :=
  match pts with
  | [] => (.ok (), m)
  | pt :: rest =>
    match PduTriggering.add_signal_triggering m pt signal with
    | (.error e, m1) => (.error e, m1)
    | (.ok st, m1) =>
      match propagate_ports m1 (pdu_ports m1 pt) st with
      | (.error e, m2) => (.error e, m2)
      | (.ok _, m2) => mapSignalLoop m2 rest signal

/-- Embeds `ISignalIPdu::map_signal`. -/
def map_signal (m : Model) (pdu signal : Nat) (start_position : Nat)
    (byte_order : ByteOrder) (update_bit : Option Nat)
    (transfer_property : TransferProperty) : Except Err Nat × Model :=
  match elemName m signal with
  | none => (.error (.InvalidParameter "invalid signal"), m)
  | some signal_name =>
    match mapSignalLoop m (pdu_triggerings m pdu) signal with
    | (.error e, m1) => (.error e, m1)
    | (.ok _, m1) =>
      let name := make_unique_name m1 pdu signal_name
      let mappingsM := get_or_create_sub_element m1 pdu .ISignalToPduMappings
      ISignalToIPduMapping.new mappingsM.2 name mappingsM.1 signal start_position
        byte_order update_bit transfer_property

end ISignalIPdu

namespace Signal

/-- Embeds `Signal::new`: fails invalid-parameter when the two packages are
the same element; otherwise creates the paired `ISignal`/`SystemSignal`. -/
def new (m : Model) (name : String) (bit_length : Nat) (sig_package sys_package : Nat) :
    Except Err Nat × Model :=
  if sig_package = sys_package then
    (.error (.InvalidParameter
      "you must use different packages for the ISIgnal and the SystemSignal"), m)
  else
    let sigElsM := get_or_create_sub_element m sig_package .Elements
    match create_named_sub_element sigElsM.2 sigElsM.1 .ISignal name with
    | .error e => (.error e, sigElsM.2)
    | .ok isigM =>
      let isig := isigM.1
      let sysElsM := get_or_create_sub_element isigM.2 sys_package .Elements
      match create_named_sub_element sysElsM.2 sysElsM.1 .SystemSignal name with
      | .error e => (.error e, sysElsM.2)
      | .ok syssigM =>
        let lenM := create_sub_element syssigM.2 isig .Length
        let m6 := set_character_data lenM.2 lenM.1 (.str (toString bit_length))
        let srefM := create_sub_element m6 isig .SystemSignalRef
        let m8 := set_reference_target srefM.2 srefM.1 syssigM.1
        let dtpM := create_sub_element m8 isig .DataTypePolicy
        (.ok isig, set_character_data dtpM.2 dtpM.1 (.enum .Override))

end Signal

namespace SignalGroup

/-- Embeds `SignalGroup::new`: the same dual-scope rule as `Signal::new`,
creating the paired `ISignalGroup`/`SystemSignalGroup`. -/
def new (m : Model) (name : String) (sig_package sys_package : Nat) :
    Except Err Nat × Model :=
  if sig_package = sys_package then
    (.error (.InvalidParameter
      "you must use different packages for the ISIgnal and the SystemSignal"), m)
  else
    let sigElsM := get_or_create_sub_element m sig_package .Elements
    match create_named_sub_element sigElsM.2 sigElsM.1 .ISignalGroup name with
    | .error e => (.error e, sigElsM.2)
    | .ok grpM =>
      let grp := grpM.1
      let sysElsM := get_or_create_sub_element grpM.2 sys_package .Elements
      match create_named_sub_element sysElsM.2 sysElsM.1 .SystemSignalGroup name with
      | .error e => (.error e, sysElsM.2)
      | .ok sysgrpM =>
        let srefM := create_sub_element sysgrpM.2 grp .SystemSignalGroupRef
        (.ok grp, set_reference_target srefM.2 srefM.1 sysgrpM.1)

end SignalGroup

/-! ## Well-formedness of a model

The structural facts that hold of every element graph built through the
collaborator's creation operations: a parent id is strictly below its child's
id, every listed child exists and points back to its parent, and an element
carries an item name exactly when its kind is an identifiable (named) kind. -/

/-- The identifiable (named) element kinds; all other kinds are unnamed
grouping, attribute or reference elements. -/
def isNamedKind : EName → Bool
  | .ISignalIPdu | .NmPdu | .NPdu | .DcmIPdu | .GeneralPurposePdu | .GeneralPurposeIPdu
  | .ContainerIPdu | .SecuredIPdu | .MultiplexedIPdu
  | .ISignalToIPduMapping | .PduTriggering | .ISignalTriggering | .IPduPort | .ISignalPort
  | .ISignal | .SystemSignal | .ISignalGroup | .SystemSignalGroup
  | .ArPackage | .EcuInstance
  | .CanCommunicationConnector | .EthernetCommunicationConnector
  | .FlexrayCommunicationConnector
  | .CanPhysicalChannel | .EthernetPhysicalChannel | .FlexrayPhysicalChannel
  | .UnknownKind => true
  | _ => false

/-- Well-formedness of one element of the graph.  The last clause reflects
that `set_reference_target` always takes an existing `&Element`, so a stored
reference target is an element of the graph. -/
def Elem.wfAt (m : Model) (i : Nat) (e : Elem) : Bool :=
  (match e.parent with
   | none => true
   | some p => decide (p < i)) &&
  (e.children.all fun c =>
    match m.get c with
    | some ce => decide (ce.parent = some i)
    | none => false) &&
  (e.itemName.isSome == isNamedKind e.ename) &&
  (match e.target with
   | none => true
   | some t => decide (t < m.elems.length))

/-- Well-formedness of the whole graph. -/
def WF (m : Model) : Bool :=
  (List.range m.elems.length).all fun i =>
    match m.get i with
    | some e => e.wfAt m i
    | none => true

/-! ## Derived observations and the extension relation -/

/-- The (ECU, direction) pairs of the ports of a `PduTriggering` (those whose
ECU and direction both resolve, as in the `connect_to_ecu` scan loops). -/
def ptPairs (m : Model) (pt : Nat) : List (Nat × CommunicationDirection) :=
  (pdu_ports m pt).filterMap fun p =>
    (port_ecu m p).bind fun e => (port_direction m p).map fun d => (e, d)

/-- The (ECU, direction) pairs of the ports of an `ISignalTriggering`. -/
def stPairs (m : Model) (st : Nat) : List (Nat × CommunicationDirection) :=
  (signal_ports m st).filterMap fun p =>
    (port_ecu m p).bind fun e => (port_direction m p).map fun d => (e, d)

/-- The number of elements of a given kind in the graph. -/
def countKind (m : Model) (k : EName) : Nat :=
  m.elems.countP fun e => decide (e.ename = k)

/-- `E` is an ECU instance element of the graph: an existing named element
with the `EcuInstance` kind tag. -/
def EcuOK (m : Model) (ecu : Nat) : Prop :=
  ∃ ee, m.get ecu = some ee ∧ ee.ename = .EcuInstance ∧ ee.itemName.isSome = true

/-- Element `i` exists and its kind is one of `ks`. -/
def kindIn (m : Model) (i : Nat) (ks : List EName) : Prop :=
  ∃ k, elemKind m i = some k ∧ k ∈ ks

/-- The mutation footprint of an operation: `m'` extends `m`, leaving every
pre-existing element's fields unchanged except that elements satisfying `S`
may have fresh children (of kinds satisfying `Kext`) appended; every fresh
element's kind satisfies `K`. -/
def ExtP (m m' : Model) (K Kext : EName → Prop) (S : Nat → Prop) : Prop :=
  m.elems.length ≤ m'.elems.length ∧
  (∀ i e, m.get i = some e → ∃ e', m'.get i = some e' ∧
    e'.ename = e.ename ∧ e'.itemName = e.itemName ∧ e'.parent = e.parent ∧
    e'.cdata = e.cdata ∧ e'.target = e.target ∧
    ∃ extra, e'.children = e.children ++ extra ∧ (extra = [] ∨ S i) ∧
      ∀ c ∈ extra, m.elems.length ≤ c ∧ ∃ ce, m'.get c = some ce ∧ Kext ce.ename) ∧
  (∀ c ce, m.elems.length ≤ c → m'.get c = some ce → K ce.ename)

/-- Kinds of the elements `ISignalTriggering::connect_to_ecu` may create. -/
def connK : EName → Prop := fun k =>
  k ∈ [EName.ISignalPort, .CommunicationDirection, .ISignalPortRefs, .ISignalPortRef,
    .EcuCommPortInstances]

/-- Kinds `ISignalTriggering::connect_to_ecu` may append to a pre-existing
element (never `CommunicationDirection`, which only ever goes under the fresh
port). -/
def connKext : EName → Prop := fun k =>
  k ∈ [EName.ISignalPort, .ISignalPortRefs, .ISignalPortRef, .EcuCommPortInstances]

/-- Pre-existing elements `ISignalTriggering::connect_to_ecu` may append
children to: the triggering itself, a connector, a port collection, or the
triggering's own port reference collection. -/
def connS (m : Model) (st : Nat) : Nat → Prop := fun i =>
  i = st ∨ kindIn m i [.CanCommunicationConnector, .EthernetCommunicationConnector,
    .FlexrayCommunicationConnector, .EcuCommPortInstances] ∨
  getSubElement m st .ISignalPortRefs = some i

/-- Kinds of elements `PduTriggering::connect_to_ecu` may create. -/
def ptConnK : EName → Prop := fun k =>
  connK k ∨ k ∈ [EName.IPduPort, .IPduPortRefs, .IPduPortRef]

/-- Kinds `PduTriggering::connect_to_ecu` may append to pre-existing elements. -/
def ptConnKext : EName → Prop := fun k =>
  connKext k ∨ k ∈ [EName.IPduPort, .IPduPortRefs, .IPduPortRef]

/-- Pre-existing elements `PduTriggering::connect_to_ecu` may append children
to: the triggering itself, connectors, port collections, its own PDU-port
reference collection, and its child signal triggerings with their port
reference collections. -/
def ptConnS (m : Model) (pt : Nat) : Nat → Prop := fun i =>
  i = pt ∨ kindIn m i [.CanCommunicationConnector, .EthernetCommunicationConnector,
    .FlexrayCommunicationConnector, .EcuCommPortInstances, .ISignalTriggering,
    .ISignalPortRefs] ∨
  getSubElement m pt .IPduPortRefs = some i

/-- Kinds of elements `PduTriggering::add_signal_triggering` may create. -/
def astK : EName → Prop := fun k =>
  connK k ∨ k ∈ [EName.ISignalTriggerings, .ISignalTriggering, .ISignalRef,
    .ISignalTriggeringRefConditional, .ISignalTriggeringRef]

/-- Kinds `PduTriggering::add_signal_triggering` may append to pre-existing
elements. -/
def astKext : EName → Prop := fun k =>
  connKext k ∨ k ∈ [EName.ISignalTriggerings, .ISignalTriggering,
    .ISignalTriggeringRefConditional]

/-- Pre-existing elements `PduTriggering::add_signal_triggering` may append
children to; the created triggering and its port reference collection are
fresh, so only the PDU triggering with its own triggerings collection, the
channel with its triggerings collection, connectors and port collections are
touched. -/
def astS (m : Model) (pt : Nat) : Nat → Prop := fun i =>
  i = pt ∨ kindIn m i [.CanPhysicalChannel, .EthernetPhysicalChannel,
    .FlexrayPhysicalChannel, .CanCommunicationConnector,
    .EthernetCommunicationConnector, .FlexrayCommunicationConnector,
    .EcuCommPortInstances] ∨
  getSubElement m pt .ISignalTriggerings = some i ∨
  ∃ ch, namedParentW m pt = some ch ∧ kindIn m ch [.CanPhysicalChannel,
    .EthernetPhysicalChannel, .FlexrayPhysicalChannel] ∧
  getSubElement m ch .ISignalTriggerings = some i

/-- Pre-existing elements the propagation loop of `PduTriggering::connect_to_ecu`
may append children to: the child signal triggerings (with their port
reference collections), connectors and port collections. -/
def clS (m : Model) : Nat → Prop := fun i =>
  kindIn m i [.ISignalTriggering, .CanCommunicationConnector,
    .EthernetCommunicationConnector, .FlexrayCommunicationConnector,
    .EcuCommPortInstances, .ISignalPortRefs]

/-- Pre-existing elements the fan-out loop of `ISignalIPdu::map_signal` may
append children to: the PDU triggerings themselves together with the
triggerings collections of the PDU triggerings and their channels, plus
connectors and port collections. -/
def mslS (m : Model) (pts : List Nat) : Nat → Prop := fun i =>
  i ∈ pts ∨ kindIn m i [.CanPhysicalChannel, .EthernetPhysicalChannel,
    .FlexrayPhysicalChannel, .CanCommunicationConnector,
    .EthernetCommunicationConnector, .FlexrayCommunicationConnector,
    .EcuCommPortInstances] ∨
  ∃ p, (p ∈ pts ∨ kindIn m p [.CanPhysicalChannel, .EthernetPhysicalChannel,
    .FlexrayPhysicalChannel]) ∧ getSubElement m p .ISignalTriggerings = some i

/-- Kinds of elements `ISignalIPdu::map_signal` may create. -/
def msK : EName → Prop := fun k =>
  astK k ∨ k ∈ [EName.ISignalToPduMappings, .ISignalToIPduMapping, .ISignalRef,
    .PackingByteOrder, .StartPosition, .TransferProperty, .UpdateIndicationBitPosition]

/-- Kinds `ISignalIPdu::map_signal` may append to pre-existing elements. -/
def msKext : EName → Prop := fun k =>
  astKext k ∨ k ∈ [EName.ISignalToPduMappings, .ISignalToIPduMapping]

/-- Pre-existing elements `ISignalIPdu::map_signal` may append children to. -/
def msS (m : Model) (pdu : Nat) : Nat → Prop := fun i =>
  i = pdu ∨ kindIn m i [.PduTriggering, .CanPhysicalChannel, .EthernetPhysicalChannel,
    .FlexrayPhysicalChannel, .ISignalTriggerings, .CanCommunicationConnector,
    .EthernetCommunicationConnector, .FlexrayCommunicationConnector,
    .EcuCommPortInstances, .ISignalToPduMappings]

/-! ## Concrete models used as witnesses

`demoBase` is the scenario state of spec §8: one channel, two ECUs connected
to it through connectors, an `ISignalIPdu` "P" and signals "S", "S2", none of
them triggered or mapped yet. -/

def demoBase : Model := ⟨[
  { ename := .ArPackage, itemName := some "Pkg", children := [1, 2, 6, 10, 11] },
  { ename := .CanPhysicalChannel, itemName := some "Chan", parent := some 0 },
  { ename := .EcuInstance, itemName := some "EcuA", parent := some 0, children := [3] },
  { ename := .Connectors, parent := some 2, children := [4] },
  { ename := .CanCommunicationConnector, itemName := some "ConnA", parent := some 3,
    children := [5] },
  { ename := .CommunicationConnectorRef, parent := some 4, target := some 1 },
  { ename := .EcuInstance, itemName := some "EcuB", parent := some 0, children := [7] },
  { ename := .Connectors, parent := some 6, children := [8] },
  { ename := .CanCommunicationConnector, itemName := some "ConnB", parent := some 7,
    children := [9] },
  { ename := .CommunicationConnectorRef, parent := some 8, target := some 1 },
  { ename := .ISignalIPdu, itemName := some "P", parent := some 0 },
  { ename := .ISignal, itemName := some "S", parent := some 0 }
]⟩

/-- First triggering of Pdu 10 on channel 1 (element 13 in the result). -/
def demoM1 : Model := (PduTriggering.new demoBase (Pdu.ISignalIPdu 10) 1).2

/-- `demoM1` with the triggering connected to EcuA (2) with direction In. -/
def demoM2 : Model := (PduTriggering.connect_to_ecu demoM1 13 2 .In).2

/-- `demoM2` with the triggering also connected to EcuB (6) with direction Out. -/
def demoM3 : Model := (PduTriggering.connect_to_ecu demoM2 13 6 .Out).2

/-- `demoM3` with a second triggering of Pdu 10 on channel 1 (element 24). -/
def demoM4 : Model := (PduTriggering.new demoM3 (Pdu.ISignalIPdu 10) 1).2

/-- `demoM4` after `map_signal` of signal 11 into Pdu 10: the spec §8
scenario state (signal triggerings 27 and 39, mapping 45). -/
def demoM5 : Model :=
  (ISignalIPdu.map_signal demoM4 10 11 0 .MostSignificantByteFirst (some 7) .Triggered).2

/-- `demoBase` with one more ECU instance (element 12) that has no connector
to any channel. -/
def c8Base : Model :=
  ⟨demoBase.elems ++ [{ ename := .EcuInstance, itemName := some "EcuC", parent := some 0 }]⟩

/-- `c8Base` with Pdu 10 triggered on channel 1 (triggering element 14). -/
def c8M1 : Model := (PduTriggering.new c8Base (Pdu.ISignalIPdu 10) 1).2

/-- `c8M1` with a signal triggering for signal 11 on channel 1 (element 17). -/
def c8M2 : Model := (ISignalTriggering.new c8M1 11 1).2

/-- A model exhibiting partial failure: `PduTriggering` 8 (of Pdu 6, on
channel 1) has a child `ISignalTriggering` reference resolving to element 14,
which sits under a plain package (13), so its `physical_channel` lookup fails
during the propagation loop. -/
def c9Base : Model := ⟨[
  { ename := .ArPackage, itemName := some "Pkg", children := [1, 2, 6, 13] },
  { ename := .CanPhysicalChannel, itemName := some "Chan", parent := some 0,
    children := [7] },
  { ename := .EcuInstance, itemName := some "EcuA", parent := some 0, children := [3] },
  { ename := .Connectors, parent := some 2, children := [4] },
  { ename := .CanCommunicationConnector, itemName := some "ConnA", parent := some 3,
    children := [5] },
  { ename := .CommunicationConnectorRef, parent := some 4, target := some 1 },
  { ename := .ISignalIPdu, itemName := some "P", parent := some 0 },
  { ename := .PduTriggerings, parent := some 1, children := [8] },
  { ename := .PduTriggering, itemName := some "PT_P", parent := some 7,
    children := [9, 10] },
  { ename := .IPduRef, parent := some 8, target := some 6 },
  { ename := .ISignalTriggerings, parent := some 8, children := [11] },
  { ename := .ISignalTriggeringRefConditional, parent := some 10, children := [12] },
  { ename := .ISignalTriggeringRef, parent := some 11, target := some 14 },
  { ename := .ArPackage, itemName := some "Other", parent := some 0, children := [14] },
  { ename := .ISignalTriggering, itemName := some "ST_X", parent := some 13 }
]⟩


/-- `demoM1` after `map_signal` of signal 11 into Pdu 10: the triggered but
unconnected Pdu gains signal triggering 16 (with no ports) and mapping 22. -/
def c2a : Model :=
  (ISignalIPdu.map_signal demoM1 10 11 0 .MostSignificantByteFirst none .Triggered).2

/-- `c2a` with signal triggering 16 connected directly to EcuA — its pair set
now differs from its parent PDU triggering's. -/
def c2b : Model := (ISignalTriggering.connect_to_ecu c2a 16 2 .In).2

/-- `c2a` with PDU triggering 13 connected to EcuA with direction In. -/
def c2c : Model := (PduTriggering.connect_to_ecu c2a 13 2 .In).2

/-- `c8M2` with signal triggering 17 connected to EcuA with direction In. -/
def c3stM : Model := (ISignalTriggering.connect_to_ecu c8M2 17 2 .In).2

/-- `demoM5` with a third triggering of Pdu 10 on channel 1 (element 51),
back-filled from mapping 45. -/
def c4M : Model := (PduTriggering.new demoM5 (Pdu.ISignalIPdu 10) 1).2

/-! ## Lemmas -/

theorem Model.get_some_lt {m : Model} {i : Nat} {e : Elem} (hi : m.get i = some e) :
    i < m.elems.length := by
  by_contra hge
  rw [Model.get, List.getElem?_eq_none_iff.2 (Nat.le_of_not_lt hge)] at hi
  exact Option.noConfusion hi

theorem Model.get_lt_isSome {m : Model} {i : Nat} (hi : i < m.elems.length) :
    ∃ e, m.get i = some e := ⟨m.elems[i], List.getElem?_eq_getElem hi⟩

theorem WF.elem_wf {m : Model} {i : Nat} {e : Elem} (h : WF m = true)
    (hi : m.get i = some e) : e.wfAt m i = true := by
  have hlen : i < m.elems.length := Model.get_some_lt hi
  have := (List.all_eq_true.1 h) i (List.mem_range.2 hlen)
  rw [show m.get i = some e from hi] at this
  exact this

theorem WF.parent_lt {m : Model} {i p : Nat} {e : Elem} (h : WF m = true)
    (hi : m.get i = some e) (hp : e.parent = some p) : p < i := by
  have hw := WF.elem_wf h hi
  simp only [Elem.wfAt, hp, Bool.and_eq_true, decide_eq_true_eq] at hw
  exact hw.1.1.1

theorem WF.child_parent {m : Model} {i c : Nat} {e : Elem} (h : WF m = true)
    (hi : m.get i = some e) (hc : c ∈ e.children) :
    ∃ ce, m.get c = some ce ∧ ce.parent = some i := by
  have hw := WF.elem_wf h hi
  simp only [Elem.wfAt, Bool.and_eq_true] at hw
  have := (List.all_eq_true.1 hw.1.1.2) c hc
  revert this
  cases hcc : m.get c with
  | none => simp
  | some ce => intro hh; exact ⟨ce, rfl, by simpa using hh⟩

theorem WF.named_iff {m : Model} {i : Nat} {e : Elem} (h : WF m = true)
    (hi : m.get i = some e) : e.itemName.isSome = isNamedKind e.ename := by
  have hw := WF.elem_wf h hi
  simp only [Elem.wfAt, Bool.and_eq_true] at hw
  simpa using hw.1.2

theorem WF.target_lt {m : Model} {i t : Nat} {e : Elem} (h : WF m = true)
    (hi : m.get i = some e) (ht : e.target = some t) : t < m.elems.length := by
  have hw := WF.elem_wf h hi
  simp only [Elem.wfAt, ht, Bool.and_eq_true, decide_eq_true_eq] at hw
  exact hw.2

/-! ## Primitive mutation lemmas -/

theorem Model.len_push (m : Model) (e : Elem) :
    (m.push e).elems.length = m.elems.length + 1 := by
  simp [Model.push]

theorem Model.len_modifyAt (m : Model) (i : Nat) (f : Elem → Elem) :
    (m.modifyAt i f).elems.length = m.elems.length := by
  unfold Model.modifyAt
  cases h : m.elems[i]? <;> simp

theorem Model.len_addChild (m : Model) (p c : Nat) :
    (m.addChild p c).elems.length = m.elems.length := Model.len_modifyAt ..

theorem len_set_character_data (m : Model) (i : Nat) (cd : CData) :
    (set_character_data m i cd).elems.length = m.elems.length := Model.len_modifyAt ..

theorem len_set_reference_target (m : Model) (i t : Nat) :
    (set_reference_target m i t).elems.length = m.elems.length := Model.len_modifyAt ..

theorem Model.get_push_lt (m : Model) (e : Elem) {i : Nat} (h : i < m.elems.length) :
    (m.push e).get i = m.get i := by
  simp [Model.push, Model.get, List.getElem?_append_left h]

theorem Model.get_push_len (m : Model) (e : Elem) :
    (m.push e).get m.elems.length = some e := by
  simp [Model.push, Model.get]

theorem Model.get_push_gt (m : Model) (e : Elem) {i : Nat} (h : m.elems.length < i) :
    (m.push e).get i = none := by
  apply List.getElem?_eq_none_iff.2
  simp [Model.push]
  omega

theorem Model.get_modifyAt_ne (m : Model) {i : Nat} (f : Elem → Elem) {j : Nat} (h : j ≠ i) :
    (m.modifyAt i f).get j = m.get j := by
  unfold Model.modifyAt
  cases hg : m.elems[i]? with
  | none => rfl
  | some e => simp [Model.get, List.getElem?_set_ne (Ne.symm h)]

theorem Model.get_modifyAt_self (m : Model) {i : Nat} (f : Elem → Elem) {e : Elem}
    (h : m.get i = some e) : (m.modifyAt i f).get i = some (f e) := by
  unfold Model.modifyAt
  rw [show m.elems[i]? = some e from h]
  have hlt : i < m.elems.length := Model.get_some_lt h
  simp [Model.get, List.getElem?_set_eq_of_lt _ hlt]

theorem Model.modifyAt_none {m : Model} {i : Nat} (f : Elem → Elem)
    (h : m.get i = none) : m.modifyAt i f = m := by
  unfold Model.modifyAt
  split
  · rfl
  · rename_i e heq
    rw [show m.elems[i]? = m.get i from rfl, h] at heq
    exact Option.noConfusion heq

theorem get_addChild_ne (m : Model) (h : j ≠ p) :
    (m.addChild p c).get j = m.get j := Model.get_modifyAt_ne m _ h

theorem get_addChild_self (m : Model) (h : m.get p = some e) :
    (m.addChild p c).get p = some { e with children := e.children ++ [c] } :=
  Model.get_modifyAt_self m _ h

theorem get_set_character_data_ne (m : Model) (cd : CData) (h : j ≠ i) :
    (set_character_data m i cd).get j = m.get j := Model.get_modifyAt_ne m _ h

theorem get_set_character_data_self (m : Model) (cd : CData) (h : m.get i = some e) :
    (set_character_data m i cd).get i = some { e with cdata := some cd } :=
  Model.get_modifyAt_self m _ h

theorem get_set_reference_target_ne (m : Model) (t : Nat) (h : j ≠ i) :
    (set_reference_target m i t).get j = m.get j := Model.get_modifyAt_ne m _ h

theorem get_set_reference_target_self (m : Model) (t : Nat) (h : m.get i = some e) :
    (set_reference_target m i t).get i = some { e with target := some t } :=
  Model.get_modifyAt_self m _ h

/-! ## Characterizations of the composite store operations -/

theorem getSub_kind {m : Model} {i : Nat} {n : EName} {c : Nat}
    (h : getSubElement m i n = some c) : elemKind m c = some n := by
  unfold getSubElement at h
  cases hg : m.get i with
  | none => rw [hg] at h; simp at h
  | some e =>
    rw [hg] at h
    simp only [Option.some_bind] at h
    simpa using List.find?_some h

theorem getSub_mem {m : Model} {i : Nat} {n : EName} {c : Nat}
    (h : getSubElement m i n = some c) : ∃ e, m.get i = some e ∧ c ∈ e.children := by
  unfold getSubElement at h
  cases hg : m.get i with
  | none => rw [hg] at h; simp at h
  | some e =>
    rw [hg] at h
    simp only [Option.some_bind] at h
    exact ⟨e, rfl, List.mem_of_find?_eq_some h⟩

theorem getSub_lt {m : Model} {i : Nat} {n : EName} {c : Nat}
    (h : getSubElement m i n = some c) : c < m.elems.length := by
  have hk := getSub_kind h
  unfold elemKind at hk
  cases hg : m.get c with
  | none => rw [hg] at hk; simp at hk
  | some e => exact Model.get_some_lt hg

theorem create_named_ok {m : Model} {p : Nat} {n : EName} {name : String} {c : Nat}
    {m₂ : Model} (h : create_named_sub_element m p n name = .ok (c, m₂)) :
    c = m.fresh ∧
    m₂ = (m.push { ename := n, itemName := some name, parent := some p }).addChild p m.fresh := by
  unfold create_named_sub_element at h
  split at h
  · exact absurd h (by simp)
  · injection h with h1
    exact ⟨congrArg Prod.fst h1.symm, congrArg Prod.snd h1.symm⟩

theorem goc_fst_lt {m : Model} {p : Nat} {n : EName} {c : Nat} {m₂ : Model}
    (h : get_or_create_sub_element m p n = (c, m₂)) : c < m₂.elems.length := by
  unfold get_or_create_sub_element at h
  cases hg : getSubElement m p n with
  | some c0 =>
    rw [hg] at h
    injection h with h1 h2
    subst h1; subst h2
    exact getSub_lt hg
  | none =>
    rw [hg] at h
    unfold create_sub_element at h
    injection h with h1 h2
    subst h1; subst h2
    simp [Model.fresh, Model.len_addChild, Model.len_push]

/-- The element returned by `pduNew` on success carries the requested kind. -/
theorem pduNew_kind {k : EName} {m : Model} {name : String} {pkg len p : Nat} {m' : Model}
    (h : pduNew k m name pkg len = (.ok p, m')) : elemKind m' p = some k := by
  rcases hoc : get_or_create_sub_element m pkg .Elements with ⟨els, m1⟩
  cases hcn : create_named_sub_element m1 els k name with
  | error e => simp [pduNew, hoc, hcn] at h
  | ok qM =>
    obtain ⟨q, m2⟩ := qM
    simp only [pduNew, hoc, hcn, create_sub_element, Model.fresh] at h
    injection h with h1 h2
    injection h1 with h1
    obtain ⟨hq, hm2⟩ := create_named_ok hcn
    have hels : els < m1.elems.length := goc_fst_lt hoc
    have hgq : m2.get q = some { ename := k, itemName := some name, parent := some els } := by
      rw [hm2, hq]
      rw [get_addChild_ne _ (by simp only [Model.fresh]; omega)]
      exact Model.get_push_len m1 _
    have hlen2 : m2.elems.length = m1.elems.length + 1 := by
      rw [hm2]; simp [Model.len_addChild, Model.len_push]
    have hqlt : q < m2.elems.length := by rw [hlen2, hq]; simp [Model.fresh]
    have hqne : q ≠ m2.elems.length := by omega
    subst h1
    rw [← h2]
    unfold elemKind
    rw [get_set_character_data_ne _ _ hqne,
      get_addChild_self _ (by rw [Model.get_push_lt _ _ hqlt]; exact hgq)]
    rfl

/-! ## Fuel lemmas for the ancestor walks -/

theorem namedParentA_irrel (m : Model) :
    ∀ (fuel fuel' i : Nat), i < fuel → i < fuel' →
      namedParentA m fuel i = namedParentA m fuel' i := by
  intro fuel
  induction fuel with
  | zero => intro fuel' i h _; omega
  | succ fuel ih =>
    intro fuel' i h h'
    cases fuel' with
    | zero => omega
    | succ fuel' =>
      simp only [namedParentA]
      cases hg : m.get i with
      | none => rfl
      | some e =>
        dsimp only
        cases hp : e.parent with
        | none => rfl
        | some p =>
          dsimp only
          by_cases hpi : p < i
          · simp only [if_pos hpi]
            cases hgp : m.get p with
            | none => rfl
            | some pe =>
              dsimp only
              by_cases hn : pe.itemName.isSome = true
              · simp [hn]
              · simp only [hn, if_false, Bool.false_eq_true]
                exact ih fuel' p (by omega) (by omega)
          · simp [hpi]

/-- One-step unfolding of `namedParentW`. -/
theorem namedParentW_eq (m : Model) (i : Nat) :
    namedParentW m i =
      (match m.get i with
       | none => none
       | some e =>
         match e.parent with
         | none => none
         | some p =>
           if p < i then
             match m.get p with
             | none => none
             | some pe => if pe.itemName.isSome then some p else namedParentW m p
           else none) := by
  show namedParentA m (i + 1) i = _
  simp only [namedParentA]
  cases hg : m.get i with
  | none => rfl
  | some e =>
    dsimp only
    cases hp : e.parent with
    | none => rfl
    | some p =>
      dsimp only
      by_cases hpi : p < i
      · simp only [if_pos hpi]
        cases hgp : m.get p with
        | none => rfl
        | some pe =>
          dsimp only
          by_cases hn : pe.itemName.isSome = true
          · simp [hn]
          · simp only [hn, if_false, Bool.false_eq_true]
            exact namedParentA_irrel m i (p + 1) p (by omega) (by omega)
      · simp [hpi]

theorem namedParentA_lt (m : Model) :
    ∀ (fuel i j : Nat), namedParentA m fuel i = some j → j < i := by
  intro fuel
  induction fuel with
  | zero => intro i j h; simp [namedParentA] at h
  | succ fuel ih =>
    intro i j h
    simp only [namedParentA] at h
    cases hg : m.get i with
    | none => rw [hg] at h; simp at h
    | some e =>
      rw [hg] at h
      dsimp only at h
      cases hp : e.parent with
      | none => rw [hp] at h; simp at h
      | some p =>
        rw [hp] at h
        dsimp only at h
        by_cases hpi : p < i
        · rw [if_pos hpi] at h
          cases hgp : m.get p with
          | none => rw [hgp] at h; simp at h
          | some pe =>
            rw [hgp] at h
            dsimp only at h
            by_cases hn : pe.itemName.isSome = true
            · rw [if_pos hn] at h; cases h; exact hpi
            · rw [if_neg hn] at h; exact lt_trans (ih p j h) hpi
        · rw [if_neg hpi] at h; simp at h

theorem namedParentW_lt {m : Model} {i j : Nat} (h : namedParentW m i = some j) : j < i :=
  namedParentA_lt m (i + 1) i j h

theorem namedParentA_named (m : Model) :
    ∀ (fuel i j : Nat), namedParentA m fuel i = some j →
      ∃ je, m.get j = some je ∧ je.itemName.isSome = true := by
  intro fuel
  induction fuel with
  | zero => intro i j h; simp [namedParentA] at h
  | succ fuel ih =>
    intro i j h
    simp only [namedParentA] at h
    cases hg : m.get i with
    | none => rw [hg] at h; simp at h
    | some e =>
      rw [hg] at h
      dsimp only at h
      cases hp : e.parent with
      | none => rw [hp] at h; simp at h
      | some p =>
        rw [hp] at h
        dsimp only at h
        by_cases hpi : p < i
        · rw [if_pos hpi] at h
          cases hgp : m.get p with
          | none => rw [hgp] at h; simp at h
          | some pe =>
            rw [hgp] at h
            dsimp only at h
            by_cases hn : pe.itemName.isSome = true
            · rw [if_pos hn] at h; cases h; exact ⟨pe, hgp, hn⟩
            · rw [if_neg hn] at h; exact ih p j h
        · rw [if_neg hpi] at h; simp at h

theorem namedParentW_named {m : Model} {i j : Nat} (h : namedParentW m i = some j) :
    ∃ je, m.get j = some je ∧ je.itemName.isSome = true :=
  namedParentA_named m (i + 1) i j h

/-! ## List helpers -/

theorem find?_congr_mem {α : Type} {l : List α} {p q : α → Bool}
    (h : ∀ a ∈ l, p a = q a) : l.find? p = l.find? q := by
  induction l with
  | nil => rfl
  | cons a l ih =>
    simp only [List.find?]
    rw [h a (by simp)]
    cases hq : q a with
    | true => rfl
    | false => exact ih fun b hb => h b (List.mem_cons_of_mem _ hb)

theorem find?_append_some {α : Type} {l₁ l₂ : List α} {p : α → Bool} {c : α}
    (h : l₁.find? p = some c) : (l₁ ++ l₂).find? p = some c := by
  induction l₁ with
  | nil => simp [List.find?] at h
  | cons a l ih =>
    simp only [List.find?, List.cons_append] at h ⊢
    cases hp : p a with
    | true => rw [hp] at h; exact h
    | false => rw [hp] at h; exact ih h

theorem find?_append_none {α : Type} {l₁ l₂ : List α} {p : α → Bool}
    (h : l₁.find? p = none) : (l₁ ++ l₂).find? p = l₂.find? p := by
  induction l₁ with
  | nil => simp
  | cons a l ih =>
    simp only [List.find?, List.cons_append] at h ⊢
    cases hp : p a with
    | true => rw [hp] at h; exact absurd h (by simp)
    | false => rw [hp] at h; exact ih h

theorem countP_eq_of_pointwise {α : Type} {p : α → Bool} :
    ∀ (l₁ l₂ : List α), l₁.length = l₂.length →
      (∀ (i : Nat) (h1 : i < l₁.length) (h2 : i < l₂.length), p l₁[i] = p l₂[i]) →
      l₁.countP p = l₂.countP p := by
  intro l₁
  induction l₁ with
  | nil => intro l₂ hlen _; cases l₂ with
    | nil => rfl
    | cons b l₂ => simp at hlen
  | cons a l₁ ih =>
    intro l₂ hlen hpt
    cases l₂ with
    | nil => simp at hlen
    | cons b l₂ =>
      simp only [List.countP_cons]
      have h0 := hpt 0 (by simp) (by simp)
      simp only [List.getElem_cons_zero] at h0
      rw [ih l₂ (by simpa using hlen)
        (fun i h1 h2 => by simpa using hpt (i + 1) (by simpa using h1) (by simpa using h2)),
        h0]

/-! ## Stability lemmas under the extension relation -/

theorem ExtP.refl (m : Model) (K Kext : EName → Prop) (S : Nat → Prop) :
    ExtP m m K Kext S := by
  refine ⟨le_refl _, fun i e hi => ⟨e, hi, rfl, rfl, rfl, rfl, rfl, [], by simp, by simp⟩,
    fun c ce hc hg => ?_⟩
  exact absurd (Model.get_some_lt hg) (by omega)

theorem ExtP.mono {m m' : Model} {K Kext S K' Kext' S'} (h : ExtP m m' K Kext S)
    (hK : ∀ k, K k → K' k) (hKe : ∀ k, Kext k → Kext' k) (hS : ∀ i, S i → S' i) :
    ExtP m m' K' Kext' S' := by
  obtain ⟨h1, h2, h3⟩ := h
  refine ⟨h1, fun i e hi => ?_, fun c ce hc hg => hK _ (h3 c ce hc hg)⟩
  obtain ⟨e', hg', ha, hb, hc', hd, he, extra, hch, hne, hex⟩ := h2 i e hi
  exact ⟨e', hg', ha, hb, hc', hd, he, extra, hch, hne.imp id (hS i),
    fun c hcm => ⟨(hex c hcm).1, (hex c hcm).2.imp fun ce hce => ⟨hce.1, hKe _ hce.2⟩⟩⟩

theorem ExtP.comp {m m1 m2 : Model} {K Kext : EName → Prop} {S S' : Nat → Prop}
    (h1 : ExtP m m1 K Kext S) (h2 : ExtP m1 m2 K Kext S')
    (hS : ∀ i e, m.get i = some e → S' i → S i) : ExtP m m2 K Kext S := by
  obtain ⟨h1a, h1b, h1c⟩ := h1
  obtain ⟨h2a, h2b, h2c⟩ := h2
  refine ⟨le_trans h1a h2a, fun i e hi => ?_, fun c ce hc hg => ?_⟩
  · obtain ⟨e1, hg1, ha1, hb1, hc1, hd1, he1, x1, hch1, hne1, hex1⟩ := h1b i e hi
    obtain ⟨e2, hg2, ha2, hb2, hc2, hd2, he2, x2, hch2, hne2, hex2⟩ := h2b i e1 hg1
    refine ⟨e2, hg2, ha2.trans ha1, hb2.trans hb1, hc2.trans hc1, hd2.trans hd1,
      he2.trans he1, x1 ++ x2, by rw [hch2, hch1, List.append_assoc], ?_, ?_⟩
    · rcases hne1 with hx1 | hs1
      · rcases hne2 with hx2 | hs2
        · left; rw [hx1, hx2]; rfl
        · right; exact hS i e hi hs2
      · right; exact hs1
    · intro c hcm
      rcases List.mem_append.1 hcm with hcm1 | hcm2
      · obtain ⟨hcl, ce1, hce1, hke1⟩ := hex1 c hcm1
        obtain ⟨ce2, hg2', ha2', _, _, _, _, _⟩ := h2b c ce1 hce1
        exact ⟨hcl, ce2, hg2', by rw [ha2']; exact hke1⟩
      · obtain ⟨hcl, hrest⟩ := hex2 c hcm2
        exact ⟨le_trans h1a hcl, hrest⟩
  · by_cases hlt : c < m1.elems.length
    · obtain ⟨ce1, hg1⟩ := Model.get_lt_isSome hlt
      obtain ⟨ce2, hg2, ha2, _, _, _, _, _⟩ := h2b c ce1 hg1
      rw [hg2] at hg
      cases hg
      rw [ha2]
      exact h1c c ce1 hc hg1
    · exact h2c c ce (by omega) hg

theorem ExtP.elemKind_stable {m m' : Model} {K Kext S} (h : ExtP m m' K Kext S)
    {i : Nat} (hlt : i < m.elems.length) : elemKind m' i = elemKind m i := by
  obtain ⟨e, hg⟩ := Model.get_lt_isSome hlt
  obtain ⟨e', hg', ha, _, _, _, _, _⟩ := h.2.1 i e hg
  simp [elemKind, hg, hg', ha]

theorem ExtP.elemName_stable {m m' : Model} {K Kext S} (h : ExtP m m' K Kext S)
    {i : Nat} (hlt : i < m.elems.length) : elemName m' i = elemName m i := by
  obtain ⟨e, hg⟩ := Model.get_lt_isSome hlt
  obtain ⟨e', hg', _, hb, _, _, _, _⟩ := h.2.1 i e hg
  simp [elemName, hg, hg', hb]

theorem ExtP.namedParent_stable {m m' : Model} {K Kext S} (h : ExtP m m' K Kext S) :
    ∀ i, i < m.elems.length → namedParentW m' i = namedParentW m i := by
  intro i
  induction i using Nat.strong_induction_on with
  | _ i ih =>
    intro hlt
    obtain ⟨e, hg⟩ := Model.get_lt_isSome hlt
    obtain ⟨e', hg', _, _, hpar, _, _, _⟩ := h.2.1 i e hg
    rw [namedParentW_eq m' i, namedParentW_eq m i, hg, hg']
    dsimp only
    rw [hpar]
    cases hp : e.parent with
    | none => rfl
    | some p =>
      dsimp only
      by_cases hpi : p < i
      · simp only [if_pos hpi]
        have hplt : p < m.elems.length := lt_trans hpi hlt
        obtain ⟨pe, hgp⟩ := Model.get_lt_isSome hplt
        obtain ⟨pe', hgp', _, hnm, _, _, _, _⟩ := h.2.1 p pe hgp
        rw [hgp, hgp']
        dsimp only
        rw [hnm]
        by_cases hn : pe.itemName.isSome = true
        · simp [hn]
        · simp only [hn, if_false, Bool.false_eq_true]
          exact ih p hpi hplt
      · simp [hpi]

theorem ExtP.getSub_some {m m' : Model} {K Kext S} (h : ExtP m m' K Kext S)
    (hwf : WF m = true) {i : Nat} {n : EName} {c : Nat}
    (hs : getSubElement m i n = some c) : getSubElement m' i n = some c := by
  obtain ⟨e, hg, hmem⟩ := getSub_mem hs
  obtain ⟨e', hg', _, _, _, _, _, extra, hch, _, _⟩ := h.2.1 i e hg
  unfold getSubElement at hs ⊢
  rw [hg] at hs
  rw [hg']
  simp only [Option.some_bind] at hs ⊢
  rw [hch]
  apply find?_append_some
  rw [find?_congr_mem (q := fun c => decide (elemKind m c = some n))]
  · exact hs
  · intro a ha
    obtain ⟨ae, hga, _⟩ := WF.child_parent hwf hg ha
    obtain ⟨ae', hga', haen, _, _, _, _, _⟩ := h.2.1 a ae hga
    simp [elemKind, hga, hga', haen]

theorem ExtP.getSub_not_S {m m' : Model} {K Kext S} (h : ExtP m m' K Kext S)
    (hwf : WF m = true) {i : Nat} {e : Elem} (hg : m.get i = some e) (hns : ¬ S i)
    (n : EName) : getSubElement m' i n = getSubElement m i n := by
  obtain ⟨e', hg', _, _, _, _, _, extra, hch, hne, _⟩ := h.2.1 i e hg
  have hx : extra = [] := by
    rcases hne with hx | hs
    · exact hx
    · exact absurd hs hns
  unfold getSubElement
  rw [hg, hg']
  simp only [Option.some_bind]
  rw [hch, hx, List.append_nil]
  apply find?_congr_mem
  intro a ha
  obtain ⟨ae, hga, _⟩ := WF.child_parent hwf hg ha
  obtain ⟨ae', hga', haen, _, _, _, _, _⟩ := h.2.1 a ae hga
  simp [elemKind, hga, hga', haen]

theorem ExtP.getSub_none {m m' : Model} {K Kext S} (h : ExtP m m' K Kext S)
    (hwf : WF m = true) {i : Nat} {e : Elem} (hg : m.get i = some e) {n : EName}
    (hn : getSubElement m i n = none) (hk : ¬ Kext n) :
    getSubElement m' i n = none := by
  obtain ⟨e', hg', _, _, _, _, _, extra, hch, _, hex⟩ := h.2.1 i e hg
  unfold getSubElement at hn ⊢
  rw [hg] at hn
  rw [hg']
  simp only [Option.some_bind] at hn ⊢
  rw [hch]
  rw [List.find?_eq_none] at hn ⊢
  intro a ha
  rcases List.mem_append.1 ha with ha1 | ha2
  · obtain ⟨ae, hga, _⟩ := WF.child_parent hwf hg ha1
    obtain ⟨ae', hga', haen, _, _, _, _, _⟩ := h.2.1 a ae hga
    have hthis := hn a ha1
    simp only [elemKind, hga, Option.map_some', decide_eq_true_eq,
      Option.some.injEq] at hthis
    simp only [elemKind, hga', Option.map_some', decide_eq_true_eq, Option.some.injEq,
      haen]
    exact hthis
  · obtain ⟨_, ce, hce, hkce⟩ := hex a ha2
    simp only [elemKind, hce, Option.map_some', decide_eq_true_eq, Option.some.injEq]
    intro hq
    rw [hq] at hkce
    exact hk hkce

theorem ExtP.grt_some {m m' : Model} {K Kext S} (h : ExtP m m' K Kext S)
    {r t : Nat} (hg : get_reference_target m r = some t) :
    get_reference_target m' r = some t := by
  unfold get_reference_target at hg ⊢
  cases hgr : m.get r with
  | none => rw [hgr] at hg; simp at hg
  | some re =>
    rw [hgr] at hg
    simp only [Option.some_bind] at hg
    obtain ⟨re', hgr', _, _, _, _, htar, _⟩ := h.2.1 r re hgr
    rw [hgr']
    simp only [Option.some_bind, htar]
    cases htg : re.target with
    | none => rw [htg] at hg; simp at hg
    | some t0 =>
      rw [htg] at hg
      simp only [Option.some_bind] at hg
      cases hgt : m.get t0 with
      | none => rw [hgt] at hg; simp at hg
      | some te =>
        rw [hgt] at hg
        simp only [Option.map_some'] at hg
        cases hg
        obtain ⟨te', hgt', _⟩ := h.2.1 _ te hgt
        simp only [Option.some_bind, hgt', Option.map_some']

theorem ExtP.grt_old {m m' : Model} {K Kext S} (h : ExtP m m' K Kext S)
    {r : Nat} (hr : r < m.elems.length) :
    get_reference_target m' r = get_reference_target m r ∨
    ∃ t ce, get_reference_target m' r = some t ∧ m.elems.length ≤ t ∧
      m'.get t = some ce ∧ K ce.ename := by
  obtain ⟨re, hgr⟩ := Model.get_lt_isSome hr
  obtain ⟨re', hgr', _, _, _, _, htar, _⟩ := h.2.1 r re hgr
  unfold get_reference_target
  rw [hgr, hgr']
  simp only [Option.some_bind]
  rw [htar]
  cases htg : re.target with
  | none => left; rfl
  | some t =>
    simp only [Option.some_bind]
    by_cases hlt : t < m.elems.length
    · obtain ⟨te, hgt⟩ := Model.get_lt_isSome hlt
      obtain ⟨te', hgt', _⟩ := h.2.1 t te hgt
      left
      simp [hgt, hgt']
    · cases hgt' : m'.get t with
      | none =>
        left
        have hgt : m.get t = none := by
          rw [Model.get, List.getElem?_eq_none_iff.2 (by omega)]
        simp [hgt, hgt']
      | some ce =>
        right
        exact ⟨t, ce, by simp [hgt'], by omega, hgt', h.2.2 t ce (by omega) hgt'⟩

theorem ExtP.port_ecu_stable {m m' : Model} {K Kext S} (h : ExtP m m' K Kext S)
    {p : Nat} (hp : p < m.elems.length) : port_ecu m' p = port_ecu m p := by
  unfold port_ecu
  rw [ExtP.namedParent_stable h p hp]
  cases hc : namedParentW m p with
  | none => rfl
  | some conn =>
    have hconnlt : conn < m.elems.length := lt_trans (namedParentW_lt hc) hp
    simp only [Option.some_bind]
    rw [ExtP.namedParent_stable h conn hconnlt]
    cases he : namedParentW m conn with
    | none => rfl
    | some ecu =>
      have hecult : ecu < m.elems.length := lt_trans (namedParentW_lt he) hconnlt
      simp only [Option.some_bind]
      rw [ExtP.elemKind_stable h hecult]

theorem ExtP.port_direction_stable {m m' : Model} {K Kext S} (h : ExtP m m' K Kext S)
    (hwf : WF m = true) {p : Nat} {pe : Elem} (hp : m.get p = some pe)
    (hkext : ¬ Kext .CommunicationDirection) :
    port_direction m' p = port_direction m p := by
  unfold port_direction
  cases hs : getSubElement m p .CommunicationDirection with
  | none => rw [ExtP.getSub_none h hwf hp hs hkext]; rfl
  | some cd =>
    rw [ExtP.getSub_some h hwf hs]
    simp only [Option.some_bind]
    obtain ⟨e, hg, hmem⟩ := getSub_mem hs
    obtain ⟨ce, hgc, _⟩ := WF.child_parent hwf hg hmem
    obtain ⟨ce', hgc', _, _, _, hcd, _, _⟩ := h.2.1 cd ce hgc
    rw [hgc, hgc']
    simp only [Option.some_bind]
    rw [hcd]

theorem ExtP.countKind_stable {m m' : Model} {K Kext S} (h : ExtP m m' K Kext S)
    {k : EName} (hk : ¬ K k) : countKind m' k = countKind m k := by
  unfold countKind
  have hsplit : m'.elems = m'.elems.take m.elems.length ++ m'.elems.drop m.elems.length :=
    (List.take_append_drop _ _).symm
  rw [hsplit, List.countP_append]
  have h1 : (m'.elems.take m.elems.length).countP (fun e => decide (e.ename = k)) =
      m.elems.countP (fun e => decide (e.ename = k)) := by
    apply countP_eq_of_pointwise
    · rw [List.length_take]
      exact Nat.min_eq_left h.1
    · intro i h1 h2
      have hilt : i < m.elems.length := by
        rw [List.length_take] at h1; omega
      obtain ⟨e, hg⟩ := Model.get_lt_isSome hilt
      obtain ⟨e', hg', ha, _⟩ := h.2.1 i e hg
      have hgi : m.elems[i] = e := by
        have := hg; rw [Model.get, List.getElem?_eq_getElem hilt] at this
        exact Option.some.inj this
      have hgi' : (m'.elems.take m.elems.length)[i] = e' := by
        have hilt' : i < m'.elems.length := lt_of_lt_of_le hilt h.1
        rw [List.getElem_take]
        have := hg'; rw [Model.get, List.getElem?_eq_getElem hilt'] at this
        exact Option.some.inj this
      rw [hgi, hgi', ha]
  rw [h1]
  have h2 : (m'.elems.drop m.elems.length).countP (fun e => decide (e.ename = k)) = 0 := by
    rw [List.countP_eq_zero]
    intro a ha
    rw [List.mem_iff_getElem] at ha
    obtain ⟨j, hj, hja⟩ := ha
    rw [List.getElem_drop] at hja
    have hg : m'.get (m.elems.length + j) = some a := by
      rw [Model.get, List.getElem?_eq_getElem (by rw [List.length_drop] at hj; omega)]
      rw [hja]
    have := h.2.2 _ a (by omega) hg
    simp only [decide_eq_true_eq]
    intro hq
    rw [hq] at this
    exact hk this
  omega

/-! ## Preservation of well-formedness by the primitives -/

theorem WF_push {m : Model} {e : Elem} {p : Nat} (hwf : WF m = true)
    (hp : e.parent = some p) (hplt : p < m.elems.length)
    (hch : e.children = []) (hname : e.itemName.isSome = isNamedKind e.ename)
    (htg : e.target = none) :
    WF (m.push e) = true := by
  rw [WF, List.all_eq_true]
  intro i hi
  rw [List.mem_range, Model.len_push] at hi
  by_cases hlt : i < m.elems.length
  · obtain ⟨ei, hg⟩ := Model.get_lt_isSome hlt
    rw [Model.get_push_lt m e hlt, hg]
    have hw := WF.elem_wf hwf hg
    simp only [Elem.wfAt] at hw ⊢
    simp only [Bool.and_eq_true] at hw ⊢
    refine ⟨⟨⟨hw.1.1.1, ?_⟩, hw.1.2⟩, ?_⟩
    · rw [List.all_eq_true] at hw ⊢
      intro c hc
      have := hw.1.1.2 c hc
      revert this
      cases hgc : m.get c with
      | none => simp
      | some ce =>
        rw [Model.get_push_lt m e (Model.get_some_lt hgc), hgc]
        exact id
    · have htw := hw.2
      revert htw
      cases ht : ei.target with
      | none => simp
      | some t =>
        simp only [decide_eq_true_eq]
        intro htw
        rw [Model.len_push]
        omega
  · have hieq : i = m.elems.length := by omega
    subst hieq
    rw [Model.get_push_len]
    simp only [Elem.wfAt, Bool.and_eq_true]
    exact ⟨⟨⟨by simp [hp, hplt], by simp [hch]⟩, by simp [hname]⟩, by simp [htg]⟩

theorem WF_addChild {m : Model} {p c : Nat} {ce : Elem} (hwf : WF m = true)
    (hc : m.get c = some ce) (hcp : ce.parent = some p) :
    WF (m.addChild p c) = true := by
  have hplt2 : p < c := WF.parent_lt hwf hc hcp
  have hget : ∀ j, (m.addChild p c).get j = m.get j ∨
      ∃ ej, m.get j = some ej ∧ j = p ∧
        (m.addChild p c).get j = some { ej with children := ej.children ++ [c] } := by
    intro j
    by_cases hj : j = p
    · subst hj
      cases hgp : m.get j with
      | none =>
        left
        have heq : m.addChild j c = m := Model.modifyAt_none _ hgp
        rw [heq]
        exact hgp
      | some ej => right; exact ⟨ej, rfl, rfl, get_addChild_self m hgp⟩
    · left; exact get_addChild_ne m hj
  rw [WF, List.all_eq_true]
  intro i hi
  rw [List.mem_range, Model.len_addChild] at hi
  obtain ⟨ei, hg⟩ := Model.get_lt_isSome hi
  have hchildwf : ∀ (l : List Nat), (∀ x ∈ l, (match m.get x with
      | some cx => decide (cx.parent = some i)
      | none => false) = true) →
      ∀ x ∈ l, (match (m.addChild p c).get x with
      | some cx => decide (cx.parent = some i)
      | none => false) = true := by
    intro l hl x hx
    have := hl x hx
    rcases hget x with hsame | ⟨ex, hgx, hxp, hmod⟩
    · rw [hsame]; exact this
    · rw [hgx] at this
      rw [hmod]
      simpa using this
  rcases hget i with hsame | ⟨ei0, hg0, hip, hmod⟩
  · rw [hsame, hg]
    have hw := WF.elem_wf hwf hg
    simp only [Elem.wfAt] at hw ⊢
    simp only [Bool.and_eq_true] at hw ⊢
    refine ⟨⟨⟨hw.1.1.1, ?_⟩, hw.1.2⟩,
      by simp only [Model.len_addChild]; exact hw.2⟩
    rw [List.all_eq_true] at hw ⊢
    exact hchildwf ei.children hw.1.1.2
  · rw [hmod]
    have hw := WF.elem_wf hwf hg0
    simp only [Elem.wfAt] at hw ⊢
    simp only [Bool.and_eq_true] at hw ⊢
    refine ⟨⟨⟨hw.1.1.1, ?_⟩, hw.1.2⟩,
      by simp only [Model.len_addChild]; exact hw.2⟩
    rw [List.all_eq_true] at hw ⊢
    intro x hx
    simp only [List.mem_append, List.mem_singleton] at hx
    rcases hx with hx | hx
    · exact hchildwf ei0.children hw.1.1.2 x hx
    · subst hx
      have hcpne : x ≠ p := by omega
      rw [get_addChild_ne m hcpne, hc, hip]
      simpa using hcp

theorem WF_modify_data {m : Model} {i : Nat} {f : Elem → Elem} (hwf : WF m = true)
    (hf : ∀ e, (f e).parent = e.parent ∧ (f e).children = e.children ∧
      (f e).itemName = e.itemName ∧ (f e).ename = e.ename ∧
      ((f e).target = e.target ∨ ∃ t, (f e).target = some t ∧ t < m.elems.length)) :
    WF (m.modifyAt i f) = true := by
  have hget : ∀ j, (m.modifyAt i f).get j = m.get j ∨
      ∃ ej, m.get j = some ej ∧ j = i ∧ (m.modifyAt i f).get j = some (f ej) := by
    intro j
    by_cases hj : j = i
    · subst hj
      cases hgp : m.get j with
      | none =>
        left
        have heq : m.modifyAt j f = m := Model.modifyAt_none f hgp
        rw [heq]
        exact hgp
      | some ej => right; exact ⟨ej, rfl, rfl, Model.get_modifyAt_self m f hgp⟩
    · left; exact Model.get_modifyAt_ne m f hj
  rw [WF, List.all_eq_true]
  intro j hj
  rw [List.mem_range, Model.len_modifyAt] at hj
  obtain ⟨ej, hg⟩ := Model.get_lt_isSome hj
  have hchildwf : ∀ (l : List Nat), (∀ x ∈ l, (match m.get x with
      | some cx => decide (cx.parent = some j)
      | none => false) = true) →
      ∀ x ∈ l, (match (m.modifyAt i f).get x with
      | some cx => decide (cx.parent = some j)
      | none => false) = true := by
    intro l hl x hx
    have := hl x hx
    rcases hget x with hsame | ⟨ex, hgx, hxp, hmod⟩
    · rw [hsame]; exact this
    · rw [hgx] at this
      rw [hmod]
      simpa [(hf ex).1] using this
  rcases hget j with hsame | ⟨ej0, hg0, hji, hmod⟩
  · rw [hsame, hg]
    have hw := WF.elem_wf hwf hg
    simp only [Elem.wfAt] at hw ⊢
    simp only [Bool.and_eq_true] at hw ⊢
    refine ⟨⟨⟨hw.1.1.1, ?_⟩, hw.1.2⟩,
      by simp only [Model.len_modifyAt]; exact hw.2⟩
    rw [List.all_eq_true] at hw ⊢
    exact hchildwf ej.children hw.1.1.2
  · subst hji
    rw [hmod]
    have hw := WF.elem_wf hwf hg0
    simp only [Elem.wfAt] at hw ⊢
    simp only [Bool.and_eq_true] at hw ⊢
    obtain ⟨hfp, hfc, hfn, hfe, hft⟩ := hf ej0
    refine ⟨⟨⟨by rw [hfp]; exact hw.1.1.1, ?_⟩, by rw [hfn, hfe]; exact hw.1.2⟩, ?_⟩
    · rw [hfc]
      rw [List.all_eq_true] at hw ⊢
      exact hchildwf ej0.children hw.1.1.2
    · rcases hft with hsame' | ⟨t, hts, htl⟩
      · simp only [Model.len_modifyAt, hsame']
        exact hw.2
      · simp only [Model.len_modifyAt, hts]
        simpa using htl

theorem WF_set_character_data {m : Model} {i : Nat} {cd : CData} (hwf : WF m = true) :
    WF (set_character_data m i cd) = true :=
  WF_modify_data hwf fun e => ⟨rfl, rfl, rfl, rfl, Or.inl rfl⟩

theorem WF_set_reference_target {m : Model} {i t : Nat} (hwf : WF m = true)
    (ht : t < m.elems.length) :
    WF (set_reference_target m i t) = true :=
  WF_modify_data hwf fun e => ⟨rfl, rfl, rfl, rfl, Or.inr ⟨t, rfl, ht⟩⟩

/-! ## Extension steps for the primitives -/

theorem ExtP_step_push {m0 m : Model} {K Kext : EName → Prop} {S : Nat → Prop}
    (hb : ExtP m0 m K Kext S) {e : Elem} (hK : K e.ename) :
    ExtP m0 (m.push e) K Kext S := by
  obtain ⟨h1, h2, h3⟩ := hb
  refine ⟨by rw [Model.len_push]; omega, fun i ei hi => ?_, fun c ce hc hg => ?_⟩
  · obtain ⟨ei', hg', ha, hb', hc', hd, he, extra, hch, hne, hex⟩ := h2 i ei hi
    have hlt : i < m.elems.length := Model.get_some_lt hg'
    refine ⟨ei', by rw [Model.get_push_lt m e hlt]; exact hg', ha, hb', hc', hd, he,
      extra, hch, hne, ?_⟩
    intro x hx
    obtain ⟨hxl, xe, hgx, hkx⟩ := hex x hx
    exact ⟨hxl, xe, by rw [Model.get_push_lt m e (Model.get_some_lt hgx)]; exact hgx, hkx⟩
  · by_cases hlt : c < m.elems.length
    · rw [Model.get_push_lt m e hlt] at hg
      exact h3 c ce hc hg
    · by_cases hceq : c = m.elems.length
      · subst hceq
        rw [Model.get_push_len] at hg
        cases hg
        exact hK
      · rw [Model.get_push_gt m e (by omega)] at hg
        exact Option.noConfusion hg

theorem ExtP_step_addChild {m0 m : Model} {K Kext : EName → Prop} {S : Nat → Prop}
    (hb : ExtP m0 m K Kext S) {p c : Nat} (hc : m0.elems.length ≤ c)
    (hce : p < m0.elems.length → ∃ ce, m.get c = some ce ∧ Kext ce.ename)
    (hSp : p < m0.elems.length → S p) :
    ExtP m0 (m.addChild p c) K Kext S := by
  obtain ⟨h1, h2, h3⟩ := hb
  have hget : ∀ j, (m.addChild p c).get j = m.get j ∨
      ∃ ej, m.get j = some ej ∧ j = p ∧
        (m.addChild p c).get j = some { ej with children := ej.children ++ [c] } := by
    intro j
    by_cases hj : j = p
    · subst hj
      cases hgp : m.get j with
      | none =>
        left
        have heq : m.addChild j c = m := Model.modifyAt_none _ hgp
        rw [heq]
        exact hgp
      | some ej => right; exact ⟨ej, rfl, rfl, get_addChild_self m hgp⟩
    · left; exact get_addChild_ne m hj
  refine ⟨by rw [Model.len_addChild]; omega, fun i ei hi => ?_, fun c' ce' hc' hg => ?_⟩
  · obtain ⟨ei', hg', ha, hb', hc'', hd, he, extra, hch, hne, hex⟩ := h2 i ei hi
    have hstab : ∀ x (ex : Elem), m.get x = some ex →
        ∃ ex', (m.addChild p c).get x = some ex' ∧ ex'.ename = ex.ename := by
      intro x ex hgx
      rcases hget x with hsame | ⟨ex0, hgx0, hxp, hmod⟩
      · exact ⟨ex, by rw [hsame]; exact hgx, rfl⟩
      · rw [hgx0] at hgx; cases hgx
        exact ⟨_, hmod, rfl⟩
    rcases hget i with hsame | ⟨ei0, hg0, hip, hmod⟩
    · refine ⟨ei', by rw [hsame]; exact hg', ha, hb', hc'', hd, he, extra, hch, hne, ?_⟩
      intro x hx
      obtain ⟨hxl, xe, hgx, hkx⟩ := hex x hx
      obtain ⟨xe', hgx', hxen⟩ := hstab x xe hgx
      exact ⟨hxl, xe', hgx', by rw [hxen]; exact hkx⟩
    · rw [hg0] at hg'; cases hg'
      subst hip
      refine ⟨_, hmod, ha, hb', hc'', hd, he, extra ++ [c], by rw [hch, List.append_assoc],
        Or.inr (hSp (Model.get_some_lt hi)), ?_⟩
      intro x hx
      simp only [List.mem_append, List.mem_singleton] at hx
      rcases hx with hx | hx
      · obtain ⟨hxl, xe, hgx, hkx⟩ := hex x hx
        obtain ⟨xe', hgx', hxen⟩ := hstab x xe hgx
        exact ⟨hxl, xe', hgx', by rw [hxen]; exact hkx⟩
      · subst hx
        obtain ⟨ce, hgc, hkc⟩ := hce (Model.get_some_lt hi)
        obtain ⟨ce', hgc', hcen⟩ := hstab x ce hgc
        exact ⟨hc, ce', hgc', by rw [hcen]; exact hkc⟩
  · rcases hget c' with hsame | ⟨ec0, hgc0, hcp', hmod⟩
    · rw [hsame] at hg
      exact h3 c' ce' hc' hg
    · rw [hmod] at hg
      cases hg
      exact h3 c' ec0 hc' hgc0

theorem ExtP_step_modify_data {m0 m : Model} {K Kext : EName → Prop} {S : Nat → Prop}
    (hb : ExtP m0 m K Kext S) {i : Nat} {f : Elem → Elem}
    (hi : m0.elems.length ≤ i) (hf : ∀ e, (f e).ename = e.ename) :
    ExtP m0 (m.modifyAt i f) K Kext S := by
  obtain ⟨h1, h2, h3⟩ := hb
  have hget : ∀ j, j ≠ i → (m.modifyAt i f).get j = m.get j :=
    fun j hj => Model.get_modifyAt_ne m f hj
  refine ⟨by rw [Model.len_modifyAt]; omega, fun j ej hj => ?_, fun c ce hc hg => ?_⟩
  · obtain ⟨ej', hg', ha, hb', hc', hd, he, extra, hch, hne, hex⟩ := h2 j ej hj
    have hjne : j ≠ i := by have := Model.get_some_lt hj; omega
    refine ⟨ej', by rw [hget j hjne]; exact hg', ha, hb', hc', hd, he, extra, hch, hne, ?_⟩
    intro x hx
    obtain ⟨hxl, xe, hgx, hkx⟩ := hex x hx
    by_cases hxi : x = i
    · subst hxi
      refine ⟨hxl, f xe, Model.get_modifyAt_self m f hgx, by rw [hf]; exact hkx⟩
    · exact ⟨hxl, xe, by rw [hget x hxi]; exact hgx, hkx⟩
  · by_cases hci : c = i
    · subst hci
      cases hgc0 : m.get c with
      | none =>
        rw [Model.modifyAt] at hg
        rw [show m.elems[c]? = none from hgc0] at hg
        rw [hgc0] at hg
        exact Option.noConfusion hg
      | some ce0 =>
        rw [Model.get_modifyAt_self m f hgc0] at hg
        cases hg
        rw [hf]
        exact h3 c ce0 hc hgc0
    · rw [hget c hci] at hg
      exact h3 c ce hc hg

theorem ExtP_step_set_character_data {m0 m : Model} {K Kext : EName → Prop}
    {S : Nat → Prop} (hb : ExtP m0 m K Kext S) {i : Nat} {cd : CData}
    (hi : m0.elems.length ≤ i) : ExtP m0 (set_character_data m i cd) K Kext S :=
  ExtP_step_modify_data hb hi fun e => rfl

theorem ExtP_step_set_reference_target {m0 m : Model} {K Kext : EName → Prop}
    {S : Nat → Prop} (hb : ExtP m0 m K Kext S) {i t : Nat}
    (hi : m0.elems.length ≤ i) : ExtP m0 (set_reference_target m i t) K Kext S :=
  ExtP_step_modify_data hb hi fun e => rfl

/-! ## Characterizations of the element creators -/

theorem countKind_push (m : Model) (e : Elem) (k : EName) :
    countKind (m.push e) k = countKind m k + (if e.ename = k then 1 else 0) := by
  unfold countKind Model.push
  dsimp only
  rw [List.countP_append]
  by_cases h : e.ename = k <;>
    simp [List.countP_cons, h]

theorem countKind_modifyAt (m : Model) (i : Nat) (f : Elem → Elem)
    (hf : ∀ e, (f e).ename = e.ename) (k : EName) :
    countKind (m.modifyAt i f) k = countKind m k := by
  unfold countKind Model.modifyAt
  cases hg : m.elems[i]? with
  | none => rfl
  | some e =>
    dsimp only
    apply countP_eq_of_pointwise
    · simp
    · intro j h1 h2
      rw [List.getElem_set]
      rcases eq_or_ne i j with rfl | hne
      · have hje : m.elems[i] = e := by
          have hx := hg
          rw [List.getElem?_eq_getElem h2] at hx
          exact Option.some.inj hx
        rw [if_pos rfl, hje, hf]
      · rw [if_neg hne]

theorem countKind_addChild (m : Model) (p c : Nat) (k : EName) :
    countKind (m.addChild p c) k = countKind m k := by
  unfold Model.addChild
  exact countKind_modifyAt m p
    (fun e => { e with children := e.children ++ [c] }) (fun _ => rfl) k

theorem countKind_set_reference_target (m : Model) (i t : Nat) (k : EName) :
    countKind (set_reference_target m i t) k = countKind m k := by
  unfold set_reference_target
  exact countKind_modifyAt m i
    (fun e => { e with target := some t }) (fun _ => rfl) k

theorem countKind_set_character_data (m : Model) (i : Nat) (cd : CData) (k : EName) :
    countKind (set_character_data m i cd) k = countKind m k := by
  unfold set_character_data
  exact countKind_modifyAt m i
    (fun e => { e with cdata := some cd }) (fun _ => rfl) k

theorem countKind_cs (m : Model) (p : Nat) (n : EName) (k : EName) :
    countKind (create_sub_element m p n).2 k =
      countKind m k + (if n = k then 1 else 0) := by
  unfold create_sub_element
  dsimp only
  rw [countKind_addChild, countKind_push]

theorem countKind_cns {m m₂ : Model} {p c : Nat} {n : EName} {name : String}
    (h : create_named_sub_element m p n name = .ok (c, m₂)) (k : EName) :
    countKind m₂ k = countKind m k + (if n = k then 1 else 0) := by
  obtain ⟨hc, hm2⟩ := create_named_ok h
  subst hm2
  rw [countKind_addChild, countKind_push]

theorem countKind_goc {m m₂ : Model} {p c : Nat} {n : EName}
    (h : get_or_create_sub_element m p n = (c, m₂)) {k : EName} (hnk : n ≠ k) :
    countKind m₂ k = countKind m k := by
  unfold get_or_create_sub_element at h
  cases hg : getSubElement m p n with
  | some c0 =>
    rw [hg] at h
    injection h with h1 h2
    subst h2
    rfl
  | none =>
    rw [hg] at h
    dsimp only at h
    have h2 := congrArg Prod.snd h
    dsimp only at h2
    rw [← h2, countKind_cs, if_neg hnk]
    omega

theorem cs_out {m : Model} {p : Nat} {n : EName} (hwf : WF m = true)
    {pe : Elem} (hp : m.get p = some pe) (hnk : isNamedKind n = false) :
    WF (create_sub_element m p n).2 = true ∧
    (create_sub_element m p n).1 = m.elems.length ∧
    (create_sub_element m p n).2.elems.length = m.elems.length + 1 ∧
    (create_sub_element m p n).2.get m.elems.length =
      some { ename := n, parent := some p } ∧
    (∀ j, j < m.elems.length → j ≠ p →
      (create_sub_element m p n).2.get j = m.get j) ∧
    (create_sub_element m p n).2.get p =
      some { pe with children := pe.children ++ [m.elems.length] } := by
  have hplt : p < m.elems.length := Model.get_some_lt hp
  have hgetfresh : (m.push { ename := n, parent := some p }).get m.elems.length =
      some { ename := n, parent := some p } := Model.get_push_len m _
  have hwf1 : WF (m.push { ename := n, parent := some p }) = true :=
    WF_push hwf rfl hplt rfl (by simp [hnk]) rfl
  refine ⟨WF_addChild hwf1 hgetfresh rfl, rfl, ?_, ?_, ?_, ?_⟩
  · show ((m.push { ename := n, parent := some p }).addChild p m.fresh).elems.length = _
    rw [Model.len_addChild, Model.len_push]
  · show ((m.push _).addChild p m.fresh).get m.elems.length = _
    rw [get_addChild_ne _ (by omega)]
    exact hgetfresh
  · intro j hj hjp
    show ((m.push _).addChild p m.fresh).get j = m.get j
    rw [get_addChild_ne _ hjp, Model.get_push_lt m _ hj]
  · show ((m.push _).addChild p m.fresh).get p = _
    rw [get_addChild_self _ (by rw [Model.get_push_lt m _ hplt]; exact hp)]
    rfl

theorem cs_ext {m0 m : Model} {K Kext : EName → Prop} {S : Nat → Prop}
    (hb : ExtP m0 m K Kext S) {p : Nat} {n : EName}
    (hK : K n) (hKe : p < m0.elems.length → Kext n)
    (hS : p < m0.elems.length → S p) :
    ExtP m0 (create_sub_element m p n).2 K Kext S := by
  apply ExtP_step_addChild (ExtP_step_push hb hK)
  · exact le_trans hb.1 (le_refl _)
  · exact fun hp => ⟨_, Model.get_push_len m _, hKe hp⟩
  · exact hS

theorem cns_out {m : Model} {p : Nat} {n : EName} {name : String} {c : Nat}
    {m₂ : Model} (hwf : WF m = true) {pe : Elem} (hp : m.get p = some pe)
    (hnk : isNamedKind n = true)
    (h : create_named_sub_element m p n name = .ok (c, m₂)) :
    WF m₂ = true ∧ c = m.elems.length ∧ m₂.elems.length = m.elems.length + 1 ∧
    m₂.get c = some { ename := n, itemName := some name, parent := some p } ∧
    (∀ j, j < m.elems.length → j ≠ p → m₂.get j = m.get j) ∧
    m₂.get p = some { pe with children := pe.children ++ [c] } := by
  obtain ⟨hc, hm2⟩ := create_named_ok h
  have hplt : p < m.elems.length := Model.get_some_lt hp
  have hgetfresh : (m.push { ename := n, itemName := some name, parent := some p }).get
      m.elems.length = some { ename := n, itemName := some name, parent := some p } :=
    Model.get_push_len m _
  have hwf1 : WF (m.push { ename := n, itemName := some name, parent := some p }) = true :=
    WF_push hwf rfl hplt rfl (by simp [hnk]) rfl
  subst hm2
  refine ⟨WF_addChild hwf1 hgetfresh rfl, hc, ?_, ?_, ?_, ?_⟩
  · rw [Model.len_addChild, Model.len_push]
  · rw [hc]
    rw [get_addChild_ne _ (by simp only [Model.fresh]; omega)]
    exact hgetfresh
  · intro j hj hjp
    rw [get_addChild_ne _ hjp, Model.get_push_lt m _ hj]
  · rw [get_addChild_self _ (by rw [Model.get_push_lt m _ hplt]; exact hp)]
    rw [hc]

theorem cns_ext {m0 m : Model} {K Kext : EName → Prop} {S : Nat → Prop}
    (hb : ExtP m0 m K Kext S) {p : Nat} {n : EName} {name : String} {c : Nat}
    {m₂ : Model} (h : create_named_sub_element m p n name = .ok (c, m₂))
    (hK : K n) (hKe : p < m0.elems.length → Kext n)
    (hS : p < m0.elems.length → S p) :
    ExtP m0 m₂ K Kext S := by
  obtain ⟨hc, hm2⟩ := create_named_ok h
  subst hm2
  apply ExtP_step_addChild (ExtP_step_push hb hK)
  · exact le_trans hb.1 (le_refl _)
  · exact fun hp => ⟨_, Model.get_push_len m _, hKe hp⟩
  · exact hS

/-- Characterization of `get_or_create_sub_element` under well-formedness. -/
theorem goc_out {m : Model} {p : Nat} {n : EName} {c : Nat} {m₂ : Model}
    (hwf : WF m = true) {pe : Elem} (hp : m.get p = some pe)
    (hnk : isNamedKind n = false)
    (h : get_or_create_sub_element m p n = (c, m₂)) :
    WF m₂ = true ∧ c < m₂.elems.length ∧ m.elems.length ≤ m₂.elems.length ∧
    (∃ ce, m₂.get c = some ce ∧ ce.ename = n ∧ ce.itemName = none ∧
      ce.parent = some p ∧ ce.children = childList m c) ∧
    getSubElement m₂ p n = some c ∧
    (∀ j, j < m.elems.length → j ≠ p → m₂.get j = m.get j) ∧
    (getSubElement m p n = some c ∧ m₂ = m ∧ c < m.elems.length ∨
      getSubElement m p n = none ∧ c = m.elems.length ∧
      m₂.elems.length = m.elems.length + 1 ∧
      m₂.get p = some { pe with children := pe.children ++ [c] }) := by
  unfold get_or_create_sub_element at h
  cases hg : getSubElement m p n with
  | some c0 =>
    rw [hg] at h
    injection h with h1 h2
    subst h1; subst h2
    have hk := getSub_kind hg
    obtain ⟨e0m, hgm, hmem⟩ := getSub_mem hg
    rw [hgm] at hp
    cases hp
    obtain ⟨ce, hgc, hpar⟩ := WF.child_parent hwf hgm hmem
    have hke : ce.ename = n := by
      unfold elemKind at hk
      rw [hgc] at hk
      simpa using hk
    have hnamed := WF.named_iff hwf hgc
    rw [hke, hnk] at hnamed
    refine ⟨hwf, Model.get_some_lt hgc, le_refl _,
      ⟨ce, hgc, hke, Option.not_isSome_iff_eq_none.1 (by simp [hnamed]), hpar,
        by simp [childList, hgc]⟩, hg, fun j _ _ => rfl,
      Or.inl ⟨rfl, rfl, Model.get_some_lt hgc⟩⟩
  | none =>
    rw [hg] at h
    dsimp only at h
    obtain ⟨hwf2, hc1, hlen2, hgfresh, hstab, hgp⟩ := cs_out hwf hp hnk (n := n)
    rw [h] at hwf2 hc1 hlen2 hgfresh hstab hgp
    dsimp only at hwf2 hc1 hlen2 hgfresh hstab hgp
    subst hc1
    have hchfresh : childList m m.elems.length = [] := by
      simp [childList, Model.get, List.getElem?_eq_none_iff.2 (le_refl _)]
    refine ⟨hwf2, by omega, by omega,
      ⟨_, hgfresh, rfl, rfl, rfl, by simp [hchfresh]⟩, ?_, hstab,
      Or.inr ⟨rfl, rfl, hlen2, hgp⟩⟩
    -- getSubElement m₂ p n = some c
    unfold getSubElement
    rw [hgp]
    simp only [Option.some_bind]
    rw [find?_append_none]
    · simp only [List.find?_singleton]
      rw [if_pos (by simp [elemKind, hgfresh])]
    · rw [List.find?_eq_none]
      intro a ha
      unfold getSubElement at hg
      rw [hp] at hg
      simp only [Option.some_bind] at hg
      rw [List.find?_eq_none] at hg
      have hpa := hg a ha
      obtain ⟨ae, hga, hpae⟩ := WF.child_parent hwf hp ha
      have hane : a ≠ p := by
        have := WF.parent_lt hwf hga hpae
        omega
      simp only [elemKind] at hpa ⊢
      simp only [hstab a (Model.get_some_lt hga) hane]
      exact hpa

theorem goc_ext {m0 m : Model} {K Kext : EName → Prop} {S : Nat → Prop}
    (hb : ExtP m0 m K Kext S) {p : Nat} {n : EName} {c : Nat} {m₂ : Model}
    (h : get_or_create_sub_element m p n = (c, m₂))
    (hK : K n) (hKe : p < m0.elems.length → Kext n)
    (hS : p < m0.elems.length → S p) :
    ExtP m0 m₂ K Kext S := by
  unfold get_or_create_sub_element at h
  cases hg : getSubElement m p n with
  | some c0 =>
    rw [hg] at h
    injection h with h1 h2
    subst h2
    exact hb
  | none =>
    rw [hg] at h
    dsimp only at h
    rw [show m₂ = (create_sub_element m p n).2 from (congrArg Prod.snd h).symm]
    exact cs_ext hb hK hKe hS

/-! ## Small facts about ports and directions -/

theorem dirFromEnum_toEnum (d : CommunicationDirection) :
    dirFromEnum (dirToEnum d) = some d := by cases d <;> rfl

theorem byteOrderFromEnum_toEnum (b : ByteOrder) :
    byteOrderFromEnum (byteOrderToEnum b) = some b := by cases b <;> rfl

theorem tpFromEnum_toEnum (t : TransferProperty) :
    tpFromEnum (tpToEnum t) = some t := by cases t <;> rfl

theorem port_ecu_EcuOK {m : Model} {p e : Nat} (h : port_ecu m p = some e) :
    EcuOK m e := by
  unfold port_ecu at h
  cases hc : namedParentW m p with
  | none => rw [hc] at h; simp at h
  | some conn =>
    rw [hc] at h
    simp only [Option.some_bind] at h
    cases he : namedParentW m conn with
    | none => rw [he] at h; simp at h
    | some ecu =>
      rw [he] at h
      simp only [Option.some_bind] at h
      by_cases hk : elemKind m ecu = some EName.EcuInstance
      · rw [if_pos (by simpa using hk)] at h
        cases h
        obtain ⟨ee, hge, hnm⟩ := namedParentW_named he
        refine ⟨ee, hge, ?_, hnm⟩
        unfold elemKind at hk
        rw [hge] at hk
        simpa using hk
      · rw [if_neg (by simpa using hk)] at h
        exact Option.noConfusion h

theorem findPort_some_facts {m : Model} {ports : List Nat} {ecu : Nat}
    {d : CommunicationDirection} {p : Nat} (h : findPort m ports ecu d = some p) :
    p ∈ ports ∧ port_ecu m p = some ecu ∧ port_direction m p = some d := by
  unfold findPort at h
  refine ⟨List.mem_of_find?_eq_some h, ?_⟩
  have hp := List.find?_some h
  cases he : port_ecu m p with
  | none => rw [he] at hp; simp at hp
  | some e =>
    rw [he] at hp
    cases hd : port_direction m p with
    | none => rw [hd] at hp; simp at hp
    | some d' =>
      rw [hd] at hp
      simp only [Bool.and_eq_true, decide_eq_true_eq] at hp
      obtain ⟨h1, h2⟩ := hp
      subst h1; subst h2
      exact ⟨rfl, rfl⟩

theorem findPort_none_facts {m : Model} {ports : List Nat} {ecu : Nat}
    {d : CommunicationDirection} (h : findPort m ports ecu d = none) :
    ∀ q ∈ ports, ¬ (port_ecu m q = some ecu ∧ port_direction m q = some d) := by
  unfold findPort at h
  rw [List.find?_eq_none] at h
  intro q hq ⟨h1, h2⟩
  have := h q hq
  rw [h1, h2] at this
  simp at this

theorem find?_unique_mem {α : Type} [DecidableEq α] {l : List α} {p : α → Bool} {a : α}
    (hmem : a ∈ l) (hpa : p a = true) (huniq : ∀ b ∈ l, p b = true → b = a) :
    l.find? p = some a := by
  induction l with
  | nil => simp at hmem
  | cons x l ih =>
    simp only [List.find?]
    cases hx : p x with
    | true =>
      rw [huniq x (by simp) hx]
    | false =>
      have hxa : x ≠ a := fun hxa => by rw [hxa, hpa] at hx; exact Bool.noConfusion hx
      apply ih
      · rcases List.mem_cons.1 hmem with h | h
        · exact absurd h (Ne.symm hxa)
        · exact h
      · exact fun b hb hpb => huniq b (List.mem_cons_of_mem _ hb) hpb

theorem get_ecu_connector_facts {m : Model} {ch ecu conn : Nat}
    (h : get_ecu_connector m ch ecu = some conn) :
    ∃ conns ce, getSubElement m ecu .Connectors = some conns ∧
      conn ∈ childList m conns ∧ m.get conn = some ce ∧
      isConnectorKind ce.ename = true := by
  unfold get_ecu_connector at h
  cases hs : getSubElement m ecu .Connectors with
  | none => rw [hs] at h; simp at h
  | some conns =>
    rw [hs] at h
    simp only [Option.some_bind] at h
    have hmem := List.mem_of_find?_eq_some h
    have hpred := List.find?_some h
    simp only [Bool.and_eq_true] at hpred
    obtain ⟨hk, _⟩ := hpred
    revert hk
    cases hgc : elemKind m conn with
    | none => simp
    | some k =>
      intro hk
      obtain ⟨ce, hgce⟩ : ∃ ce, m.get conn = some ce := by
        unfold elemKind at hgc
        cases hg2 : m.get conn with
        | none => rw [hg2] at hgc; simp at hgc
        | some ce => exact ⟨ce, rfl⟩
      have hcek : ce.ename = k := by
        unfold elemKind at hgc
        rw [hgce] at hgc
        simpa using hgc
      exact ⟨conns, ce, rfl, hmem, hgce, by rw [hcek]; exact hk⟩

theorem isConnectorKind_mem {k : EName} (h : isConnectorKind k = true) :
    k ∈ [EName.CanCommunicationConnector, .EthernetCommunicationConnector,
      .FlexrayCommunicationConnector] := by
  cases k <;> simp [isConnectorKind] at h ⊢

theorem isConnectorKind_named {k : EName} (h : isConnectorKind k = true) :
    isNamedKind k = true := by
  cases k <;> simp [isConnectorKind] at h ⊢ <;> rfl

theorem isChannelKind_mem {k : EName} (h : isChannelKind k = true) :
    k ∈ [EName.CanPhysicalChannel, .EthernetPhysicalChannel, .FlexrayPhysicalChannel] := by
  cases k <;> simp [isChannelKind] at h ⊢

theorem grt_some_lt {m : Model} {i t : Nat} (h : get_reference_target m i = some t) :
    t < m.elems.length := by
  unfold get_reference_target at h
  cases hg : m.get i with
  | none => rw [hg] at h; simp at h
  | some e =>
    rw [hg] at h
    simp only [Option.some_bind] at h
    cases ht : e.target with
    | none => rw [ht] at h; simp at h
    | some t0 =>
      rw [ht] at h
      simp only [Option.some_bind] at h
      cases hgt : m.get t0 with
      | none => rw [hgt] at h; simp at h
      | some te =>
        rw [hgt] at h
        simp only [Option.map_some'] at h
        cases h
        exact Model.get_some_lt hgt

theorem connK_incl : ∀ k, k ∈ [EName.EcuCommPortInstances, EName.ISignalPort,
    EName.CommunicationDirection] → connK k := by
  intro k hk
  unfold connK
  simp only [List.mem_cons, List.not_mem_nil, or_false] at hk ⊢
  tauto

theorem connKext_incl : ∀ k, k ∈ [EName.EcuCommPortInstances, EName.ISignalPort] →
    connKext k := by
  intro k hk
  unfold connKext
  simp only [List.mem_cons, List.not_mem_nil, or_false] at hk ⊢
  tauto

theorem connectorKind_mem_connS_list {k : EName} (h : isConnectorKind k = true) :
    k ∈ [EName.CanCommunicationConnector, .EthernetCommunicationConnector,
      .FlexrayCommunicationConnector, .EcuCommPortInstances] := by
  cases k <;> simp [isConnectorKind] at h ⊢

theorem mem_signal_ports_get {m : Model} {st q : Nat} (h : q ∈ signal_ports m st) :
    ∃ qe, m.get q = some qe ∧ qe.ename = .ISignalPort := by
  unfold signal_ports at h
  cases hrs : getSubElement m st .ISignalPortRefs with
  | none => rw [hrs] at h; simp at h
  | some refs =>
    rw [hrs] at h
    rw [List.mem_filterMap] at h
    obtain ⟨rc, _, hrcq⟩ := h
    cases hg : get_reference_target m rc with
    | none => rw [hg] at hrcq; simp at hrcq
    | some t =>
      rw [hg] at hrcq
      simp only [Option.some_bind] at hrcq
      by_cases hk : elemKind m t = some .ISignalPort
      · rw [if_pos (by simpa using hk)] at hrcq
        have htq : t = q := by simpa using hrcq
        rw [htq] at hk
        unfold elemKind at hk
        cases hgt : m.get q with
        | none => rw [hgt] at hk; simp at hk
        | some te =>
          rw [hgt] at hk
          exact ⟨te, rfl, by simpa using hk⟩
      · rw [if_neg (by simpa using hk)] at hrcq
        exact Option.noConfusion hrcq

theorem mem_pdu_ports_get {m : Model} {pt q : Nat} (h : q ∈ pdu_ports m pt) :
    ∃ qe, m.get q = some qe ∧ qe.ename = .IPduPort := by
  unfold pdu_ports at h
  cases hrs : getSubElement m pt .IPduPortRefs with
  | none => rw [hrs] at h; simp at h
  | some refs =>
    rw [hrs] at h
    rw [List.mem_filterMap] at h
    obtain ⟨rc, _, hrcq⟩ := h
    cases hg : get_reference_target m rc with
    | none => rw [hg] at hrcq; simp at hrcq
    | some t =>
      rw [hg] at hrcq
      simp only [Option.some_bind] at hrcq
      by_cases hk : elemKind m t = some .IPduPort
      · rw [if_pos (by simpa using hk)] at hrcq
        have htq : t = q := by simpa using hrcq
        rw [htq] at hk
        unfold elemKind at hk
        cases hgt : m.get q with
        | none => rw [hgt] at hk; simp at hk
        | some te =>
          rw [hgt] at hk
          exact ⟨te, rfl, by simpa using hk⟩
      · rw [if_neg (by simpa using hk)] at hrcq
        exact Option.noConfusion hrcq

/-- If an element had no sub-element of kind `n` but acquires one in an
extension, the found child is fresh. -/
theorem ExtP.getSub_new {m m' : Model} {K Kext S} (h : ExtP m m' K Kext S)
    (hwf : WF m = true) {i : Nat} {e : Elem} (hg : m.get i = some e) {n : EName}
    (hn : getSubElement m i n = none) {c : Nat} (hc : getSubElement m' i n = some c) :
    m.elems.length ≤ c := by
  obtain ⟨e', hg', _, _, _, _, _, extra, hch, _, hex⟩ := h.2.1 i e hg
  unfold getSubElement at hn hc
  rw [hg] at hn
  rw [hg'] at hc
  simp only [Option.some_bind] at hn hc
  rw [hch] at hc
  rw [List.find?_eq_none] at hn
  cases hf1 : e.children.find? fun x => decide (elemKind m' x = some n) with
  | some x =>
    exfalso
    rw [find?_append_some hf1] at hc
    injection hc with hxc
    subst hxc
    have hmem := List.mem_of_find?_eq_some hf1
    have hpred := List.find?_some hf1
    obtain ⟨ce, hgc, _⟩ := WF.child_parent hwf hg hmem
    obtain ⟨ce', hgc', hcen, _⟩ := h.2.1 x ce hgc
    have hthis := hn x hmem
    simp only [elemKind, hgc, hgc', Option.map_some', decide_eq_true_eq,
      Option.some.injEq, hcen] at hpred hthis
    exact hthis hpred
  | none =>
    rw [find?_append_none hf1] at hc
    have hmem := List.mem_of_find?_eq_some hc
    exact (hex c hmem).1

theorem elemKind_some_get {m : Model} {c : Nat} {k : EName}
    (h : elemKind m c = some k) : ∃ e, m.get c = some e ∧ e.ename = k := by
  unfold elemKind at h
  cases hg : m.get c with
  | none => rw [hg] at h; simp at h
  | some e =>
    rw [hg] at h
    exact ⟨e, rfl, by simpa using h⟩

/-- Under the well-formedness invariant every stored reference target exists,
so reference resolution of a pre-existing element is fully stable under any
extension. -/
theorem ExtP.grt_stable {m m' : Model} {K Kext S} (h : ExtP m m' K Kext S)
    (hwf : WF m = true) {r : Nat} {re : Elem} (hgr : m.get r = some re) :
    get_reference_target m' r = get_reference_target m r := by
  obtain ⟨re', hgr', _, _, _, _, htar, _⟩ := h.2.1 r re hgr
  unfold get_reference_target
  rw [hgr, hgr']
  simp only [Option.some_bind]
  rw [htar]
  cases ht : re.target with
  | none => rfl
  | some t =>
    simp only [Option.some_bind]
    have htlt : t < m.elems.length := WF.target_lt hwf hgr ht
    obtain ⟨te, hgt⟩ := Model.get_lt_isSome htlt
    obtain ⟨te', hgt', _⟩ := h.2.1 t te hgt
    simp [hgt, hgt']

theorem ExtP.EcuOK_stable {m m' : Model} {K Kext S} (h : ExtP m m' K Kext S)
    {ecu : Nat} (he : EcuOK m ecu) : EcuOK m' ecu := by
  obtain ⟨ee, hge, hk, hn⟩ := he
  obtain ⟨ee', hge', hk', hn', _⟩ := h.2.1 ecu ee hge
  exact ⟨ee', hge', by rw [hk']; exact hk, by rw [hn']; exact hn⟩

/-- The port list of a triggering is unchanged by an extension that does not
add a fresh `ISignalPortRefs` collection to it and does not append children to
its existing `ISignalPortRefs` collection. -/
theorem ExtP.signal_ports_eq {m m' : Model} {K Kext S} (h : ExtP m m' K Kext S)
    (hwf : WF m = true) {st : Nat} {ste : Elem} (hgst : m.get st = some ste)
    (hKe : ¬ Kext EName.ISignalPortRefs)
    (hS : ∀ rr, getSubElement m st .ISignalPortRefs = some rr → ¬ S rr) :
    signal_ports m' st = signal_ports m st := by
  unfold signal_ports
  cases hrs : getSubElement m st .ISignalPortRefs with
  | none =>
    rw [ExtP.getSub_none h hwf hgst hrs hKe]
  | some refs =>
    rw [ExtP.getSub_some h hwf hrs]
    dsimp only
    obtain ⟨refsE, hgrefs, _⟩ := elemKind_some_get (getSub_kind hrs)
    obtain ⟨refsE', hgrefs', _, _, _, _, _, extra, hch, hne, _⟩ := h.2.1 refs refsE hgrefs
    have hx : extra = [] := by
      rcases hne with hx | hs
      · exact hx
      · exact absurd hs (hS refs hrs)
    have hcl : childList m' refs = childList m refs := by
      simp [childList, hgrefs, hgrefs', hch, hx]
    rw [hcl]
    apply List.filterMap_congr
    intro rc hrc
    obtain ⟨rce, hgrc, _⟩ := WF.child_parent hwf hgrefs (by
      unfold childList at hrc
      rw [hgrefs] at hrc
      simpa using hrc)
    rw [ExtP.grt_stable h hwf hgrc]
    cases hgt : get_reference_target m rc with
    | none => rfl
    | some t =>
      simp only [Option.some_bind]
      rw [ExtP.elemKind_stable h (grt_some_lt hgt)]

/-- The port list of a PDU triggering is unchanged under the same conditions. -/
theorem ExtP.pdu_ports_eq {m m' : Model} {K Kext S} (h : ExtP m m' K Kext S)
    (hwf : WF m = true) {pt : Nat} {pte : Elem} (hgpt : m.get pt = some pte)
    (hKe : ¬ Kext EName.IPduPortRefs)
    (hS : ∀ rr, getSubElement m pt .IPduPortRefs = some rr → ¬ S rr) :
    pdu_ports m' pt = pdu_ports m pt := by
  unfold pdu_ports
  cases hrs : getSubElement m pt .IPduPortRefs with
  | none =>
    rw [ExtP.getSub_none h hwf hgpt hrs hKe]
  | some refs =>
    rw [ExtP.getSub_some h hwf hrs]
    dsimp only
    obtain ⟨refsE, hgrefs, _⟩ := elemKind_some_get (getSub_kind hrs)
    obtain ⟨refsE', hgrefs', _, _, _, _, _, extra, hch, hne, _⟩ := h.2.1 refs refsE hgrefs
    have hx : extra = [] := by
      rcases hne with hx | hs
      · exact hx
      · exact absurd hs (hS refs hrs)
    have hcl : childList m' refs = childList m refs := by
      simp [childList, hgrefs, hgrefs', hch, hx]
    rw [hcl]
    apply List.filterMap_congr
    intro rc hrc
    obtain ⟨rce, hgrc, _⟩ := WF.child_parent hwf hgrefs (by
      unfold childList at hrc
      rw [hgrefs] at hrc
      simpa using hrc)
    rw [ExtP.grt_stable h hwf hgrc]
    cases hgt : get_reference_target m rc with
    | none => rfl
    | some t =>
      simp only [Option.some_bind]
      rw [ExtP.elemKind_stable h (grt_some_lt hgt)]

/-- The (ECU, direction) pairs of a triggering are unchanged by an extension
that keeps its port list and never appends a `CommunicationDirection` child to
a pre-existing element. -/
theorem ExtP.stPairs_eq {m m' : Model} {K Kext S} (h : ExtP m m' K Kext S)
    (hwf : WF m = true) {st : Nat} {ste : Elem} (hgst : m.get st = some ste)
    (hKe : ¬ Kext EName.ISignalPortRefs) (hKcd : ¬ Kext EName.CommunicationDirection)
    (hS : ∀ rr, getSubElement m st .ISignalPortRefs = some rr → ¬ S rr) :
    stPairs m' st = stPairs m st := by
  unfold stPairs
  rw [ExtP.signal_ports_eq h hwf hgst hKe hS]
  apply List.filterMap_congr
  intro p hp
  obtain ⟨pe, hgp, _⟩ := mem_signal_ports_get hp
  rw [ExtP.port_ecu_stable h (Model.get_some_lt hgp),
    ExtP.port_direction_stable h hwf hgp hKcd]

theorem ExtP.ptPairs_eq {m m' : Model} {K Kext S} (h : ExtP m m' K Kext S)
    (hwf : WF m = true) {pt : Nat} {pte : Elem} (hgpt : m.get pt = some pte)
    (hKe : ¬ Kext EName.IPduPortRefs) (hKcd : ¬ Kext EName.CommunicationDirection)
    (hS : ∀ rr, getSubElement m pt .IPduPortRefs = some rr → ¬ S rr) :
    ptPairs m' pt = ptPairs m pt := by
  unfold ptPairs
  rw [ExtP.pdu_ports_eq h hwf hgpt hKe hS]
  apply List.filterMap_congr
  intro p hp
  obtain ⟨pe, hgp, _⟩ := mem_pdu_ports_get hp
  rw [ExtP.port_ecu_stable h (Model.get_some_lt hgp),
    ExtP.port_direction_stable h hwf hgp hKcd]

/-- The conditional-child resolution function of `signal_triggerings` is
stable for a pre-existing conditional element. -/
theorem ExtP.stCondFun_congr {m m' : Model} {K Kext S} (h : ExtP m m' K Kext S)
    (hwf : WF m = true) {c : Nat} {ce : Elem} (hgc : m.get c = some ce)
    (hKe2 : ¬ Kext EName.ISignalTriggeringRef) :
    ((getSubElement m' c .ISignalTriggeringRef).bind fun r =>
      (get_reference_target m' r).bind fun t =>
      if decide (elemKind m' t = some .ISignalTriggering) then some t else none) =
    ((getSubElement m c .ISignalTriggeringRef).bind fun r =>
      (get_reference_target m r).bind fun t =>
      if decide (elemKind m t = some .ISignalTriggering) then some t else none) := by
  cases hgs : getSubElement m c .ISignalTriggeringRef with
  | none =>
    rw [ExtP.getSub_none h hwf hgc hgs hKe2]
    rfl
  | some rr =>
    rw [ExtP.getSub_some h hwf hgs]
    simp only [Option.some_bind]
    obtain ⟨rrE, hgrr, _⟩ := elemKind_some_get (getSub_kind hgs)
    rw [ExtP.grt_stable h hwf hgrr]
    cases hgt : get_reference_target m rr with
    | none => rfl
    | some t =>
      simp only [Option.some_bind]
      rw [ExtP.elemKind_stable h (grt_some_lt hgt)]

/-- The child signal triggerings of a PDU triggering are unchanged by an
extension that does not touch the triggering, its triggerings collection, or
reference new triggerings under it. -/
theorem ExtP.signal_triggerings_eq {m m' : Model} {K Kext S} (h : ExtP m m' K Kext S)
    (hwf : WF m = true) {pt : Nat} {pte : Elem} (hgpt : m.get pt = some pte)
    (hSpt : ¬ S pt) (hKe2 : ¬ Kext EName.ISignalTriggeringRef)
    (hS : ∀ grp, getSubElement m pt .ISignalTriggerings = some grp → ¬ S grp) :
    signal_triggerings m' pt = signal_triggerings m pt := by
  unfold signal_triggerings
  cases hrs : getSubElement m pt .ISignalTriggerings with
  | none =>
    rw [ExtP.getSub_not_S h hwf hgpt hSpt .ISignalTriggerings, hrs]
  | some grp =>
    rw [ExtP.getSub_some h hwf hrs]
    dsimp only
    obtain ⟨grpE, hggrp, _⟩ := elemKind_some_get (getSub_kind hrs)
    obtain ⟨grpE', hggrp', _, _, _, _, _, extra, hch, hne, _⟩ := h.2.1 grp grpE hggrp
    have hx : extra = [] := by
      rcases hne with hx | hs
      · exact hx
      · exact absurd hs (hS grp hrs)
    have hcl : childList m' grp = childList m grp := by
      simp [childList, hggrp, hggrp', hch, hx]
    rw [hcl]
    apply List.filterMap_congr
    intro c hc
    obtain ⟨ce, hgc, _⟩ := WF.child_parent hwf hggrp (by
      unfold childList at hc
      rw [hggrp] at hc
      simpa using hc)
    exact ExtP.stCondFun_congr h hwf hgc hKe2

/-- The mapping collection of an `ISignalIPdu` is unchanged by an extension
that does not add mappings under it. -/
theorem ExtP.mapped_signals_eq {m m' : Model} {K Kext S} (h : ExtP m m' K Kext S)
    (hwf : WF m = true) {pdu : Nat} {pde : Elem} (hgpdu : m.get pdu = some pde)
    (hKe : ¬ Kext EName.ISignalToPduMappings)
    (hS : ∀ grp, getSubElement m pdu .ISignalToPduMappings = some grp → ¬ S grp) :
    mapped_signals m' pdu = mapped_signals m pdu := by
  unfold mapped_signals
  cases hrs : getSubElement m pdu .ISignalToPduMappings with
  | none =>
    rw [ExtP.getSub_none h hwf hgpdu hrs hKe]
  | some grp =>
    rw [ExtP.getSub_some h hwf hrs]
    dsimp only
    obtain ⟨grpE, hggrp, _⟩ := elemKind_some_get (getSub_kind hrs)
    obtain ⟨grpE', hggrp', _, _, _, _, _, extra, hch, hne, _⟩ := h.2.1 grp grpE hggrp
    have hx : extra = [] := by
      rcases hne with hx | hs
      · exact hx
      · exact absurd hs (hS grp hrs)
    have hcl : childList m' grp = childList m grp := by
      simp [childList, hggrp, hggrp', hch, hx]
    rw [hcl]
    apply List.filter_congr
    intro c hc
    obtain ⟨ce, hgc, _⟩ := WF.child_parent hwf hggrp (by
      unfold childList at hc
      rw [hggrp] at hc
      simpa using hc)
    rw [ExtP.elemKind_stable h (Model.get_some_lt hgc)]

/-- Two collection lookups finding the same child have the same parent. -/
theorem getSub_parent_eq {m : Model} (hwf : WF m = true) {a b c : Nat} {n n' : EName}
    (h1 : getSubElement m a n = some c) (h2 : getSubElement m b n' = some c) :
    a = b := by
  obtain ⟨ea, hga, hmema⟩ := getSub_mem h1
  obtain ⟨eb, hgb, hmemb⟩ := getSub_mem h2
  obtain ⟨ce, hgc, hpara⟩ := WF.child_parent hwf hga hmema
  obtain ⟨ce', hgc', hparb⟩ := WF.child_parent hwf hgb hmemb
  rw [hgc] at hgc'
  injection hgc' with he
  rw [← he] at hparb
  rw [hpara] at hparb
  exact Option.some.inj hparb

/-- Kind-based exclusion from the `add_signal_triggering` footprint. -/
theorem not_astS_of_kind {m : Model} {pt i : Nat} {k : EName}
    (hk : elemKind m i = some k) (hne : i ≠ pt)
    (hkmem : k ∉ [EName.CanPhysicalChannel, .EthernetPhysicalChannel,
      .FlexrayPhysicalChannel, .CanCommunicationConnector,
      .EthernetCommunicationConnector, .FlexrayCommunicationConnector,
      .EcuCommPortInstances])
    (hkt : k ≠ .ISignalTriggerings) : ¬ astS m pt i := by
  rintro (he | ⟨k2, hk2, hkm2⟩ | hsub | ⟨ch, hnp, hchk, hsub⟩)
  · exact hne he
  · rw [hk] at hk2
    injection hk2 with hk2
    rw [← hk2] at hkm2
    exact hkmem hkm2
  · have hx := getSub_kind hsub
    rw [hk] at hx
    injection hx with hx
    exact hkt hx
  · have hx := getSub_kind hsub
    rw [hk] at hx
    injection hx with hx
    exact hkt hx

/-- The triggerings collection of one PDU triggering is outside the
`add_signal_triggering` footprint of a different PDU triggering. -/
theorem not_astS_trigscoll {m : Model} (hwf : WF m = true) {pt pt' grp : Nat}
    (hkpt : elemKind m pt = some .PduTriggering)
    (hkpt' : elemKind m pt' = some .PduTriggering)
    (hne : pt ≠ pt')
    (hsub : getSubElement m pt .ISignalTriggerings = some grp) :
    ¬ astS m pt' grp := by
  have hkgrp := getSub_kind hsub
  rintro (he | ⟨k2, hk2, hkm2⟩ | hsub2 | ⟨ch, hnp, hchk, hsub2⟩)
  · rw [he] at hkgrp
    rw [hkpt'] at hkgrp
    exact EName.noConfusion (Option.some.inj hkgrp)
  · rw [hkgrp] at hk2
    injection hk2 with hk2
    rw [← hk2] at hkm2
    simp at hkm2
  · exact hne (getSub_parent_eq hwf hsub hsub2)
  · have he2 := getSub_parent_eq hwf hsub hsub2
    obtain ⟨k3, hk3, hkm3⟩ := hchk
    rw [← he2] at hk3
    rw [hkpt] at hk3
    injection hk3 with hk3
    rw [← hk3] at hkm3
    simp at hkm3

/-- Variant of `signal_ports_eq` keyed on the triggering itself lying outside
the footprint (instead of excluding `ISignalPortRefs` from the appended
kinds). -/
theorem ExtP.signal_ports_eq2 {m m' : Model} {K Kext S} (h : ExtP m m' K Kext S)
    (hwf : WF m = true) {st : Nat} {ste : Elem} (hgst : m.get st = some ste)
    (hSst : ¬ S st)
    (hS : ∀ rr, getSubElement m st .ISignalPortRefs = some rr → ¬ S rr) :
    signal_ports m' st = signal_ports m st := by
  unfold signal_ports
  cases hrs : getSubElement m st .ISignalPortRefs with
  | none =>
    rw [ExtP.getSub_not_S h hwf hgst hSst .ISignalPortRefs, hrs]
  | some refs =>
    rw [ExtP.getSub_some h hwf hrs]
    dsimp only
    obtain ⟨refsE, hgrefs, _⟩ := elemKind_some_get (getSub_kind hrs)
    obtain ⟨refsE', hgrefs', _, _, _, _, _, extra, hch, hne, _⟩ := h.2.1 refs refsE hgrefs
    have hx : extra = [] := by
      rcases hne with hx | hs
      · exact hx
      · exact absurd hs (hS refs hrs)
    have hcl : childList m' refs = childList m refs := by
      simp [childList, hgrefs, hgrefs', hch, hx]
    rw [hcl]
    apply List.filterMap_congr
    intro rc hrc
    obtain ⟨rce, hgrc, _⟩ := WF.child_parent hwf hgrefs (by
      unfold childList at hrc
      rw [hgrefs] at hrc
      simpa using hrc)
    rw [ExtP.grt_stable h hwf hgrc]
    cases hgt : get_reference_target m rc with
    | none => rfl
    | some t =>
      simp only [Option.some_bind]
      rw [ExtP.elemKind_stable h (grt_some_lt hgt)]

theorem ExtP.stPairs_eq2 {m m' : Model} {K Kext S} (h : ExtP m m' K Kext S)
    (hwf : WF m = true) {st : Nat} {ste : Elem} (hgst : m.get st = some ste)
    (hSst : ¬ S st) (hKcd : ¬ Kext EName.CommunicationDirection)
    (hS : ∀ rr, getSubElement m st .ISignalPortRefs = some rr → ¬ S rr) :
    stPairs m' st = stPairs m st := by
  unfold stPairs
  rw [ExtP.signal_ports_eq2 h hwf hgst hSst hS]
  apply List.filterMap_congr
  intro p hp
  obtain ⟨pe, hgp, _⟩ := mem_signal_ports_get hp
  rw [ExtP.port_ecu_stable h (Model.get_some_lt hgp),
    ExtP.port_direction_stable h hwf hgp hKcd]

/-- `mapping_signal` of a pre-existing mapping outside the footprint is
stable. -/
theorem ExtP.mapping_signal_stable {m m' : Model} {K Kext S} (h : ExtP m m' K Kext S)
    (hwf : WF m = true) {mp : Nat} {me : Elem} (hgmp : m.get mp = some me)
    (hSmp : ¬ S mp) :
    mapping_signal m' mp = mapping_signal m mp := by
  unfold mapping_signal
  rw [ExtP.getSub_not_S h hwf hgmp hSmp .ISignalRef]
  cases hgs : getSubElement m mp .ISignalRef with
  | none => rfl
  | some r =>
    simp only [Option.some_bind]
    obtain ⟨rE, hgr, _⟩ := elemKind_some_get (getSub_kind hgs)
    rw [ExtP.grt_stable h hwf hgr]
    cases hgt : get_reference_target m r with
    | none => rfl
    | some t =>
      simp only [Option.some_bind]
      rw [ExtP.elemKind_stable h (grt_some_lt hgt)]

theorem mem_signal_triggerings_kind {m : Model} {pt st : Nat}
    (h : st ∈ signal_triggerings m pt) : elemKind m st = some .ISignalTriggering := by
  unfold signal_triggerings at h
  cases hrs : getSubElement m pt .ISignalTriggerings with
  | none => rw [hrs] at h; simp at h
  | some grp =>
    rw [hrs] at h
    dsimp only at h
    rw [List.mem_filterMap] at h
    obtain ⟨c, _, hc⟩ := h
    cases hgs : getSubElement m c .ISignalTriggeringRef with
    | none => rw [hgs] at hc; simp at hc
    | some r =>
      rw [hgs] at hc
      simp only [Option.some_bind] at hc
      cases hgt : get_reference_target m r with
      | none => rw [hgt] at hc; simp at hc
      | some t =>
        rw [hgt] at hc
        simp only [Option.some_bind] at hc
        by_cases hk : elemKind m t = some .ISignalTriggering
        · rw [if_pos (by simpa using hk)] at hc
          injection hc with hc
          rw [← hc]
          exact hk
        · rw [if_neg (by simpa using hk)] at hc
          exact Option.noConfusion hc

theorem mem_signal_triggerings_lt {m : Model} {pt st : Nat}
    (h : st ∈ signal_triggerings m pt) : st < m.elems.length := by
  obtain ⟨e, hg, _⟩ := elemKind_some_get (mem_signal_triggerings_kind h)
  exact Model.get_some_lt hg

theorem mem_mapped_signals_kind {m : Model} {pdu mp : Nat}
    (h : mp ∈ mapped_signals m pdu) : elemKind m mp = some .ISignalToIPduMapping := by
  unfold mapped_signals at h
  cases hrs : getSubElement m pdu .ISignalToPduMappings with
  | none => rw [hrs] at h; simp at h
  | some grp =>
    rw [hrs] at h
    dsimp only at h
    rw [List.mem_filter] at h
    simpa using h.2

theorem mem_pdu_triggerings_kind {m : Model} {pdu pt : Nat}
    (h : pt ∈ pdu_triggerings m pdu) : elemKind m pt = some .PduTriggering := by
  unfold pdu_triggerings at h
  rw [List.mem_filterMap] at h
  obtain ⟨r, _, hr⟩ := h
  cases hnp : namedParentW m r with
  | none => rw [hnp] at hr; simp at hr
  | some p =>
    rw [hnp] at hr
    simp only [Option.some_bind] at hr
    by_cases hk : elemKind m p = some .PduTriggering
    · rw [if_pos (by simpa using hk)] at hr
      injection hr with hr
      rw [← hr]
      exact hk
    · rw [if_neg (by simpa using hk)] at hr
      exact Option.noConfusion hr

theorem mem_pdu_triggerings_lt {m : Model} {pdu pt : Nat}
    (h : pt ∈ pdu_triggerings m pdu) : pt < m.elems.length := by
  obtain ⟨e, hg, _⟩ := elemKind_some_get (mem_pdu_triggerings_kind h)
  exact Model.get_some_lt hg

theorem findPort_congr {m m' : Model} {ports : List Nat} {ecu : Nat}
    {d : CommunicationDirection}
    (h : ∀ p ∈ ports, port_ecu m' p = port_ecu m p ∧
      port_direction m' p = port_direction m p) :
    findPort m' ports ecu d = findPort m ports ecu d := by
  unfold findPort
  apply find?_congr_mem
  intro a ha
  rw [(h a ha).1, (h a ha).2]

/-- A sub-element found in the extension that is itself pre-existing was
already the sub-element before the extension. -/
theorem ExtP.getSub_old {m m' : Model} {K Kext S} (h : ExtP m m' K Kext S)
    (hwf : WF m = true) {p : Nat} {pe : Elem} (hgp : m.get p = some pe) {n : EName}
    {c : Nat} (hc : getSubElement m' p n = some c) (hlt : c < m.elems.length) :
    getSubElement m p n = some c := by
  cases hg : getSubElement m p n with
  | some c0 =>
    rw [ExtP.getSub_some h hwf hg] at hc
    injection hc with hc
    rw [hc]
  | none =>
    exact absurd hlt (not_lt.2 (ExtP.getSub_new h hwf hgp hg hc))

theorem namedParentW_step_named {m : Model} {i p : Nat} {e pe : Elem}
    (hg : m.get i = some e) (hp : e.parent = some p) (hlt : p < i)
    (hgp : m.get p = some pe) (hn : pe.itemName.isSome = true) :
    namedParentW m i = some p := by
  rw [namedParentW_eq, hg]
  dsimp only
  rw [hp]
  dsimp only
  rw [if_pos hlt, hgp]
  dsimp only
  rw [if_pos hn]

theorem namedParentW_step_unnamed {m : Model} {i p : Nat} {e pe : Elem}
    (hg : m.get i = some e) (hp : e.parent = some p) (hlt : p < i)
    (hgp : m.get p = some pe) (hn : pe.itemName.isSome = false) :
    namedParentW m i = namedParentW m p := by
  rw [namedParentW_eq, hg]
  dsimp only
  rw [hp]
  dsimp only
  rw [if_pos hlt, hgp]
  dsimp only
  rw [if_neg (by rw [hn]; exact Bool.false_ne_true)]

theorem findPort_pred {m : Model} {ecu : Nat} {d : CommunicationDirection} (q : Nat) :
    ((fun p =>
      match port_ecu m p, port_direction m p with
      | some e, some d' => decide (e = ecu) && decide (d' = d)
      | _, _ => false) q = true) ↔
    (port_ecu m q = some ecu ∧ port_direction m q = some d) := by
  dsimp only
  cases he : port_ecu m q with
  | none => simp
  | some e =>
    cases hd : port_direction m q with
    | none => simp
    | some d' =>
      simp only [Bool.and_eq_true, decide_eq_true_eq, Option.some.injEq]

/-- Membership in `stPairs` is preserved by any extension that never appends a
`CommunicationDirection` child to a pre-existing element. -/
theorem ExtP.stPairs_mono {m m' : Model} {K Kext S} (h : ExtP m m' K Kext S)
    (hwf : WF m = true) (hcd : ¬ Kext EName.CommunicationDirection) {st : Nat}
    {ste : Elem} (hst : m.get st = some ste) :
    ∀ x, x ∈ stPairs m st → x ∈ stPairs m' st := by
  intro x hx
  unfold stPairs at hx ⊢
  rw [List.mem_filterMap] at hx ⊢
  obtain ⟨q, hq, hqx⟩ := hx
  refine ⟨q, ?_, ?_⟩
  · unfold signal_ports at hq ⊢
    cases hrs : getSubElement m st .ISignalPortRefs with
    | none => rw [hrs] at hq; simp at hq
    | some refs =>
      rw [hrs] at hq
      rw [ExtP.getSub_some h hwf hrs]
      rw [List.mem_filterMap] at hq ⊢
      obtain ⟨rc, hrc, hrcq⟩ := hq
      obtain ⟨refsE, hgrefs, hrcmem⟩ : ∃ refsE, m.get refs = some refsE ∧ rc ∈ refsE.children := by
        obtain ⟨e0, hg0, hmem0⟩ := getSub_mem hrs
        obtain ⟨ce, hgc, _⟩ := WF.child_parent hwf hg0 hmem0
        refine ⟨ce, hgc, ?_⟩
        unfold childList at hrc
        rw [hgc] at hrc
        simpa using hrc
      obtain ⟨refsE', hgrefs', _, _, _, _, _, extra, hch, _, _⟩ := h.2.1 refs refsE hgrefs
      refine ⟨rc, ?_, ?_⟩
      · unfold childList
        rw [hgrefs']
        simp only [Option.map_some', Option.getD_some]
        rw [hch]
        exact List.mem_append_left _ hrcmem
      · cases hgrt : get_reference_target m rc with
        | none => rw [hgrt] at hrcq; simp at hrcq
        | some t =>
          rw [hgrt] at hrcq
          rw [ExtP.grt_some h hgrt]
          simp only [Option.some_bind] at hrcq ⊢
          have htlt : t < m.elems.length := by
            unfold get_reference_target at hgrt
            cases hgrc : m.get rc with
            | none => rw [hgrc] at hgrt; simp at hgrt
            | some rce =>
              rw [hgrc] at hgrt
              simp only [Option.some_bind] at hgrt
              cases htg : rce.target with
              | none => rw [htg] at hgrt; simp at hgrt
              | some t0 =>
                rw [htg] at hgrt
                simp only [Option.some_bind] at hgrt
                cases hgt : m.get t0 with
                | none => rw [hgt] at hgrt; simp at hgrt
                | some te =>
                  rw [hgt] at hgrt
                  simp only [Option.map_some'] at hgrt
                  cases hgrt
                  exact Model.get_some_lt hgt
          rw [ExtP.elemKind_stable h htlt]
          exact hrcq
  · have hqlt : q < m.elems.length := by
      by_cases hpe : port_ecu m q = none
      · rw [hpe] at hqx; simp at hqx
      · obtain ⟨e, hpe'⟩ := Option.ne_none_iff_exists'.1 hpe
        unfold port_ecu at hpe'
        cases hnp : namedParentW m q with
        | none => rw [hnp] at hpe'; simp at hpe'
        | some conn =>
          -- namedParentW m q = some conn forces q to have an element
          cases hgq : m.get q with
          | none =>
            rw [namedParentW_eq, hgq] at hnp
            exact absurd hnp (by simp)
          | some qe => exact Model.get_some_lt hgq
    rw [ExtP.port_ecu_stable h hqlt]
    obtain ⟨qe, hgq⟩ := Model.get_lt_isSome hqlt
    rw [ExtP.port_direction_stable h hwf hgq hcd]
    exact hqx

/-- Membership in `ptPairs` is preserved by any extension that never appends a
`CommunicationDirection` child to a pre-existing element. -/
theorem ExtP.ptPairs_mono {m m' : Model} {K Kext S} (h : ExtP m m' K Kext S)
    (hwf : WF m = true) (hcd : ¬ Kext EName.CommunicationDirection) {pt : Nat}
    {pte : Elem} (hpt : m.get pt = some pte) :
    ∀ x, x ∈ ptPairs m pt → x ∈ ptPairs m' pt := by
  intro x hx
  unfold ptPairs at hx ⊢
  rw [List.mem_filterMap] at hx ⊢
  obtain ⟨q, hq, hqx⟩ := hx
  refine ⟨q, ?_, ?_⟩
  · unfold pdu_ports at hq ⊢
    cases hrs : getSubElement m pt .IPduPortRefs with
    | none => rw [hrs] at hq; simp at hq
    | some refs =>
      rw [hrs] at hq
      rw [ExtP.getSub_some h hwf hrs]
      rw [List.mem_filterMap] at hq ⊢
      obtain ⟨rc, hrc, hrcq⟩ := hq
      obtain ⟨refsE, hgrefs, hrcmem⟩ : ∃ refsE, m.get refs = some refsE ∧ rc ∈ refsE.children := by
        obtain ⟨e0, hg0, hmem0⟩ := getSub_mem hrs
        obtain ⟨ce, hgc, _⟩ := WF.child_parent hwf hg0 hmem0
        refine ⟨ce, hgc, ?_⟩
        unfold childList at hrc
        rw [hgc] at hrc
        simpa using hrc
      obtain ⟨refsE', hgrefs', _, _, _, _, _, extra, hch, _, _⟩ := h.2.1 refs refsE hgrefs
      refine ⟨rc, ?_, ?_⟩
      · unfold childList
        rw [hgrefs']
        simp only [Option.map_some', Option.getD_some]
        rw [hch]
        exact List.mem_append_left _ hrcmem
      · cases hgrt : get_reference_target m rc with
        | none => rw [hgrt] at hrcq; simp at hrcq
        | some t =>
          rw [hgrt] at hrcq
          rw [ExtP.grt_some h hgrt]
          simp only [Option.some_bind] at hrcq ⊢
          have htlt : t < m.elems.length := by
            unfold get_reference_target at hgrt
            cases hgrc : m.get rc with
            | none => rw [hgrc] at hgrt; simp at hgrt
            | some rce =>
              rw [hgrc] at hgrt
              simp only [Option.some_bind] at hgrt
              cases htg : rce.target with
              | none => rw [htg] at hgrt; simp at hgrt
              | some t0 =>
                rw [htg] at hgrt
                simp only [Option.some_bind] at hgrt
                cases hgt : m.get t0 with
                | none => rw [hgt] at hgrt; simp at hgrt
                | some te =>
                  rw [hgt] at hgrt
                  simp only [Option.map_some'] at hgrt
                  cases hgrt
                  exact Model.get_some_lt hgt
          rw [ExtP.elemKind_stable h htlt]
          exact hrcq
  · have hqlt : q < m.elems.length := by
      by_cases hpe : port_ecu m q = none
      · rw [hpe] at hqx; simp at hqx
      · obtain ⟨e, hpe'⟩ := Option.ne_none_iff_exists'.1 hpe
        unfold port_ecu at hpe'
        cases hnp : namedParentW m q with
        | none => rw [hnp] at hpe'; simp at hpe'
        | some conn =>
          cases hgq : m.get q with
          | none =>
            rw [namedParentW_eq, hgq] at hnp
            exact absurd hnp (by simp)
          | some qe => exact Model.get_some_lt hgq
    rw [ExtP.port_ecu_stable h hqlt]
    obtain ⟨qe, hgq⟩ := Model.get_lt_isSome hqlt
    rw [ExtP.port_direction_stable h hwf hgq hcd]
    exact hqx


/-- Characterization of a successful `ISignalTriggering::connect_to_ecu` call:
well-formedness and mutation footprint of the post-state, the returned port is
a port of the triggering with the requested ECU and direction, a re-scan of
the post-state finds exactly that port, and the port set (and its (ECU,
direction) pair set) grows by at most the returned port. -/
theorem st_connect_ok {m m' : Model} {st ecu sp : Nat} {d : CommunicationDirection}
    (hwf : WF m = true) (hstlt : st < m.elems.length) (hecu : EcuOK m ecu)
    (hok : ISignalTriggering.connect_to_ecu m st ecu d = (.ok sp, m')) :
    WF m' = true ∧
    ExtP m m' connK connKext (connS m st) ∧
    sp ∈ signal_ports m' st ∧
    port_ecu m' sp = some ecu ∧
    port_direction m' sp = some d ∧
    findPort m' (signal_ports m' st) ecu d = some sp ∧
    (∀ q ∈ signal_ports m' st, q ∈ signal_ports m st ∨ q = sp) ∧
    (∀ x ∈ stPairs m' st, x ∈ stPairs m st ∨ x = (ecu, d)) ∧
    (findPort m (signal_ports m st) ecu d = none → m.elems.length ≤ sp) := by
  unfold ISignalTriggering.connect_to_ecu at hok
  cases hfp : findPort m (signal_ports m st) ecu d with
  | some p =>
    rw [hfp] at hok
    dsimp only at hok
    injection hok with h1 h2
    injection h1 with h1
    subst h1
    subst h2
    obtain ⟨hmem, hpe, hpd⟩ := findPort_some_facts hfp
    refine ⟨hwf, ExtP.refl m _ _ _, hmem, hpe, hpd, hfp, fun q hq => Or.inl hq,
      fun x hx => Or.inl hx, fun hnone => ?_⟩
    exact Option.noConfusion hnone
  | none =>
    rw [hfp] at hok
    dsimp only at hok
    cases hch : physical_channel m st with
    | error e =>
      rw [hch] at hok
      simp at hok
    | ok channel =>
      rw [hch] at hok
      dsimp only at hok
      cases hconn : get_ecu_connector m channel ecu with
      | none =>
        rw [hconn] at hok
        simp at hok
      | some connector =>
        rw [hconn] at hok
        dsimp only at hok
        cases hnm : elemName m st with
        | none =>
          rw [hnm] at hok
          simp at hok
        | some name =>
          rw [hnm] at hok
          dsimp only at hok
          rcases hcpi : get_or_create_sub_element m connector .EcuCommPortInstances
            with ⟨cpi, mA⟩
          rw [hcpi] at hok
          dsimp only at hok
          cases hcn : create_named_sub_element mA cpi .ISignalPort
              (name ++ "_" ++ dirSuffix d) with
          | error e =>
            rw [hcn] at hok
            simp at hok
          | ok spM =>
            rcases spM with ⟨sp0, mB⟩
            rw [hcn] at hok
            dsimp only at hok
            rcases hcd : create_sub_element mB sp0 .CommunicationDirection with ⟨cd, mC⟩
            rw [hcd] at hok
            dsimp only at hok
            set m4 := set_character_data mC cd (CData.enum (dirToEnum d)) with hm4
            rcases hrefs : get_or_create_sub_element m4 st .ISignalPortRefs with ⟨refs, mD⟩
            rw [hrefs] at hok
            dsimp only at hok
            rcases hr : create_sub_element mD refs .ISignalPortRef with ⟨r, mE⟩
            rw [hr] at hok
            dsimp only at hok
            injection hok with h1 h2
            injection h1 with h1
            subst h1
            -- facts about the pre-state
            obtain ⟨ste, hgst⟩ := Model.get_lt_isSome hstlt
            obtain ⟨conns, connE, hgsubconn, hconnmemCL, hgconn, hkconn⟩ :=
              get_ecu_connector_facts hconn
            obtain ⟨ecuE0, hgecu0, hconnsmem⟩ := getSub_mem hgsubconn
            have hkconns := getSub_kind hgsubconn
            obtain ⟨connsE, hgconns, hconnspar⟩ := WF.child_parent hwf hgecu0 hconnsmem
            have hconnmem : connector ∈ connsE.children := by
              unfold childList at hconnmemCL
              rw [hgconns] at hconnmemCL
              simpa using hconnmemCL
            obtain ⟨connE', hgconn', hconnpar⟩ := WF.child_parent hwf hgconns hconnmem
            rw [hgconn] at hgconn'
            injection hgconn' with hconnE'
            subst hconnE'
            have hconnskind : connsE.ename = EName.Connectors := by
              unfold elemKind at hkconns
              rw [hgconns] at hkconns
              simpa using hkconns
            have hconnsunnamed : connsE.itemName.isSome = false := by
              have hni := WF.named_iff hwf hgconns
              rw [hconnskind] at hni
              exact hni.trans rfl
            have hconnnamed : connE.itemName.isSome = true := by
              have hni := WF.named_iff hwf hgconn
              rw [isConnectorKind_named hkconn] at hni
              exact hni
            obtain ⟨ecuE, hgecu, hecuk, hecunamed⟩ := hecu
            rw [hgecu0] at hgecu
            injection hgecu with hecuE
            subst hecuE
            have hconnlt : connector < m.elems.length := Model.get_some_lt hgconn
            have hconnslt : conns < connector := WF.parent_lt hwf hgconn hconnpar
            have hecult : ecu < conns := WF.parent_lt hwf hgconns hconnspar
            -- step A: get_or_create EcuCommPortInstances under the connector
            have hAout := goc_out (n := .EcuCommPortInstances) hwf hgconn rfl hcpi
            obtain ⟨hwfA, hcpiltA, hlenA, ⟨cpiE, hgcpiA, hkcpi, hnmcpi, hparcpi, hchcpi⟩,
              hgsubA, hstabA, hcasesA⟩ := hAout
            have harithA : cpi < m.elems.length ∧ mA.elems.length = m.elems.length ∨
                cpi = m.elems.length ∧ mA.elems.length = m.elems.length + 1 := by
              rcases hcasesA with ⟨_, hmeq, hlt⟩ | ⟨_, hceq, hleq, _⟩
              · exact Or.inl ⟨hlt, by rw [hmeq]⟩
              · exact Or.inr ⟨hceq, hleq⟩
            have hA2 : mA.elems.length ≤ m.elems.length + 1 := by
              rcases harithA with ⟨_, h⟩ | ⟨_, h⟩ <;> omega
            -- step B: create the named ISignalPort
            have hBout := cns_out (n := .ISignalPort) hwfA hgcpiA rfl hcn
            obtain ⟨hwfB, hsp0, hlenB, hgspB, hstabB, hgcpiB⟩ := hBout
            -- step C: create the CommunicationDirection child of the port
            have hCout := cs_out hwfB hgspB rfl (n := .CommunicationDirection)
            rw [hcd] at hCout
            dsimp only at hCout
            obtain ⟨hwfC, hcd1, hlenC, hgcdC, hstabC, hgspC⟩ := hCout
            rw [← hcd1] at hgcdC hgspC
            -- step 4: write the direction enum
            have hwf4 : WF m4 = true := by
              rw [hm4]; exact WF_set_character_data hwfC
            have hlen4 : m4.elems.length = mC.elems.length := by
              rw [hm4]; exact len_set_character_data mC cd _
            have hgcd4 : m4.get cd = some
                { ename := .CommunicationDirection,
                  parent := some sp0, cdata := some (.enum (dirToEnum d)) } := by
              rw [hm4]
              rw [get_set_character_data_self mC _ hgcdC]
            have hstab4 : ∀ j, j ≠ cd → m4.get j = mC.get j := by
              intro j hj
              rw [hm4]
              exact get_set_character_data_ne mC _ hj
            -- step D: get_or_create ISignalPortRefs under the triggering
            have hstlt4 : st < m4.elems.length := by
              rcases harithA with ⟨_, h⟩ | ⟨_, h⟩ <;> omega
            obtain ⟨st4, hgst4⟩ := Model.get_lt_isSome hstlt4
            have hDout := goc_out (n := .ISignalPortRefs) hwf4 hgst4 rfl hrefs
            obtain ⟨hwfD, hrefsltD, hlenD, ⟨refsE, hgrefsD, hkrefs, hnmrefs, hparrefs, hchrefs⟩,
              hgsubD, hstabD, hcasesD⟩ := hDout
            have harithD : refs < m4.elems.length ∧ mD.elems.length = m4.elems.length ∨
                refs = m4.elems.length ∧ mD.elems.length = m4.elems.length + 1 := by
              rcases hcasesD with ⟨_, hmeq, hlt⟩ | ⟨_, hceq, hleq, _⟩
              · exact Or.inl ⟨hlt, by rw [hmeq]⟩
              · exact Or.inr ⟨hceq, hleq⟩
            have hD2 : mD.elems.length ≤ m4.elems.length + 1 := by
              rcases harithD with ⟨_, h⟩ | ⟨_, h⟩ <;> omega
            -- step E: create the ISignalPortRef
            have hEout := cs_out hwfD hgrefsD rfl (n := .ISignalPortRef)
            rw [hr] at hEout
            dsimp only at hEout
            obtain ⟨hwfE, hr1, hlenE, hgrE, hstabE, hgrefsE⟩ := hEout
            rw [← hr1] at hgrE hgrefsE
            -- final state
            have hwf' : WF m' = true := by
              rw [← h2]
              exact WF_set_reference_target hwfE (by omega)
            have hlen' : m'.elems.length = mE.elems.length := by
              rw [← h2]; exact len_set_reference_target mE r sp0
            have hgr' : m'.get r = some
                { ename := .ISignalPortRef, parent := some refs,
                  target := some sp0 } := by
              rw [← h2]
              rw [get_set_reference_target_self mE sp0 hgrE]
            have hstab' : ∀ j, j ≠ r → m'.get j = mE.get j := by
              intro j hj
              rw [← h2]
              exact get_set_reference_target_ne mE sp0 hj
            -- mutation footprint m → m4 with a tight kind budget
            have e0 : ExtP m m (fun k => k ∈ [EName.EcuCommPortInstances, .ISignalPort,
                .CommunicationDirection]) (fun k => k ∈ [EName.EcuCommPortInstances,
                .ISignalPort]) (connS m st) := ExtP.refl m _ _ _
            have hSconn : connector < m.elems.length → connS m st connector :=
              fun _ => Or.inr (Or.inl ⟨connE.ename, by simp [elemKind, hgconn],
                connectorKind_mem_connS_list hkconn⟩)
            have eA := goc_ext e0 hcpi (by simp) (fun _ => by simp) hSconn
            have hScpi : cpi < m.elems.length → connS m st cpi := by
              intro hlt
              rcases hcasesA with ⟨hg0, _, _⟩ | ⟨_, hceq, _, _⟩
              · exact Or.inr (Or.inl ⟨.EcuCommPortInstances, getSub_kind hg0, by simp⟩)
              · omega
            have eB := cns_ext eA hcn (by simp) (fun _ => by simp) hScpi
            have eC0 := cs_ext eB (p := sp0) (n := .CommunicationDirection) (by simp)
              (fun hlt => absurd hlt (by omega)) (fun hlt => absurd hlt (by omega))
            rw [hcd] at eC0
            dsimp only at eC0
            have e4t : ExtP m m4 (fun k => k ∈ [EName.EcuCommPortInstances, .ISignalPort,
                .CommunicationDirection]) (fun k => k ∈ [EName.EcuCommPortInstances,
                .ISignalPort]) (connS m st) := by
              rw [hm4]
              exact ExtP_step_set_character_data eC0 (show m.elems.length ≤ cd by omega)
            -- the new port and its direction child in m4
            have hgsp4 : m4.get sp0 = some
                { ename := .ISignalPort,
                  itemName := some (name ++ "_" ++ dirSuffix d), parent := some cpi,
                  children := [cd] } := by
              rw [hstab4 sp0 (by omega)]
              rw [hgspC]
              rfl
            have hgcpi4 : m4.get cpi = some { cpiE with children := cpiE.children ++ [sp0] } := by
              rw [hstab4 cpi (by omega), hstabC cpi (by omega) (by omega)]
              exact hgcpiB
            -- existing reference collections are pre-state elements of `st`
            have hDfacts : (refs < m.elems.length ∧ m.get refs = some refsE ∧
                getSubElement m st .ISignalPortRefs = some refs ∧ mD = m4) ∨
                refs = m4.elems.length := by
              rcases hcasesD with ⟨hg0, hmeq, hreflt4⟩ | ⟨_, hceq, _, _⟩
              · left
                have hkrefs4 : elemKind m4 refs = some EName.ISignalPortRefs := by
                  rw [← hmeq]
                  simp [elemKind, hgrefsD, hkrefs]
                have hrefsltL : refs < m.elems.length := by
                  by_contra hge
                  push_neg at hge
                  have hjcase : refs = cpi ∨ refs = sp0 ∨ refs = cd := by
                    rcases harithA with ⟨h1', h2'⟩ | ⟨h1', h2'⟩ <;> omega
                  rcases hjcase with he | he | he
                  · rw [he, elemKind, hgcpi4] at hkrefs4
                    simp only [Option.map_some', Option.some.injEq] at hkrefs4
                    exact EName.noConfusion (hkcpi.symm.trans hkrefs4)
                  · rw [he, elemKind, hgsp4] at hkrefs4
                    simp at hkrefs4
                  · rw [he, elemKind, hgcd4] at hkrefs4
                    simp at hkrefs4
                have hrefs_ne_cpi : refs ≠ cpi := by
                  intro he
                  rw [he, elemKind, hgcpi4] at hkrefs4
                  simp only [Option.map_some', Option.some.injEq] at hkrefs4
                  exact EName.noConfusion (hkcpi.symm.trans hkrefs4)
                have hrefs_ne_conn : refs ≠ connector := by
                  intro he
                  have hx : elemKind m connector = some EName.ISignalPortRefs := by
                    rw [← e4t.elemKind_stable hconnlt, ← he]
                    exact hkrefs4
                  rw [elemKind, hgconn] at hx
                  simp only [Option.map_some', Option.some.injEq] at hx
                  rw [hx] at hkconn
                  simp [isConnectorKind] at hkconn
                have hgrefsm : m.get refs = some refsE := by
                  have hstep4 : m4.get refs = some refsE := by
                    rw [← hmeq]; exact hgrefsD
                  rw [hstab4 refs (by omega), hstabC refs (by omega) (by omega),
                    hstabB refs (by omega) hrefs_ne_cpi,
                    hstabA refs (by omega) hrefs_ne_conn] at hstep4
                  exact hstep4
                have hgsubm : getSubElement m st .ISignalPortRefs = some refs := by
                  cases hgs : getSubElement m st .ISignalPortRefs with
                  | none =>
                    exfalso
                    have hn4 := ExtP.getSub_none e4t hwf hgst hgs (by simp)
                    rw [hg0] at hn4
                    exact Option.noConfusion hn4
                  | some x =>
                    have hs4 := ExtP.getSub_some e4t hwf hgs
                    rw [hg0] at hs4
                    injection hs4 with hx
                    rw [hx]
                exact ⟨hrefsltL, hgrefsm, hgsubm, hmeq⟩
              · right
                exact hceq
            -- widen to the footprint of the whole operation
            have e4 := e4t.mono connK_incl connKext_incl (fun i h => h)
            have eD := goc_ext e4 hrefs (by simp [connK]) (fun _ => by simp [connKext])
              (fun _ => Or.inl rfl)
            have hSrefs : refs < m.elems.length → connS m st refs := by
              intro hlt
              rcases hDfacts with ⟨_, _, hsub, _⟩ | hceq
              · exact Or.inr (Or.inr hsub)
              · rcases harithA with ⟨_, h⟩ | ⟨_, h⟩ <;> omega
            have eE0 := cs_ext eD (p := refs) (n := .ISignalPortRef) (by simp [connK])
              (fun _ => by simp [connKext]) hSrefs
            rw [hr] at eE0
            dsimp only at eE0
            have hext : ExtP m m' connK connKext (connS m st) := by
              rw [← h2]
              exact ExtP_step_set_reference_target eE0 (show m.elems.length ≤ r by
                rcases harithD with ⟨_, h⟩ | ⟨_, h⟩ <;> omega)
            -- mutation footprint m4 → m' (used for the fresh elements' fields)
            have f0 : ExtP m4 m4 (fun k => k ∈ [EName.ISignalPortRefs, .ISignalPortRef])
                (fun k => k ∈ [EName.ISignalPortRefs, .ISignalPortRef])
                (fun i => i = st ∨ kindIn m4 i [.ISignalPortRefs]) := ExtP.refl m4 _ _ _
            have f1 := goc_ext f0 hrefs (by simp) (fun _ => by simp) (fun _ => Or.inl rfl)
            have hS4refs : refs < m4.elems.length →
                refs = st ∨ kindIn m4 refs [.ISignalPortRefs] := by
              intro hlt
              rcases hcasesD with ⟨hg0, _, _⟩ | ⟨_, hceq, _, _⟩
              · exact Or.inr ⟨.ISignalPortRefs, getSub_kind hg0, by simp⟩
              · omega
            have f2 := cs_ext f1 (p := refs) (n := .ISignalPortRef) (by simp)
              (fun _ => by simp) hS4refs
            rw [hr] at f2
            dsimp only at f2
            have hext4 : ExtP m4 m' (fun k => k ∈ [EName.ISignalPortRefs, .ISignalPortRef])
                (fun k => k ∈ [EName.ISignalPortRefs, .ISignalPortRef])
                (fun i => i = st ∨ kindIn m4 i [.ISignalPortRefs]) := by
              rw [← h2]
              exact ExtP_step_set_reference_target f2 (by omega)
            -- element views in the final state
            obtain ⟨spE', hgsp', hspn, hspnm, hsppar, hspcd, hsptg, extraSp, hspch,
              hspchor, _⟩ := hext4.2.1 sp0 _ hgsp4
            have hextraSp : extraSp = [] := by
              rcases hspchor with h | h
              · exact h
              · rcases h with h | ⟨k, hk, hkm⟩
                · omega
                · rw [elemKind, hgsp4] at hk
                  simp only [Option.map_some', Option.some.injEq] at hk
                  subst hk
                  simp at hkm
            have hspch' : spE'.children = [cd] := by
              simp [hspch, hextraSp]
            obtain ⟨cdE', hgcd', hcdn, hcdnm, hcdpar, hcdcd, _, extraCd, hcdch,
              hcdchor, _⟩ := hext4.2.1 cd _ hgcd4
            have hkcd' : elemKind m' cd = some EName.CommunicationDirection := by
              simp [elemKind, hgcd', hcdn]
            have hgsubsp' : getSubElement m' sp0 .CommunicationDirection = some cd := by
              unfold getSubElement
              rw [hgsp']
              simp only [Option.some_bind]
              rw [hspch']
              simp only [List.find?_singleton]
              rw [if_pos (by simp [hkcd'])]
            have hpd' : port_direction m' sp0 = some d := by
              unfold port_direction
              rw [hgsubsp']
              simp only [Option.some_bind]
              rw [hgcd']
              simp only [Option.some_bind]
              rw [hcdcd]
              simp [cdataEnum, dirFromEnum_toEnum]
            obtain ⟨cpiE', hgcpi', hcpin, hcpinm, hcpipar, _, _, _⟩ :=
              hext4.2.1 cpi _ hgcpi4
            obtain ⟨connE2, hgconn2, hconn2n, hconn2nm, hconn2par, _, _, _⟩ :=
              hext.2.1 connector _ hgconn
            have hcpinm' : cpiE'.itemName = none := by
              rw [hcpinm]
              exact hnmcpi
            have hcpipar' : cpiE'.parent = some connector := by
              rw [hcpipar]
              exact hparcpi
            have hcpilt_sp : cpi < sp0 := by omega
            have hconnlt_cpi : connector < cpi := WF.parent_lt hwfA hgcpiA hparcpi
            have hnpsp : namedParentW m' sp0 = namedParentW m' cpi :=
              namedParentW_step_unnamed hgsp' (hsppar.trans rfl) hcpilt_sp hgcpi'
                (by rw [hcpinm']; rfl)
            have hconn2nm' : connE2.itemName.isSome = true := by
              rw [hconn2nm]
              exact hconnnamed
            have hnpcpi : namedParentW m' cpi = some connector :=
              namedParentW_step_named hgcpi' hcpipar' hconnlt_cpi hgconn2 hconn2nm'
            have hnpconn : namedParentW m connector = some ecu := by
              rw [namedParentW_step_unnamed hgconn hconnpar hconnslt hgconns hconnsunnamed]
              exact namedParentW_step_named hgconns hconnspar hecult hgecu0 hecunamed
            have hke' : elemKind m' ecu = some EName.EcuInstance := by
              rw [hext.elemKind_stable (Model.get_some_lt hgecu0)]
              simp [elemKind, hgecu0, hecuk]
            have hpe' : port_ecu m' sp0 = some ecu := by
              unfold port_ecu
              rw [hnpsp, hnpcpi]
              simp only [Option.some_bind]
              rw [hext.namedParent_stable connector hconnlt, hnpconn]
              simp only [Option.some_bind]
              rw [if_pos (by simp [hke'])]
            have hgrtr' : get_reference_target m' r = some sp0 := by
              unfold get_reference_target
              rw [hgr']
              simp [hgsp']
            have hksp' : elemKind m' sp0 = some EName.ISignalPort := by
              simp [elemKind, hgsp', hspn]
            -- the triggering's reference collection in the final state
            have g0 : ExtP mD mD (fun k => k ∈ [EName.ISignalPortRef])
                (fun k => k ∈ [EName.ISignalPortRef])
                (fun i => kindIn mD i [.ISignalPortRefs]) := ExtP.refl mD _ _ _
            have g1 := cs_ext g0 (p := refs) (n := .ISignalPortRef) (by simp)
              (fun _ => by simp)
              (fun _ => ⟨.ISignalPortRefs, by simp [elemKind, hgrefsD, hkrefs], by simp⟩)
            rw [hr] at g1
            dsimp only at g1
            have hextD : ExtP mD m' (fun k => k ∈ [EName.ISignalPortRef])
                (fun k => k ∈ [EName.ISignalPortRef])
                (fun i => kindIn mD i [.ISignalPortRefs]) := by
              rw [← h2]
              exact ExtP_step_set_reference_target g1 hr1.ge
            have hgsubst' : getSubElement m' st .ISignalPortRefs = some refs :=
              hextD.getSub_some hwfD hgsubD
            have hgrefs' : m'.get refs = some { refsE with children := refsE.children ++ [r] } := by
              rw [hstab' refs (by omega)]
              exact hgrefsE
            have hclrefs' : childList m' refs = refsE.children ++ [r] := by
              simp [childList, hgrefs']
            -- membership of the new port
            have hspmem : sp0 ∈ signal_ports m' st := by
              unfold signal_ports
              rw [hgsubst']
              rw [List.mem_filterMap]
              refine ⟨r, ?_, ?_⟩
              · rw [hclrefs']
                exact List.mem_append_right _ (by simp)
              · rw [hgrtr']
                simp [hksp']
            -- the only fresh element with the ISignalPort kind is the new port
            have hfresh : ∀ j (ce : Elem), m.elems.length ≤ j → m'.get j = some ce →
                ce.ename = EName.ISignalPort → j = sp0 := by
              intro j ce hjL hgj hkj
              have hjlt : j < m'.elems.length := Model.get_some_lt hgj
              have hjcase : j = cpi ∨ j = sp0 ∨ j = cd ∨ j = refs ∨ j = r := by
                rcases harithA with ⟨h1', h2'⟩ | ⟨h1', h2'⟩ <;>
                  rcases harithD with ⟨h3', h4'⟩ | ⟨h3', h4'⟩ <;> omega
              rcases hjcase with rfl | rfl | rfl | rfl | rfl
              · rw [hgcpi'] at hgj
                injection hgj with he
                subst he
                rw [hcpin] at hkj
                exact EName.noConfusion (hkcpi.symm.trans hkj)
              · rfl
              · rw [hgcd'] at hgj
                injection hgj with he
                subst he
                rw [hcdn] at hkj
                exact EName.noConfusion hkj
              · rw [hgrefs'] at hgj
                injection hgj with he
                subst he
                exact EName.noConfusion (hkrefs.symm.trans hkj)
              · rw [hgr'] at hgj
                injection hgj with he
                subst he
                exact EName.noConfusion hkj
            -- decomposition of the final port list
            have hdecomp : ∀ q ∈ signal_ports m' st, q ∈ signal_ports m st ∨ q = sp0 := by
              intro q hq
              unfold signal_ports at hq
              rw [hgsubst'] at hq
              rw [List.mem_filterMap] at hq
              obtain ⟨rc, hrcmem, hrcq⟩ := hq
              rw [hclrefs'] at hrcmem
              rcases List.mem_append.1 hrcmem with hrcold | hrcr
              · rcases hcasesD with ⟨hg0, hmeq, hreflt4⟩ | ⟨hnone0, hceq, _, _⟩
                · -- the reference collection already existed
                  have hkrefs4 : elemKind m4 refs = some EName.ISignalPortRefs := by
                    rw [← hmeq]
                    simp [elemKind, hgrefsD, hkrefs]
                  have hrefsltL : refs < m.elems.length := by
                    by_contra hge
                    push_neg at hge
                    have hjcase : refs = cpi ∨ refs = sp0 ∨ refs = cd := by
                      rcases harithA with ⟨h1', h2'⟩ | ⟨h1', h2'⟩ <;> omega
                    rcases hjcase with he | he | he
                    · rw [he, elemKind, hgcpi4] at hkrefs4
                      simp only [Option.map_some', Option.some.injEq] at hkrefs4
                      exact EName.noConfusion (hkcpi.symm.trans hkrefs4)
                    · rw [he, elemKind, hgsp4] at hkrefs4
                      simp at hkrefs4
                    · rw [he, elemKind, hgcd4] at hkrefs4
                      simp at hkrefs4
                  have hrefs_ne_cpi : refs ≠ cpi := by
                    intro he
                    rw [he, elemKind, hgcpi4] at hkrefs4
                    simp only [Option.map_some', Option.some.injEq] at hkrefs4
                    exact EName.noConfusion (hkcpi.symm.trans hkrefs4)
                  have hrefs_ne_conn : refs ≠ connector := by
                    intro he
                    have hx : elemKind m connector = some EName.ISignalPortRefs := by
                      rw [← e4.elemKind_stable hconnlt, ← he]
                      exact hkrefs4
                    rw [elemKind, hgconn] at hx
                    simp only [Option.map_some', Option.some.injEq] at hx
                    rw [hx] at hkconn
                    simp [isConnectorKind] at hkconn
                  have hgrefsm : m.get refs = some refsE := by
                    have hstep4 : m4.get refs = some refsE := by
                      rw [← hmeq]; exact hgrefsD
                    rw [hstab4 refs (by omega), hstabC refs (by omega) (by omega),
                      hstabB refs (by omega) hrefs_ne_cpi,
                      hstabA refs (by omega) hrefs_ne_conn] at hstep4
                    exact hstep4
                  have hclm : childList m refs = refsE.children := by
                    simp [childList, hgrefsm]
                  have hgsubm : getSubElement m st .ISignalPortRefs = some refs := by
                    cases hgs : getSubElement m st .ISignalPortRefs with
                    | none =>
                      exfalso
                      have hn4 := ExtP.getSub_none e4t hwf hgst hgs (by simp)
                      rw [hg0] at hn4
                      exact Option.noConfusion hn4
                    | some x =>
                      have hs4 := ExtP.getSub_some e4t hwf hgs
                      rw [hg0] at hs4
                      injection hs4 with hx
                      rw [hx]
                  obtain ⟨rce, hgrc, _⟩ := WF.child_parent hwf hgrefsm hrcold
                  have hrcltL : rc < m.elems.length := Model.get_some_lt hgrc
                  cases hgt : get_reference_target m' rc with
                  | none =>
                    rw [hgt] at hrcq
                    simp at hrcq
                  | some t =>
                    rw [hgt] at hrcq
                    simp only [Option.some_bind] at hrcq
                    have hkt : elemKind m' t = some EName.ISignalPort ∧ t = q := by
                      by_cases hk : elemKind m' t = some EName.ISignalPort
                      · rw [if_pos (by simpa using hk)] at hrcq
                        exact ⟨hk, by simpa using hrcq⟩
                      · rw [if_neg (by simpa using hk)] at hrcq
                        exact absurd hrcq (by simp)
                    rcases hkt with ⟨hktk, rfl⟩
                    rcases hext.grt_old (r := rc) hrcltL with hsame |
                      ⟨t', ce', hgt', htL, hgce', hKce⟩
                    · left
                      have hgtm : get_reference_target m rc = some t :=
                        hsame.symm.trans hgt
                      have htltL : t < m.elems.length := grt_some_lt hgtm
                      have hktm : elemKind m t = some EName.ISignalPort := by
                        rw [← hext.elemKind_stable htltL]
                        exact hktk
                      unfold signal_ports
                      rw [hgsubm]
                      rw [List.mem_filterMap]
                      refine ⟨rc, by rw [hclm]; exact hrcold, ?_⟩
                      rw [hgtm]
                      simp [hktm]
                    · right
                      rw [hgt] at hgt'
                      injection hgt' with htt
                      subst htt
                      have hcek : ce'.ename = EName.ISignalPort := by
                        rw [elemKind, hgce'] at hktk
                        simpa using hktk
                      exact hfresh t ce' htL hgce' hcek
                · -- the collection was freshly created: it has no old children
                  exfalso
                  have hgn : m4.get refs = none := by
                    rw [Model.get]
                    exact List.getElem?_eq_none_iff.2 (by omega)
                  rw [hchrefs] at hrcold
                  simp [childList, hgn] at hrcold
              · right
                have hrc : rc = r := by simpa using hrcr
                subst hrc
                rw [hgrtr'] at hrcq
                simp [hksp'] at hrcq
                omega
            -- the re-scan finds exactly the new port
            have hfind' : findPort m' (signal_ports m' st) ecu d = some sp0 := by
              unfold findPort
              apply find?_unique_mem hspmem
              · exact (findPort_pred sp0).mpr ⟨hpe', hpd'⟩
              · intro q hq hpq
                obtain ⟨hqe, hqd⟩ := (findPort_pred q).mp hpq
                rcases hdecomp q hq with hqm | rfl
                · exfalso
                  obtain ⟨qe, hgq, _⟩ := mem_signal_ports_get hqm
                  have hqlt : q < m.elems.length := Model.get_some_lt hgq
                  have hq1 : port_ecu m q = some ecu := by
                    rw [← hext.port_ecu_stable hqlt]
                    exact hqe
                  have hq2 : port_direction m q = some d := by
                    rw [← hext.port_direction_stable hwf hgq (by simp [connKext])]
                    exact hqd
                  exact findPort_none_facts hfp q hqm ⟨hq1, hq2⟩
                · rfl
            -- pair-set decomposition
            have hpairs : ∀ x ∈ stPairs m' st, x ∈ stPairs m st ∨ x = (ecu, d) := by
              intro x hx
              unfold stPairs at hx
              rw [List.mem_filterMap] at hx
              obtain ⟨q, hq, hqx⟩ := hx
              rcases hdecomp q hq with hqm | rfl
              · left
                obtain ⟨qe, hgq, _⟩ := mem_signal_ports_get hqm
                have hqlt : q < m.elems.length := Model.get_some_lt hgq
                rw [hext.port_ecu_stable hqlt,
                  hext.port_direction_stable hwf hgq (by simp [connKext])] at hqx
                unfold stPairs
                rw [List.mem_filterMap]
                exact ⟨q, hqm, hqx⟩
              · right
                rw [hpe', hpd'] at hqx
                simp only [Option.some_bind, Option.map_some'] at hqx
                injection hqx with hh
                exact hh.symm
            exact ⟨hwf', hext, hspmem, hpe', hpd', hfind', hdecomp, hpairs,
              fun _ => by omega⟩

/-- Characterization of a successful `ISignalTriggering::new`: the fresh named
triggering is created under the channel's triggerings collection, referencing
the signal, with no ports. -/
theorem st_new_ok {m m' : Model} {signal channel st : Nat}
    (hwf : WF m = true) {che : Elem} (hgch : m.get channel = some che)
    (hsiglt : signal < m.elems.length)
    (hok : ISignalTriggering.new m signal channel = (.ok st, m')) :
    WF m' = true ∧
    ExtP m m' (fun k => k ∈ [EName.ISignalTriggerings, .ISignalTriggering, .ISignalRef])
      (fun k => k ∈ [EName.ISignalTriggerings, .ISignalTriggering])
      (fun i => i = channel ∨ getSubElement m channel .ISignalTriggerings = some i) ∧
    m.elems.length ≤ st ∧ st < m'.elems.length ∧
    (∃ ste, m'.get st = some ste ∧ ste.ename = .ISignalTriggering ∧
      ste.itemName.isSome = true) ∧
    getSubElement m' st .ISignalPortRefs = none ∧
    signal_ports m' st = [] ∧
    (∃ r, getSubElement m' st .ISignalRef = some r ∧
      get_reference_target m' r = some signal) ∧
    countKind m' .ISignalTriggering = countKind m .ISignalTriggering + 1 ∧
    (che.itemName.isSome = true → namedParentW m' st = some channel) := by
  unfold ISignalTriggering.new at hok
  cases hnm : elemName m signal with
  | none =>
    rw [hnm] at hok
    simp at hok
  | some signal_name =>
    rw [hnm] at hok
    dsimp only at hok
    rcases hgoc : get_or_create_sub_element m channel .ISignalTriggerings with ⟨trgs, mA⟩
    rw [hgoc] at hok
    dsimp only at hok
    cases hcn : create_named_sub_element mA trgs .ISignalTriggering
        (make_unique_name m channel ("ST_" ++ signal_name)) with
    | error e =>
      rw [hcn] at hok
      simp at hok
    | ok stM =>
      rcases stM with ⟨st0, mB⟩
      rw [hcn] at hok
      dsimp only at hok
      rcases hcs : create_sub_element mB st0 .ISignalRef with ⟨r, mC⟩
      rw [hcs] at hok
      dsimp only at hok
      injection hok with h1 h2
      injection h1 with h1
      subst h1
      -- step characterizations
      have hAout := goc_out (n := .ISignalTriggerings) hwf hgch rfl hgoc
      obtain ⟨hwfA, htrgsltA, hlenA, ⟨trgsE, hgtrgsA, hktrgs, hnmtrgs, hpartrgs, _⟩,
        hgsubA, hstabA, hcasesA⟩ := hAout
      have harithA : trgs < m.elems.length ∧ mA.elems.length = m.elems.length ∨
          trgs = m.elems.length ∧ mA.elems.length = m.elems.length + 1 := by
        rcases hcasesA with ⟨_, hmeq, hlt⟩ | ⟨_, hceq, hleq, _⟩
        · exact Or.inl ⟨hlt, by rw [hmeq]⟩
        · exact Or.inr ⟨hceq, hleq⟩
      have hBout := cns_out (n := .ISignalTriggering) hwfA hgtrgsA rfl hcn
      obtain ⟨hwfB, hst0, hlenB, hgstB, hstabB, hgtrgsB⟩ := hBout
      have hCout := cs_out hwfB hgstB rfl (n := .ISignalRef)
      rw [hcs] at hCout
      dsimp only at hCout
      obtain ⟨hwfC, hr1, hlenC, hgrC, hstabC, hgstC⟩ := hCout
      rw [← hr1] at hgrC hgstC
      have hwf' : WF m' = true := by
        rw [← h2]
        exact WF_set_reference_target hwfC (by
          rcases harithA with ⟨_, h⟩ | ⟨_, h⟩ <;> omega)
      have hlen' : m'.elems.length = mC.elems.length := by
        rw [← h2]; exact len_set_reference_target mC r signal
      have hgr' : m'.get r = some
          { ename := .ISignalRef, parent := some st0, target := some signal } := by
        rw [← h2]
        rw [get_set_reference_target_self mC signal hgrC]
      have hstab' : ∀ j, j ≠ r → m'.get j = mC.get j := by
        intro j hj
        rw [← h2]
        exact get_set_reference_target_ne mC signal hj
      have hgst' : m'.get st0 = some
          { ename := .ISignalTriggering,
            itemName := some (make_unique_name m channel ("ST_" ++ signal_name)),
            parent := some trgs, children := [r] } := by
        rw [hstab' st0 (by omega), hgstC]
        rfl
      -- footprint
      have hSch : channel < m.elems.length →
          channel = channel ∨ getSubElement m channel .ISignalTriggerings = some channel :=
        fun _ => Or.inl rfl
      have e0 := ExtP.refl m
        (fun k => k ∈ [EName.ISignalTriggerings, .ISignalTriggering, .ISignalRef])
        (fun k => k ∈ [EName.ISignalTriggerings, .ISignalTriggering])
        (fun i => i = channel ∨ getSubElement m channel .ISignalTriggerings = some i)
      have eA := goc_ext e0 hgoc (by simp) (fun _ => by simp) hSch
      have hStrgs : trgs < m.elems.length →
          trgs = channel ∨ getSubElement m channel .ISignalTriggerings = some trgs := by
        intro hlt
        rcases hcasesA with ⟨hg0, _, _⟩ | ⟨_, hceq, _, _⟩
        · exact Or.inr hg0
        · omega
      have eB := cns_ext eA hcn (by simp) (fun _ => by simp) hStrgs
      have eC0 := cs_ext eB (p := st0) (n := .ISignalRef) (by simp)
        (fun hlt => absurd hlt (by omega)) (fun hlt => absurd hlt (by omega))
      rw [hcs] at eC0
      dsimp only at eC0
      have hext : ExtP m m'
          (fun k => k ∈ [EName.ISignalTriggerings, .ISignalTriggering, .ISignalRef])
          (fun k => k ∈ [EName.ISignalTriggerings, .ISignalTriggering])
          (fun i => i = channel ∨ getSubElement m channel .ISignalTriggerings = some i) := by
        rw [← h2]
        exact ExtP_step_set_reference_target eC0 (by
          rcases harithA with ⟨_, h⟩ | ⟨_, h⟩ <;> omega)
      -- the new triggering has no ports
      have hkr' : elemKind m' r = some EName.ISignalRef := by
        simp [elemKind, hgr']
      have hgs : getSubElement m' st0 .ISignalPortRefs = none := by
        unfold getSubElement
        rw [hgst']
        simp only [Option.some_bind]
        simp [List.find?, hkr']
      have hports : signal_ports m' st0 = [] := by
        unfold signal_ports
        rw [hgs]
      have hgsr : getSubElement m' st0 .ISignalRef = some r := by
        unfold getSubElement
        rw [hgst']
        simp only [Option.some_bind]
        simp [List.find?, hkr']
      have hgrtr : get_reference_target m' r = some signal := by
        unfold get_reference_target
        rw [hgr']
        simp only [Option.some_bind]
        have hsiglt' : signal < m'.elems.length := by
          rcases harithA with ⟨_, h⟩ | ⟨_, h⟩ <;> omega
        obtain ⟨se, hgs2⟩ := Model.get_lt_isSome hsiglt'
        simp [hgs2]
      have hcount : countKind m' .ISignalTriggering =
          countKind m .ISignalTriggering + 1 := by
        have hc1 : countKind mA .ISignalTriggering = countKind m .ISignalTriggering :=
          countKind_goc hgoc (by intro hx; exact EName.noConfusion hx)
        have hc2 : countKind mB .ISignalTriggering =
            countKind mA .ISignalTriggering + 1 := by
          rw [countKind_cns hcn]
          simp
        have hc3 : countKind mC .ISignalTriggering = countKind mB .ISignalTriggering := by
          have hx := congrArg Prod.snd hcs
          dsimp only at hx
          rw [← hx, countKind_cs]
          simp
        rw [← h2, countKind_set_reference_target, hc3, hc2, hc1]
      refine ⟨hwf', hext, by omega, by
        rcases harithA with ⟨_, h⟩ | ⟨_, h⟩ <;> omega, ⟨_, hgst', rfl, rfl⟩, hgs, hports,
        ⟨r, hgsr, hgrtr⟩, hcount, ?_⟩
      -- named parent of the new triggering
      intro hchn
      have htrgs4 : m'.get trgs = some { trgsE with children := trgsE.children ++ [st0] } := by
        rw [hstab' trgs (by omega), hstabC trgs (by omega) (by omega)]
        exact hgtrgsB
      obtain ⟨che', hgch', _, hchnm, _, _, _, _⟩ := hext.2.1 channel _ hgch
      have hst0trgs : trgs < st0 := by omega
      have hchtrgs : channel < trgs := WF.parent_lt hwfA hgtrgsA hpartrgs
      rw [namedParentW_step_unnamed hgst' rfl hst0trgs htrgs4
        (by rw [show ({ trgsE with children := trgsE.children ++ [st0] } : Elem).itemName
              = trgsE.itemName from rfl]
            rw [hnmtrgs]
            rfl)]
      exact namedParentW_step_named htrgs4 (by rw [show ({ trgsE with children :=
          trgsE.children ++ [st0] } : Elem).parent = trgsE.parent from rfl]; exact hpartrgs)
        hchtrgs hgch' (by rw [hchnm]; exact hchn)

/-- Characterization of a successful run of the port-propagation loop: the
footprint is that of the underlying connects, and the triggering's (ECU,
direction) pair set becomes exactly the old set plus the resolvable pairs of
the given ports. -/
theorem propagate_ports_ok {st : Nat} :
    ∀ (ports : List Nat) (m m' : Model) (u : Unit),
      WF m = true → st < m.elems.length →
      (∀ p ∈ ports, p < m.elems.length) →
      propagate_ports m ports st = (.ok u, m') →
      WF m' = true ∧
      ExtP m m' connK connKext (connS m st) ∧
      (∀ x, x ∈ stPairs m' st ↔ (x ∈ stPairs m st ∨
        ∃ p ∈ ports, (port_ecu m p).bind
          (fun e => (port_direction m p).map fun dd => (e, dd)) = some x)) := by
  intro ports
  induction ports with
  | nil =>
    intro m m' u hwf hst hplt hok
    unfold propagate_ports at hok
    injection hok with h1 h2
    subst h2
    exact ⟨hwf, ExtP.refl m _ _ _, fun x => by simp⟩
  | cons p rest ih =>
    intro m m' u hwf hst hplt hok
    obtain ⟨ste, hgst⟩ := Model.get_lt_isSome hst
    unfold propagate_ports at hok
    cases hpe : port_ecu m p with
    | none =>
      cases hpd : port_direction m p with
      | none =>
        rw [hpe, hpd] at hok
        dsimp only at hok
        obtain ⟨hwf', hext, hiff⟩ := ih m m' u hwf hst
          (fun q hq => hplt q (List.mem_cons_of_mem _ hq)) hok
        refine ⟨hwf', hext, fun x => ?_⟩
        rw [hiff x]
        constructor
        · rintro (hx | ⟨q, hq, hbind⟩)
          · exact Or.inl hx
          · exact Or.inr ⟨q, List.mem_cons_of_mem _ hq, hbind⟩
        · rintro (hx | ⟨q, hq, hbind⟩)
          · exact Or.inl hx
          · rcases List.mem_cons.1 hq with rfl | hq'
            · rw [hpe] at hbind
              simp at hbind
            · exact Or.inr ⟨q, hq', hbind⟩
      | some d0 =>
        rw [hpe, hpd] at hok
        dsimp only at hok
        obtain ⟨hwf', hext, hiff⟩ := ih m m' u hwf hst
          (fun q hq => hplt q (List.mem_cons_of_mem _ hq)) hok
        refine ⟨hwf', hext, fun x => ?_⟩
        rw [hiff x]
        constructor
        · rintro (hx | ⟨q, hq, hbind⟩)
          · exact Or.inl hx
          · exact Or.inr ⟨q, List.mem_cons_of_mem _ hq, hbind⟩
        · rintro (hx | ⟨q, hq, hbind⟩)
          · exact Or.inl hx
          · rcases List.mem_cons.1 hq with rfl | hq'
            · rw [hpe] at hbind
              simp at hbind
            · exact Or.inr ⟨q, hq', hbind⟩
    | some e0 =>
      cases hpd : port_direction m p with
      | none =>
        rw [hpe, hpd] at hok
        dsimp only at hok
        obtain ⟨hwf', hext, hiff⟩ := ih m m' u hwf hst
          (fun q hq => hplt q (List.mem_cons_of_mem _ hq)) hok
        refine ⟨hwf', hext, fun x => ?_⟩
        rw [hiff x]
        constructor
        · rintro (hx | ⟨q, hq, hbind⟩)
          · exact Or.inl hx
          · exact Or.inr ⟨q, List.mem_cons_of_mem _ hq, hbind⟩
        · rintro (hx | ⟨q, hq, hbind⟩)
          · exact Or.inl hx
          · rcases List.mem_cons.1 hq with rfl | hq'
            · rw [hpe, hpd] at hbind
              simp at hbind
            · exact Or.inr ⟨q, hq', hbind⟩
      | some d0 =>
        rw [hpe, hpd] at hok
        dsimp only at hok
        rcases hc : ISignalTriggering.connect_to_ecu m st e0 d0 with ⟨res, m1⟩
        rw [hc] at hok
        cases res with
        | error e =>
          simp at hok
        | ok sp =>
          dsimp only at hok
          have hecu : EcuOK m e0 := port_ecu_EcuOK hpe
          obtain ⟨hwf1, hext1, hspmem, hpe1, hpd1, hfind1, hdec1, hpairs1, _⟩ :=
            st_connect_ok hwf hst hecu hc
          have hst1 : st < m1.elems.length := lt_of_lt_of_le hst hext1.1
          have hplt1 : ∀ q ∈ rest, q < m1.elems.length :=
            fun q hq => lt_of_lt_of_le (hplt q (List.mem_cons_of_mem _ hq)) hext1.1
          obtain ⟨hwf', hext2, hiff2⟩ := ih m1 m' u hwf1 hst1 hplt1 hok
          have hext : ExtP m m' connK connKext (connS m st) := by
            apply hext1.comp hext2
            intro i e hi hSi
            rcases hSi with rfl | hki | hsub
            · exact Or.inl rfl
            · obtain ⟨k, hk, hkm⟩ := hki
              rw [hext1.elemKind_stable (Model.get_some_lt hi)] at hk
              exact Or.inr (Or.inl ⟨k, hk, hkm⟩)
            · cases hgs : getSubElement m st .ISignalPortRefs with
              | none =>
                exact absurd (Model.get_some_lt hi)
                  (not_lt.2 (hext1.getSub_new hwf hgst hgs hsub))
              | some j =>
                have hj := hext1.getSub_some hwf hgs
                rw [hsub] at hj
                injection hj with hji
                exact Or.inr (Or.inr (by rw [hji]; exact hgs))
          refine ⟨hwf', hext, fun x => ?_⟩
          rw [hiff2 x]
          constructor
          · rintro (hx1 | ⟨q, hq, hbind⟩)
            · rcases hpairs1 x hx1 with hx0 | rfl
              · exact Or.inl hx0
              · exact Or.inr ⟨p, by simp, by rw [hpe, hpd]; rfl⟩
            · have hqlt : q < m.elems.length := hplt q (List.mem_cons_of_mem _ hq)
              obtain ⟨qe, hgq⟩ := Model.get_lt_isSome hqlt
              rw [hext1.port_ecu_stable hqlt,
                hext1.port_direction_stable hwf hgq (by simp [connKext])] at hbind
              exact Or.inr ⟨q, List.mem_cons_of_mem _ hq, hbind⟩
          · rintro (hx0 | ⟨q, hq, hbind⟩)
            · exact Or.inl (hext1.stPairs_mono hwf (by simp [connKext]) hgst x hx0)
            · rcases List.mem_cons.1 hq with rfl | hq'
              · left
                have hx : (e0, d0) = x := by
                  rw [hpe, hpd] at hbind
                  simpa using hbind
                subst hx
                unfold stPairs
                rw [List.mem_filterMap]
                exact ⟨sp, hspmem, by rw [hpe1, hpd1]; rfl⟩
              · right
                have hqlt : q < m.elems.length := hplt q (List.mem_cons_of_mem _ hq')
                obtain ⟨qe, hgq⟩ := Model.get_lt_isSome hqlt
                refine ⟨q, hq', ?_⟩
                rw [hext1.port_ecu_stable hqlt,
                  hext1.port_direction_stable hwf hgq (by simp [connKext])]
                exact hbind

theorem channelKind_mem_astS_list {k : EName} (h : isChannelKind k = true) :
    k ∈ [EName.CanPhysicalChannel, .EthernetPhysicalChannel, .FlexrayPhysicalChannel,
      .CanCommunicationConnector, .EthernetCommunicationConnector,
      .FlexrayCommunicationConnector, .EcuCommPortInstances] := by
  cases k <;> simp [isChannelKind] at h ⊢

theorem channelKind_mem_chan3_list {k : EName} (h : isChannelKind k = true) :
    k ∈ [EName.CanPhysicalChannel, .EthernetPhysicalChannel, .FlexrayPhysicalChannel] := by
  cases k <;> simp [isChannelKind] at h ⊢

theorem conn4_mem_astS_list : ∀ k : EName,
    k ∈ [EName.CanCommunicationConnector, .EthernetCommunicationConnector,
      .FlexrayCommunicationConnector, .EcuCommPortInstances] →
    k ∈ [EName.CanPhysicalChannel, .EthernetPhysicalChannel, .FlexrayPhysicalChannel,
      .CanCommunicationConnector, .EthernetCommunicationConnector,
      .FlexrayCommunicationConnector, .EcuCommPortInstances] := by
  intro k hk
  simp only [List.mem_cons, List.not_mem_nil, or_false] at hk ⊢
  tauto

theorem astK_inclN : ∀ k, k ∈ [EName.ISignalTriggerings, .ISignalTriggering,
    .ISignalRef] → astK k := by
  intro k hk
  unfold astK
  simp only [List.mem_cons, List.not_mem_nil, or_false] at hk ⊢
  tauto

theorem astKext_inclN : ∀ k, k ∈ [EName.ISignalTriggerings, .ISignalTriggering] →
    astKext k := by
  intro k hk
  unfold astKext
  simp only [List.mem_cons, List.not_mem_nil, or_false] at hk ⊢
  tauto

theorem astK_incl15 : ∀ k, k ∈ [EName.ISignalTriggerings, .ISignalTriggeringRefConditional,
    .ISignalTriggeringRef] → astK k := by
  intro k hk
  unfold astK
  simp only [List.mem_cons, List.not_mem_nil, or_false] at hk ⊢
  tauto

theorem astKext_incl15 : ∀ k, k ∈ [EName.ISignalTriggerings,
    .ISignalTriggeringRefConditional] → astKext k := by
  intro k hk
  unfold astKext
  simp only [List.mem_cons, List.not_mem_nil, or_false] at hk ⊢
  tauto

theorem astK_of_connK : ∀ k, connK k → astK k := fun _ h => Or.inl h

theorem astKext_of_connKext : ∀ k, connKext k → astKext k := fun _ h => Or.inl h

/-- Characterization of a successful `PduTriggering::add_signal_triggering`:
a fresh signal triggering is created on the channel, registered as a child of
the PDU triggering, and connected to exactly the PDU triggering's resolvable
(ECU, direction) pairs. -/
theorem ast_ok {m m' : Model} {pt signal st : Nat}
    (hwf : WF m = true) {pte : Elem} (hgpt : m.get pt = some pte)
    (hptk : pte.ename = .PduTriggering) (hsiglt : signal < m.elems.length)
    (hok : PduTriggering.add_signal_triggering m pt signal = (.ok st, m')) :
    WF m' = true ∧
    ExtP m m' astK astKext (astS m pt) ∧
    m.elems.length ≤ st ∧ st < m'.elems.length ∧
    elemKind m' st = some .ISignalTriggering ∧
    signal_triggerings m' pt = signal_triggerings m pt ++ [st] ∧
    (∃ r, getSubElement m' st .ISignalRef = some r ∧
      get_reference_target m' r = some signal) ∧
    countKind m' .ISignalTriggering = countKind m .ISignalTriggering + 1 ∧
    (∀ x, x ∈ stPairs m' st ↔ x ∈ ptPairs m pt) := by
  have hptlt : pt < m.elems.length := Model.get_some_lt hgpt
  unfold PduTriggering.add_signal_triggering at hok
  cases hch : physical_channel m pt with
  | error e =>
    rw [hch] at hok
    simp at hok
  | ok channel =>
    rw [hch] at hok
    dsimp only at hok
    have hchfacts : namedParentW m pt = some channel ∧
        ∃ che, m.get channel = some che ∧ che.itemName.isSome = true ∧
          isChannelKind che.ename = true := by
      unfold physical_channel at hch
      cases hnp : namedParentW m pt with
      | none =>
        rw [hnp] at hch
        exact absurd hch (by simp)
      | some ch0 =>
        rw [hnp] at hch
        dsimp only at hch
        cases hek : elemKind m ch0 with
        | none =>
          rw [hek] at hch
          exact absurd hch (by simp)
        | some k =>
          rw [hek] at hch
          dsimp only at hch
          by_cases hik : isChannelKind k
          · rw [if_pos hik] at hch
            injection hch with hcc
            subst hcc
            obtain ⟨che, hgch, hke⟩ := elemKind_some_get hek
            obtain ⟨che2, hgch2, hnm2⟩ := namedParentW_named hnp
            rw [hgch] at hgch2
            injection hgch2 with he
            subst he
            exact ⟨rfl, che, hgch, hnm2, by rw [hke]; exact hik⟩
          · rw [if_neg hik] at hch
            exact absurd hch (by simp)
    obtain ⟨hnppt, che, hgch, hchnm, hchk⟩ := hchfacts
    have hchlt : channel < pt := namedParentW_lt hnppt
    rcases hnew : ISignalTriggering.new m signal channel with ⟨res1, m1⟩
    rw [hnew] at hok
    cases res1 with
    | error e =>
      simp at hok
    | ok st0 =>
      dsimp only at hok
      obtain ⟨hwf1, hextN, hstge, hstlt1, ⟨stE, hgst1, hkst, hstnm⟩, hsubnone1,
        hports1, ⟨rsig, hgsr1, hgrtr1⟩, hcount1, hnpfun⟩ := st_new_ok hwf hgch hsiglt hnew
      -- registration of the new triggering under the PDU triggering
      rcases hgoc : get_or_create_sub_element m1 pt .ISignalTriggerings with ⟨trgs, mA2⟩
      rw [hgoc] at hok
      dsimp only at hok
      rcases hcond : create_sub_element mA2 trgs .ISignalTriggeringRefConditional
        with ⟨cond, mB2⟩
      rw [hcond] at hok
      dsimp only at hok
      rcases hrr : create_sub_element mB2 cond .ISignalTriggeringRef with ⟨rr, mC2⟩
      rw [hrr] at hok
      dsimp only at hok
      set m5 := set_reference_target mC2 rr st0 with hm5
      rcases hprop : propagate_ports m5 (pdu_ports m5 pt) st0 with ⟨res2, m6⟩
      rw [hprop] at hok
      cases res2 with
      | error e =>
        simp at hok
      | ok u =>
        dsimp only at hok
        injection hok with h1 h2
        injection h1 with h1
        subst h1
        subst h2
        -- step characterizations
        have hpt1lt : pt < m1.elems.length := lt_of_lt_of_le hptlt hextN.1
        obtain ⟨pte1, hgpt1, hpte1n, _, _, _, _, _⟩ := hextN.2.1 pt _ hgpt
        have hAout := goc_out (n := .ISignalTriggerings) hwf1 hgpt1 rfl hgoc
        obtain ⟨hwfA2, htrgsltA2, hlenA2, ⟨trgsE, hgtrgsA2, hktrgs, hnmtrgs, hpartrgs,
          hchtrgs⟩, hgsubA2, hstabA2, hcasesA2⟩ := hAout
        have harithA2 : trgs < m1.elems.length ∧ mA2.elems.length = m1.elems.length ∨
            trgs = m1.elems.length ∧ mA2.elems.length = m1.elems.length + 1 := by
          rcases hcasesA2 with ⟨_, hmeq, hlt⟩ | ⟨_, hceq, hleq, _⟩
          · exact Or.inl ⟨hlt, by rw [hmeq]⟩
          · exact Or.inr ⟨hceq, hleq⟩
        have hBout := cs_out hwfA2 hgtrgsA2 rfl (n := .ISignalTriggeringRefConditional)
        rw [hcond] at hBout
        dsimp only at hBout
        obtain ⟨hwfB2, hcond1, hlenB2, hgcondB2, hstabB2, hgtrgsB2⟩ := hBout
        rw [← hcond1] at hgcondB2 hgtrgsB2
        have hCout := cs_out hwfB2 hgcondB2 rfl (n := .ISignalTriggeringRef)
        rw [hrr] at hCout
        dsimp only at hCout
        obtain ⟨hwfC2, hrr1, hlenC2, hgrrC2, hstabC2, hgcondC2⟩ := hCout
        rw [← hrr1] at hgrrC2 hgcondC2
        have hwf5 : WF m5 = true := by
          rw [hm5]
          exact WF_set_reference_target hwfC2 (by
            rcases harithA2 with ⟨_, h⟩ | ⟨_, h⟩ <;> omega)
        have hlen5 : m5.elems.length = mC2.elems.length := by
          rw [hm5]; exact len_set_reference_target mC2 rr st0
        have hgrr5 : m5.get rr = some
            { ename := .ISignalTriggeringRef, parent := some cond,
              target := some st0 } := by
          rw [hm5]
          rw [get_set_reference_target_self mC2 st0 hgrrC2]
        have hstab5 : ∀ j, j ≠ rr → m5.get j = mC2.get j := by
          intro j hj
          rw [hm5]
          exact get_set_reference_target_ne mC2 st0 hj
        have hgcond5 : m5.get cond = some
            { ename := .ISignalTriggeringRefConditional, parent := some trgs,
              children := [rr] } := by
          rw [hstab5 cond (by omega), hgcondC2]
          rfl
        have hgtrgs5 : m5.get trgs = some
            { trgsE with children := trgsE.children ++ [cond] } := by
          rw [hstab5 trgs (by omega), hstabC2 trgs (by omega) (by omega)]
          exact hgtrgsB2
        have hstne : ∀ j, j < m1.elems.length → j ≠ pt → j ≠ trgs →
            m5.get j = m1.get j := by
          intro j hj hjpt hjtrgs
          rw [hstab5 j (by omega), hstabC2 j (by omega) (by omega),
            hstabB2 j (by omega) hjtrgs, hstabA2 j hj hjpt]
        have hst0_ne_pt : st0 ≠ pt := by omega
        have hst0_ne_trgs : st0 ≠ trgs := by
          rcases harithA2 with ⟨hlt, _⟩ | ⟨hceq, _⟩
          · intro he
            rcases hcasesA2 with ⟨hg0, _, _⟩ | ⟨_, _, _, _⟩
            · have := getSub_kind hg0
              rw [← he, elemKind, hgst1] at this
              simp only [Option.map_some', Option.some.injEq] at this
              exact EName.noConfusion (hkst.symm.trans this)
            · omega
          · omega
        have hgst5 : m5.get st0 = some stE := by
          rw [hstne st0 hstlt1 hst0_ne_pt hst0_ne_trgs]
          exact hgst1
        -- footprint m1 → m5
        have f0 := ExtP.refl m1
          (fun k => k ∈ [EName.ISignalTriggerings, .ISignalTriggeringRefConditional,
            .ISignalTriggeringRef])
          (fun k => k ∈ [EName.ISignalTriggerings, .ISignalTriggeringRefConditional])
          (fun i => i = pt ∨ getSubElement m1 pt .ISignalTriggerings = some i)
        have fA := goc_ext f0 hgoc (by simp) (fun _ => by simp) (fun _ => Or.inl rfl)
        have hStrgs : trgs < m1.elems.length →
            trgs = pt ∨ getSubElement m1 pt .ISignalTriggerings = some trgs := by
          intro hlt
          rcases hcasesA2 with ⟨hg0, _, _⟩ | ⟨_, hceq, _, _⟩
          · exact Or.inr hg0
          · omega
        have fB := cs_ext fA (p := trgs) (n := .ISignalTriggeringRefConditional)
          (by simp) (fun _ => by simp) hStrgs
        rw [hcond] at fB
        dsimp only at fB
        have fC := cs_ext fB (p := cond) (n := .ISignalTriggeringRef) (by simp)
          (fun hlt => absurd hlt (by omega)) (fun hlt => absurd hlt (by omega))
        rw [hrr] at fC
        dsimp only at fC
        have hext15 : ExtP m1 m5
            (fun k => k ∈ [EName.ISignalTriggerings, .ISignalTriggeringRefConditional,
              .ISignalTriggeringRef])
            (fun k => k ∈ [EName.ISignalTriggerings, .ISignalTriggeringRefConditional])
            (fun i => i = pt ∨ getSubElement m1 pt .ISignalTriggerings = some i) := by
          rw [hm5]
          exact ExtP_step_set_reference_target fC (by
            rcases harithA2 with ⟨_, h⟩ | ⟨_, h⟩ <;> omega)
        -- invariants of the new triggering at m5
        have hst5lt : st0 < m5.elems.length := by
          rcases harithA2 with ⟨_, h⟩ | ⟨_, h⟩ <;> omega
        have hsub5none : getSubElement m5 st0 .ISignalPortRefs = none :=
          ExtP.getSub_none hext15 hwf1 hgst1 hsubnone1 (by simp)
        have hpairs5 : stPairs m5 st0 = [] := by
          unfold stPairs signal_ports
          rw [hsub5none]
          rfl
        -- the propagation loop
        obtain ⟨hwf6, hextP, hiffP⟩ := propagate_ports_ok (pdu_ports m5 pt) m5 m6 u
          hwf5 hst5lt (fun p hp => by
            obtain ⟨pe, hg, _⟩ := mem_pdu_ports_get hp
            exact Model.get_some_lt hg) hprop
        -- composed footprint m → m5
        have hSNpt : ¬ (pt = channel ∨
            getSubElement m channel .ISignalTriggerings = some pt) := by
          rintro (he | hsub)
          · omega
          · have hk := getSub_kind hsub
            rw [elemKind, hgpt] at hk
            simp only [Option.map_some', Option.some.injEq] at hk
            rw [hptk] at hk
            exact EName.noConfusion hk
        have hgsubpt1 : getSubElement m1 pt .ISignalTriggerings =
            getSubElement m pt .ISignalTriggerings :=
          ExtP.getSub_not_S hextN hwf hgpt hSNpt .ISignalTriggerings
        have ext_mN : ExtP m m1 astK astKext (astS m pt) :=
          hextN.mono astK_inclN astKext_inclN (fun i hi => by
          rcases hi with rfl | hsub
          · refine Or.inr (Or.inl ⟨che.ename, by simp [elemKind, hgch], ?_⟩)
            exact channelKind_mem_astS_list hchk
          · exact Or.inr (Or.inr (Or.inr ⟨channel, hnppt,
              ⟨che.ename, by simp [elemKind, hgch], channelKind_mem_chan3_list hchk⟩,
              hsub⟩)))
        have ext_15' := hext15.mono astK_incl15 astKext_incl15 (fun i hi => hi)
        have ext_m5 : ExtP m m5 astK astKext (astS m pt) := by
          apply ext_mN.comp ext_15'
          intro i e hi hSi
          rcases hSi with rfl | hsub
          · exact Or.inl rfl
          · rw [hgsubpt1] at hsub
            exact Or.inr (Or.inr (Or.inl hsub))
        have ext_P' := hextP.mono astK_of_connK astKext_of_connKext
          (fun i hi => hi)
        have hextFull : ExtP m m6 astK astKext (astS m pt) := by
          apply ext_m5.comp ext_P'
          intro i e hi hSi
          rcases hSi with rfl | ⟨k, hk, hkm⟩ | hsub
          · exact absurd (Model.get_some_lt hi) (by omega)
          · rw [ext_m5.elemKind_stable (Model.get_some_lt hi)] at hk
            refine Or.inr (Or.inl ⟨k, hk, conn4_mem_astS_list k hkm⟩)
          · rw [hsub5none] at hsub
            exact Option.noConfusion hsub
        -- kind of the new triggering in the final state
        obtain ⟨stE', hgst', hstn', _, _, _, _, _⟩ := hextP.2.1 st0 _ hgst5
        have hkst' : elemKind m6 st0 = some EName.ISignalTriggering := by
          simp [elemKind, hgst', hstn', hkst]
        -- the registered triggering list
        have hextA2 : ExtP mA2 m5
            (fun k => k ∈ [EName.ISignalTriggeringRefConditional, .ISignalTriggeringRef])
            (fun k => k ∈ [EName.ISignalTriggeringRefConditional])
            (fun i => kindIn mA2 i [.ISignalTriggerings]) := by
          have g0 := ExtP.refl mA2
            (fun k => k ∈ [EName.ISignalTriggeringRefConditional, .ISignalTriggeringRef])
            (fun k => k ∈ [EName.ISignalTriggeringRefConditional])
            (fun i => kindIn mA2 i [.ISignalTriggerings])
          have g1 := cs_ext g0 (p := trgs) (n := .ISignalTriggeringRefConditional)
            (by simp) (fun _ => by simp)
            (fun _ => ⟨.ISignalTriggerings, by simp [elemKind, hgtrgsA2, hktrgs], by simp⟩)
          rw [hcond] at g1
          dsimp only at g1
          have g2 := cs_ext g1 (p := cond) (n := .ISignalTriggeringRef) (by simp)
            (fun hlt => absurd hlt (by omega)) (fun hlt => absurd hlt (by omega))
          rw [hrr] at g2
          dsimp only at g2
          rw [hm5]
          exact ExtP_step_set_reference_target g2 (by omega)
        have hgsub5 : getSubElement m5 pt .ISignalTriggerings = some trgs :=
          hextA2.getSub_some hwfA2 hgsubA2
        have hcl5 : childList m5 trgs = trgsE.children ++ [cond] := by
          simp [childList, hgtrgs5]
        have hcondfun : ((getSubElement m5 cond .ISignalTriggeringRef).bind fun r =>
            (get_reference_target m5 r).bind fun t =>
            if decide (elemKind m5 t = some .ISignalTriggering) then some t else none)
            = some st0 := by
          have hgs : getSubElement m5 cond .ISignalTriggeringRef = some rr := by
            unfold getSubElement
            rw [hgcond5]
            simp only [Option.some_bind]
            simp [List.find?, elemKind, hgrr5]
          rw [hgs]
          simp only [Option.some_bind]
          have hgrt : get_reference_target m5 rr = some st0 := by
            unfold get_reference_target
            rw [hgrr5]
            simp [hgst5]
          rw [hgrt]
          simp [elemKind, hgst5, hkst]
        have htrig5 : signal_triggerings m5 pt = signal_triggerings m1 pt ++ [st0] := by
          unfold signal_triggerings
          rw [hgsub5]
          dsimp only
          rw [hcl5, List.filterMap_append]
          rcases hcasesA2 with ⟨hg0, hmeq, _⟩ | ⟨hg0, hceq, _, _⟩
          · -- the collection already existed
            rw [hg0]
            dsimp only
            have hclm1 : childList m1 trgs = trgsE.children := by
              rw [← hmeq]
              simp [childList, hgtrgsA2]
            rw [← hclm1]
            congr 1
            · apply List.filterMap_congr
              intro c hc
              obtain ⟨ce, hgc, _⟩ := WF.child_parent hwf1 (by rw [hmeq] at hgtrgsA2; exact hgtrgsA2) (by
                unfold childList at hc
                rw [← hmeq] at hc
                rw [hgtrgsA2] at hc
                simpa using hc)
              exact ExtP.stCondFun_congr hext15 hwf1 hgc (by simp)
            · simp only [List.filterMap_cons, List.filterMap_nil]
              rw [hcondfun]
          · -- the collection is fresh and the pre-state has no triggerings
            rw [hg0]
            dsimp only
            have hch0 : trgsE.children = [] := by
              rw [hchtrgs]
              have hgn : m1.get trgs = none := by
                rw [Model.get]
                exact List.getElem?_eq_none_iff.2 (by omega)
              simp [childList, hgn]
            rw [hch0]
            simp only [List.nil_append, List.filterMap_cons, List.filterMap_nil]
            rw [hcondfun]
        have htrig1 : signal_triggerings m1 pt = signal_triggerings m pt :=
          ExtP.signal_triggerings_eq hextN hwf hgpt hSNpt
            (by simp)
            (fun grp hgrp => by
              obtain ⟨e0, hg0, hmem0⟩ := getSub_mem hgrp
              obtain ⟨ce0, hgc0, hpar0⟩ := WF.child_parent hwf hg0 hmem0
              have hptgrp : pt < grp := WF.parent_lt hwf hgc0 hpar0
              rintro (he | hsub)
              · omega
              · obtain ⟨e1, hg1, hmem1⟩ := getSub_mem hsub
                obtain ⟨ce1, hgc1, hpar1⟩ := WF.child_parent hwf hg1 hmem1
                rw [hgc0] at hgc1
                injection hgc1 with hec
                rw [← hec] at hpar1
                rw [hpar0] at hpar1
                injection hpar1 with hpc
                omega)
        have htrig6 : signal_triggerings m6 pt = signal_triggerings m5 pt := by
          have hptk5 : elemKind m5 pt = some EName.PduTriggering := by
            rw [ext_m5.elemKind_stable hptlt]
            simp [elemKind, hgpt, hptk]
          obtain ⟨pte5, hgpt5⟩ := Model.get_lt_isSome
            (lt_of_lt_of_le hptlt ext_m5.1)
          have hptk5' : pte5.ename = EName.PduTriggering := by
            rw [elemKind, hgpt5] at hptk5
            simpa using hptk5
          apply ExtP.signal_triggerings_eq hextP hwf5 hgpt5
          · rintro (rfl | ⟨k, hk, hkm⟩ | hsub)
            · omega
            · rw [elemKind, hgpt5] at hk
              simp only [Option.map_some', Option.some.injEq] at hk
              rw [hptk5'] at hk
              rw [← hk] at hkm
              simp at hkm
            · rw [hsub5none] at hsub
              exact Option.noConfusion hsub
          · simp [connKext]
          · intro grp hgrp
            rintro (he | ⟨k, hk, hkm⟩ | hsub)
            · have hk0 := getSub_kind hgrp
              rw [he, elemKind, hgst5] at hk0
              simp only [Option.map_some', Option.some.injEq] at hk0
              rw [hkst] at hk0
              exact EName.noConfusion hk0
            · have := getSub_kind hgrp
              rw [this] at hk
              injection hk with hk
              rw [← hk] at hkm
              simp at hkm
            · rw [hsub5none] at hsub
              exact Option.noConfusion hsub
        -- pairs of the new triggering: exactly the PDU triggering's pairs
        have hptpairs : ptPairs m5 pt = ptPairs m pt := by
          apply ExtP.ptPairs_eq ext_m5 hwf hgpt
          · simp [astKext, connKext]
          · simp [astKext, connKext]
          · intro rr' hrr'
            have hkrr := getSub_kind hrr'
            obtain ⟨e0, hg0, hmem0⟩ := getSub_mem hrr'
            obtain ⟨ce, hgc, hpar⟩ := WF.child_parent hwf hg0 hmem0
            have hltrr := WF.parent_lt hwf hgc hpar
            rintro (he | ⟨k, hk, hkm⟩ | hsub | ⟨ch, hnp2, hchk2, hsub2⟩)
            · omega
            · rw [hkrr] at hk
              injection hk with hk
              rw [← hk] at hkm
              simp at hkm
            · have hk2 := getSub_kind hsub
              rw [hkrr] at hk2
              simp at hk2
            · have hk2 := getSub_kind hsub2
              rw [hkrr] at hk2
              simp at hk2
        have hsr5 : getSubElement m5 st0 .ISignalRef = some rsig :=
          ExtP.getSub_some hext15 hwf1 hgsr1
        have hsr6 : getSubElement m6 st0 .ISignalRef = some rsig :=
          ExtP.getSub_some hextP hwf5 hsr5
        have hrt6 : get_reference_target m6 rsig = some signal :=
          ExtP.grt_some hextP (ExtP.grt_some hext15 hgrtr1)
        have hcountA2 : countKind mA2 .ISignalTriggering =
            countKind m1 .ISignalTriggering :=
          countKind_goc hgoc (by intro hx; exact EName.noConfusion hx)
        have hcountB2 : countKind mB2 .ISignalTriggering =
            countKind mA2 .ISignalTriggering := by
          have hx := congrArg Prod.snd hcond
          dsimp only at hx
          rw [← hx, countKind_cs]
          simp
        have hcountC2 : countKind mC2 .ISignalTriggering =
            countKind mB2 .ISignalTriggering := by
          have hx := congrArg Prod.snd hrr
          dsimp only at hx
          rw [← hx, countKind_cs]
          simp
        have hcount6 : countKind m6 .ISignalTriggering =
            countKind m .ISignalTriggering + 1 := by
          rw [hextP.countKind_stable (by simp [connK]), hm5,
            countKind_set_reference_target, hcountC2, hcountB2, hcountA2, hcount1]
        refine ⟨hwf6, hextFull, by omega, by
          have := hextP.1
          omega, hkst', by rw [htrig6, htrig5, htrig1], ⟨rsig, hsr6, hrt6⟩,
          hcount6, fun x => ?_⟩
        rw [hiffP x, hpairs5]
        simp only [List.not_mem_nil, false_or]
        rw [← hptpairs]
        unfold ptPairs
        rw [List.mem_filterMap]

/-- Variant of `signal_triggerings_eq` that excludes fresh triggerings
collections by kind instead of by footprint. -/
theorem ExtP.signal_triggerings_eq2 {m m' : Model} {K Kext S} (h : ExtP m m' K Kext S)
    (hwf : WF m = true) {pt : Nat} {pte : Elem} (hgpt : m.get pt = some pte)
    (hKe1 : ¬ Kext EName.ISignalTriggerings) (hKe2 : ¬ Kext EName.ISignalTriggeringRef)
    (hS : ∀ grp, getSubElement m pt .ISignalTriggerings = some grp → ¬ S grp) :
    signal_triggerings m' pt = signal_triggerings m pt := by
  unfold signal_triggerings
  cases hrs : getSubElement m pt .ISignalTriggerings with
  | none =>
    rw [ExtP.getSub_none h hwf hgpt hrs hKe1]
  | some grp =>
    rw [ExtP.getSub_some h hwf hrs]
    dsimp only
    obtain ⟨grpE, hggrp, _⟩ := elemKind_some_get (getSub_kind hrs)
    obtain ⟨grpE', hggrp', _, _, _, _, _, extra, hch, hne, _⟩ := h.2.1 grp grpE hggrp
    have hx : extra = [] := by
      rcases hne with hx | hs
      · exact hx
      · exact absurd hs (hS grp hrs)
    have hcl : childList m' grp = childList m grp := by
      simp [childList, hggrp, hggrp', hch, hx]
    rw [hcl]
    apply List.filterMap_congr
    intro c hc
    obtain ⟨ce, hgc, _⟩ := WF.child_parent hwf hggrp (by
      unfold childList at hc
      rw [hggrp] at hc
      simpa using hc)
    exact ExtP.stCondFun_congr h hwf hgc hKe2

theorem clS_mem_ptConnS_list : ∀ k : EName,
    k ∈ [EName.ISignalTriggering, .CanCommunicationConnector,
      .EthernetCommunicationConnector, .FlexrayCommunicationConnector,
      .EcuCommPortInstances, .ISignalPortRefs] →
    k ∈ [EName.CanCommunicationConnector, .EthernetCommunicationConnector,
      .FlexrayCommunicationConnector, .EcuCommPortInstances, .ISignalTriggering,
      .ISignalPortRefs] := by
  intro k hk
  simp only [List.mem_cons, List.not_mem_nil, or_false] at hk ⊢
  tauto

theorem connectorKind_mem_ptConnS_list {k : EName} (h : isConnectorKind k = true) :
    k ∈ [EName.CanCommunicationConnector, .EthernetCommunicationConnector,
      .FlexrayCommunicationConnector, .EcuCommPortInstances, .ISignalTriggering,
      .ISignalPortRefs] := by
  cases k <;> simp [isConnectorKind] at h ⊢

theorem ptConnK_incl : ∀ k, k ∈ [EName.EcuCommPortInstances, EName.IPduPort,
    .CommunicationDirection] → ptConnK k := by
  intro k hk
  unfold ptConnK connK
  simp only [List.mem_cons, List.not_mem_nil, or_false] at hk ⊢
  tauto

theorem ptConnKext_incl : ∀ k, k ∈ [EName.EcuCommPortInstances, EName.IPduPort] →
    ptConnKext k := by
  intro k hk
  unfold ptConnKext connKext
  simp only [List.mem_cons, List.not_mem_nil, or_false] at hk ⊢
  tauto

theorem ptConnK_of_connK : ∀ k, connK k → ptConnK k := fun _ h => Or.inl h

theorem ptConnKext_of_connKext : ∀ k, connKext k → ptConnKext k := fun _ h => Or.inl h

/-- Characterization of a successful run of the propagation loop at the end
of `PduTriggering::connect_to_ecu`: each listed signal triggering ends up
with a port pair for the requested ECU and direction. -/
theorem connect_loop_ok : ∀ (sts : List Nat) (m m' : Model) (u : Unit) (ecu : Nat)
    (d : CommunicationDirection), WF m = true → EcuOK m ecu →
    (∀ s ∈ sts, elemKind m s = some .ISignalTriggering) →
    PduTriggering.connect_loop m sts ecu d = (.ok u, m') →
    WF m' = true ∧ ExtP m m' connK connKext (clS m) ∧
    (∀ s ∈ sts, (ecu, d) ∈ stPairs m' s) := by
  intro sts
  induction sts with
  | nil =>
    intro m m' u ecu d hwf hecu hk hok
    unfold PduTriggering.connect_loop at hok
    injection hok with h1 h2
    subst h2
    exact ⟨hwf, ExtP.refl m _ _ _, by simp⟩
  | cons st rest ih =>
    intro m m' u ecu d hwf hecu hk hok
    unfold PduTriggering.connect_loop at hok
    rcases hc : ISignalTriggering.connect_to_ecu m st ecu d with ⟨res1, m1⟩
    rw [hc] at hok
    cases res1 with
    | error e => simp at hok
    | ok sp =>
      dsimp only at hok
      have hstk := hk st (by simp)
      have hstlt : st < m.elems.length := by
        obtain ⟨e, hg, _⟩ := elemKind_some_get hstk
        exact Model.get_some_lt hg
      obtain ⟨hwf1, hext1, hspmem, hpe1, hpd1, hfind1, hqmem, hpairs1, hfresh1⟩ :=
        st_connect_ok hwf hstlt hecu hc
      have hpairst : (ecu, d) ∈ stPairs m1 st := by
        unfold stPairs
        rw [List.mem_filterMap]
        exact ⟨sp, hspmem, by rw [hpe1, hpd1]; rfl⟩
      have hext1' : ExtP m m1 connK connKext (clS m) :=
        hext1.mono (fun _ h => h) (fun _ h => h) (fun i hi => by
          rcases hi with rfl | ⟨k2, hk2, hkm2⟩ | hsub
          · exact ⟨.ISignalTriggering, hstk, by simp⟩
          · exact ⟨k2, hk2, by
              simp only [List.mem_cons, List.not_mem_nil, or_false] at hkm2 ⊢
              tauto⟩
          · exact ⟨.ISignalPortRefs, getSub_kind hsub, by simp⟩)
      obtain ⟨hwf', hext2, hrest⟩ := ih m1 m' u ecu d hwf1 (hext1.EcuOK_stable hecu)
        (fun s hs => by
          have hklt : s < m.elems.length := by
            obtain ⟨e, hg, _⟩ := elemKind_some_get (hk s (List.mem_cons_of_mem st hs))
            exact Model.get_some_lt hg
          rw [hext1.elemKind_stable hklt]
          exact hk s (List.mem_cons_of_mem st hs)) hok
      refine ⟨hwf', ?_, ?_⟩
      · apply hext1'.comp hext2
        intro i e hi hSi
        obtain ⟨k2, hk2, hkm2⟩ := hSi
        rw [hext1.elemKind_stable (Model.get_some_lt hi)] at hk2
        exact ⟨k2, hk2, hkm2⟩
      · intro s hs
        rcases List.mem_cons.1 hs with rfl | hs2
        · obtain ⟨ste1, hgst1⟩ := Model.get_lt_isSome (lt_of_lt_of_le hstlt hext1.1)
          exact hext2.stPairs_mono hwf1 (by simp [connKext]) hgst1 _ hpairst
        · exact hrest s hs2

/-- Characterization of a successful `PduTriggering::connect_to_ecu` call:
footprint, the returned port's fields, the re-scan finding exactly that port,
growth of the port and pair sets by at most the returned port, stability of
the triggering list, and — when a port was actually created — the propagation
of the pair to every child signal triggering. -/
theorem pt_connect_ok {m m' : Model} {pt ecu pp : Nat} {d : CommunicationDirection}
    (hwf : WF m = true) (hptlt : pt < m.elems.length) (hecu : EcuOK m ecu)
    (hok : PduTriggering.connect_to_ecu m pt ecu d = (.ok pp, m')) :
    WF m' = true ∧
    ExtP m m' ptConnK ptConnKext (ptConnS m pt) ∧
    pp ∈ pdu_ports m' pt ∧
    port_ecu m' pp = some ecu ∧
    port_direction m' pp = some d ∧
    findPort m' (pdu_ports m' pt) ecu d = some pp ∧
    (∀ q ∈ pdu_ports m' pt, q ∈ pdu_ports m pt ∨ q = pp) ∧
    (∀ x ∈ ptPairs m' pt, x ∈ ptPairs m pt ∨ x = (ecu, d)) ∧
    signal_triggerings m' pt = signal_triggerings m pt ∧
    (findPort m (pdu_ports m pt) ecu d = none →
      ∀ s ∈ signal_triggerings m' pt, (ecu, d) ∈ stPairs m' s) ∧
    (findPort m (pdu_ports m pt) ecu d = none → m.elems.length ≤ pp) := by
  unfold PduTriggering.connect_to_ecu at hok
  cases hfp : findPort m (pdu_ports m pt) ecu d with
  | some p =>
    rw [hfp] at hok
    dsimp only at hok
    injection hok with h1 h2
    injection h1 with h1
    subst h1
    subst h2
    obtain ⟨hmem, hpe, hpd⟩ := findPort_some_facts hfp
    refine ⟨hwf, ExtP.refl m _ _ _, hmem, hpe, hpd, hfp, fun q hq => Or.inl hq,
      fun x hx => Or.inl hx, rfl, fun hnone => ?_, fun hnone => ?_⟩ <;>
      exact Option.noConfusion hnone
  | none =>
    rw [hfp] at hok
    dsimp only at hok
    cases hch : physical_channel m pt with
    | error e =>
      rw [hch] at hok
      simp at hok
    | ok channel =>
      rw [hch] at hok
      dsimp only at hok
      cases hconn : get_ecu_connector m channel ecu with
      | none =>
        rw [hconn] at hok
        simp at hok
      | some connector =>
        rw [hconn] at hok
        dsimp only at hok
        cases hnm : elemName m pt with
        | none =>
          rw [hnm] at hok
          simp at hok
        | some name =>
          rw [hnm] at hok
          dsimp only at hok
          rcases hcpi : get_or_create_sub_element m connector .EcuCommPortInstances
            with ⟨cpi, mA⟩
          rw [hcpi] at hok
          dsimp only at hok
          cases hcn : create_named_sub_element mA cpi .IPduPort
              (name ++ "_" ++ dirSuffix d) with
          | error e =>
            rw [hcn] at hok
            simp at hok
          | ok spM =>
            rcases spM with ⟨sp0, mB⟩
            rw [hcn] at hok
            dsimp only at hok
            rcases hcd : create_sub_element mB sp0 .CommunicationDirection with ⟨cd, mC⟩
            rw [hcd] at hok
            dsimp only at hok
            set m4 := set_character_data mC cd (CData.enum (dirToEnum d)) with hm4
            rcases hrefs : get_or_create_sub_element m4 pt .IPduPortRefs with ⟨refs, mD⟩
            rw [hrefs] at hok
            dsimp only at hok
            rcases hr : create_sub_element mD refs .IPduPortRef with ⟨r, mE⟩
            rw [hr] at hok
            dsimp only at hok
            set m7 := set_reference_target mE r sp0 with hm7
            rcases hloop : PduTriggering.connect_loop m7 (signal_triggerings m7 pt)
              ecu d with ⟨res2, m8⟩
            rw [hloop] at hok
            cases res2 with
            | error e =>
              simp at hok
            | ok u =>
              dsimp only at hok
              injection hok with h1 h2
              injection h1 with h1
              subst h1
              subst h2
              -- facts about the pre-state
              obtain ⟨pte, hgpt⟩ := Model.get_lt_isSome hptlt
              obtain ⟨conns, connE, hgsubconn, hconnmemCL, hgconn, hkconn⟩ :=
                get_ecu_connector_facts hconn
              obtain ⟨ecuE0, hgecu0, hconnsmem⟩ := getSub_mem hgsubconn
              have hkconns := getSub_kind hgsubconn
              obtain ⟨connsE, hgconns, hconnspar⟩ := WF.child_parent hwf hgecu0 hconnsmem
              have hconnmem : connector ∈ connsE.children := by
                unfold childList at hconnmemCL
                rw [hgconns] at hconnmemCL
                simpa using hconnmemCL
              obtain ⟨connE', hgconn', hconnpar⟩ := WF.child_parent hwf hgconns hconnmem
              rw [hgconn] at hgconn'
              injection hgconn' with hconnE'
              subst hconnE'
              have hconnskind : connsE.ename = EName.Connectors := by
                unfold elemKind at hkconns
                rw [hgconns] at hkconns
                simpa using hkconns
              have hconnsunnamed : connsE.itemName.isSome = false := by
                have hni := WF.named_iff hwf hgconns
                rw [hconnskind] at hni
                exact hni.trans rfl
              have hconnnamed : connE.itemName.isSome = true := by
                have hni := WF.named_iff hwf hgconn
                rw [isConnectorKind_named hkconn] at hni
                exact hni
              obtain ⟨ecuE, hgecu, hecuk, hecunamed⟩ := hecu
              rw [hgecu0] at hgecu
              injection hgecu with hecuE
              subst hecuE
              have hconnlt : connector < m.elems.length := Model.get_some_lt hgconn
              have hconnslt : conns < connector := WF.parent_lt hwf hgconn hconnpar
              have hecult : ecu < conns := WF.parent_lt hwf hgconns hconnspar
              -- step A: get_or_create EcuCommPortInstances under the connector
              have hAout := goc_out (n := .EcuCommPortInstances) hwf hgconn rfl hcpi
              obtain ⟨hwfA, hcpiltA, hlenA, ⟨cpiE, hgcpiA, hkcpi, hnmcpi, hparcpi, hchcpi⟩,
                hgsubA, hstabA, hcasesA⟩ := hAout
              have harithA : cpi < m.elems.length ∧ mA.elems.length = m.elems.length ∨
                  cpi = m.elems.length ∧ mA.elems.length = m.elems.length + 1 := by
                rcases hcasesA with ⟨_, hmeq, hlt⟩ | ⟨_, hceq, hleq, _⟩
                · exact Or.inl ⟨hlt, by rw [hmeq]⟩
                · exact Or.inr ⟨hceq, hleq⟩
              have hA2 : mA.elems.length ≤ m.elems.length + 1 := by
                rcases harithA with ⟨_, h⟩ | ⟨_, h⟩ <;> omega
              -- step B: create the named IPduPort
              have hBout := cns_out (n := .IPduPort) hwfA hgcpiA rfl hcn
              obtain ⟨hwfB, hsp0, hlenB, hgspB, hstabB, hgcpiB⟩ := hBout
              -- step C: create the CommunicationDirection child of the port
              have hCout := cs_out hwfB hgspB rfl (n := .CommunicationDirection)
              rw [hcd] at hCout
              dsimp only at hCout
              obtain ⟨hwfC, hcd1, hlenC, hgcdC, hstabC, hgspC⟩ := hCout
              rw [← hcd1] at hgcdC hgspC
              -- step 4: write the direction enum
              have hwf4 : WF m4 = true := by
                rw [hm4]; exact WF_set_character_data hwfC
              have hlen4 : m4.elems.length = mC.elems.length := by
                rw [hm4]; exact len_set_character_data mC cd _
              have hgcd4 : m4.get cd = some
                  { ename := .CommunicationDirection,
                    parent := some sp0, cdata := some (.enum (dirToEnum d)) } := by
                rw [hm4]
                rw [get_set_character_data_self mC _ hgcdC]
              have hstab4 : ∀ j, j ≠ cd → m4.get j = mC.get j := by
                intro j hj
                rw [hm4]
                exact get_set_character_data_ne mC _ hj
              -- step D: get_or_create IPduPortRefs under the PDU triggering
              have hptlt4 : pt < m4.elems.length := by
                rcases harithA with ⟨_, h⟩ | ⟨_, h⟩ <;> omega
              obtain ⟨pt4, hgpt4⟩ := Model.get_lt_isSome hptlt4
              have hDout := goc_out (n := .IPduPortRefs) hwf4 hgpt4 rfl hrefs
              obtain ⟨hwfD, hrefsltD, hlenD, ⟨refsE, hgrefsD, hkrefs, hnmrefs, hparrefs,
                hchrefs⟩, hgsubD, hstabD, hcasesD⟩ := hDout
              have harithD : refs < m4.elems.length ∧ mD.elems.length = m4.elems.length ∨
                  refs = m4.elems.length ∧ mD.elems.length = m4.elems.length + 1 := by
                rcases hcasesD with ⟨_, hmeq, hlt⟩ | ⟨_, hceq, hleq, _⟩
                · exact Or.inl ⟨hlt, by rw [hmeq]⟩
                · exact Or.inr ⟨hceq, hleq⟩
              have hD2 : mD.elems.length ≤ m4.elems.length + 1 := by
                rcases harithD with ⟨_, h⟩ | ⟨_, h⟩ <;> omega
              -- step E: create the IPduPortRef
              have hEout := cs_out hwfD hgrefsD rfl (n := .IPduPortRef)
              rw [hr] at hEout
              dsimp only at hEout
              obtain ⟨hwfE, hr1, hlenE, hgrE, hstabE, hgrefsE⟩ := hEout
              rw [← hr1] at hgrE hgrefsE
              -- state m7: the reference written
              have hwf7 : WF m7 = true := by
                rw [hm7]
                exact WF_set_reference_target hwfE (by omega)
              have hlen7 : m7.elems.length = mE.elems.length := by
                rw [hm7]; exact len_set_reference_target mE r sp0
              have hgr' : m7.get r = some
                  { ename := .IPduPortRef, parent := some refs,
                    target := some sp0 } := by
                rw [hm7]
                rw [get_set_reference_target_self mE sp0 hgrE]
              have hstab' : ∀ j, j ≠ r → m7.get j = mE.get j := by
                intro j hj
                rw [hm7]
                exact get_set_reference_target_ne mE sp0 hj
              -- mutation footprint m → m4 with a tight kind budget
              have e0 : ExtP m m (fun k => k ∈ [EName.EcuCommPortInstances, .IPduPort,
                  .CommunicationDirection]) (fun k => k ∈ [EName.EcuCommPortInstances,
                  .IPduPort]) (ptConnS m pt) := ExtP.refl m _ _ _
              have hSconn : connector < m.elems.length → ptConnS m pt connector :=
                fun _ => Or.inr (Or.inl ⟨connE.ename, by simp [elemKind, hgconn],
                  connectorKind_mem_ptConnS_list hkconn⟩)
              have eA := goc_ext e0 hcpi (by simp) (fun _ => by simp) hSconn
              have hScpi : cpi < m.elems.length → ptConnS m pt cpi := by
                intro hlt
                rcases hcasesA with ⟨hg0, _, _⟩ | ⟨_, hceq, _, _⟩
                · exact Or.inr (Or.inl ⟨.EcuCommPortInstances, getSub_kind hg0, by simp⟩)
                · omega
              have eB := cns_ext eA hcn (by simp) (fun _ => by simp) hScpi
              have eC0 := cs_ext eB (p := sp0) (n := .CommunicationDirection) (by simp)
                (fun hlt => absurd hlt (by omega)) (fun hlt => absurd hlt (by omega))
              rw [hcd] at eC0
              dsimp only at eC0
              have e4t : ExtP m m4 (fun k => k ∈ [EName.EcuCommPortInstances, .IPduPort,
                  .CommunicationDirection]) (fun k => k ∈ [EName.EcuCommPortInstances,
                  .IPduPort]) (ptConnS m pt) := by
                rw [hm4]
                exact ExtP_step_set_character_data eC0 (show m.elems.length ≤ cd by omega)
              -- the new port and its direction child in m4
              have hgsp4 : m4.get sp0 = some
                  { ename := .IPduPort,
                    itemName := some (name ++ "_" ++ dirSuffix d), parent := some cpi,
                    children := [cd] } := by
                rw [hstab4 sp0 (by omega)]
                rw [hgspC]
                rfl
              have hgcpi4 : m4.get cpi = some
                  { cpiE with children := cpiE.children ++ [sp0] } := by
                rw [hstab4 cpi (by omega), hstabC cpi (by omega) (by omega)]
                exact hgcpiB
              -- widen to the footprint of the whole operation
              have e4 := e4t.mono ptConnK_incl ptConnKext_incl (fun i h => h)
              have eD := goc_ext e4 hrefs (by simp [ptConnK, connK])
                (fun _ => by simp [ptConnKext, connKext]) (fun _ => Or.inl rfl)
              have hSrefs : refs < m.elems.length → ptConnS m pt refs := by
                intro hlt
                rcases hcasesD with ⟨hg0, hmeq, hreflt4⟩ | ⟨_, hceq, _, _⟩
                · -- the collection already existed: it is the pre-state collection
                  have hkrefs4 : elemKind m4 refs = some EName.IPduPortRefs := by
                    rw [← hmeq]
                    simp [elemKind, hgrefsD, hkrefs]
                  have hrefs_ne_cpi : refs ≠ cpi := by
                    intro he
                    rw [he, elemKind, hgcpi4] at hkrefs4
                    simp only [Option.map_some', Option.some.injEq] at hkrefs4
                    exact EName.noConfusion (hkcpi.symm.trans hkrefs4)
                  have hrefs_ne_conn : refs ≠ connector := by
                    intro he
                    have hx : elemKind m connector = some EName.IPduPortRefs := by
                      rw [← e4t.elemKind_stable hconnlt, ← he]
                      exact hkrefs4
                    rw [elemKind, hgconn] at hx
                    simp only [Option.map_some', Option.some.injEq] at hx
                    rw [hx] at hkconn
                    simp [isConnectorKind] at hkconn
                  have hgrefsm : m.get refs = some refsE := by
                    have hstep4 : m4.get refs = some refsE := by
                      rw [← hmeq]; exact hgrefsD
                    rw [hstab4 refs (by omega), hstabC refs (by omega) (by omega),
                      hstabB refs (by omega) hrefs_ne_cpi,
                      hstabA refs (by omega) hrefs_ne_conn] at hstep4
                    exact hstep4
                  have hgsubm : getSubElement m pt .IPduPortRefs = some refs := by
                    cases hgs : getSubElement m pt .IPduPortRefs with
                    | none =>
                      exfalso
                      have hn4 := ExtP.getSub_none e4t hwf hgpt hgs (by simp)
                      rw [hg0] at hn4
                      exact Option.noConfusion hn4
                    | some x =>
                      have hs4 := ExtP.getSub_some e4t hwf hgs
                      rw [hg0] at hs4
                      injection hs4 with hx
                      rw [hx]
                  exact Or.inr (Or.inr hgsubm)
                · rcases harithA with ⟨_, h⟩ | ⟨_, h⟩ <;> omega
              have eE0 := cs_ext eD (p := refs) (n := .IPduPortRef)
                (by simp [ptConnK, connK]) (fun _ => by simp [ptConnKext, connKext])
                hSrefs
              rw [hr] at eE0
              dsimp only at eE0
              have hext : ExtP m m7 ptConnK ptConnKext (ptConnS m pt) := by
                rw [hm7]
                exact ExtP_step_set_reference_target eE0 (show m.elems.length ≤ r by
                  rcases harithD with ⟨_, h⟩ | ⟨_, h⟩ <;> omega)
              -- mutation footprint m4 → m7 (used for the fresh elements' fields)
              have f0 : ExtP m4 m4 (fun k => k ∈ [EName.IPduPortRefs, .IPduPortRef])
                  (fun k => k ∈ [EName.IPduPortRefs, .IPduPortRef])
                  (fun i => i = pt ∨ kindIn m4 i [.IPduPortRefs]) := ExtP.refl m4 _ _ _
              have f1 := goc_ext f0 hrefs (by simp) (fun _ => by simp)
                (fun _ => Or.inl rfl)
              have hS4refs : refs < m4.elems.length →
                  refs = pt ∨ kindIn m4 refs [.IPduPortRefs] := by
                intro hlt
                rcases hcasesD with ⟨hg0, _, _⟩ | ⟨_, hceq, _, _⟩
                · exact Or.inr ⟨.IPduPortRefs, getSub_kind hg0, by simp⟩
                · omega
              have f2 := cs_ext f1 (p := refs) (n := .IPduPortRef) (by simp)
                (fun _ => by simp) hS4refs
              rw [hr] at f2
              dsimp only at f2
              have hext4 : ExtP m4 m7 (fun k => k ∈ [EName.IPduPortRefs, .IPduPortRef])
                  (fun k => k ∈ [EName.IPduPortRefs, .IPduPortRef])
                  (fun i => i = pt ∨ kindIn m4 i [.IPduPortRefs]) := by
                rw [hm7]
                exact ExtP_step_set_reference_target f2 (by omega)
              -- element views in the state m7
              obtain ⟨spE', hgsp', hspn, hspnm, hsppar, hspcd, hsptg, extraSp, hspch,
                hspchor, _⟩ := hext4.2.1 sp0 _ hgsp4
              have hextraSp : extraSp = [] := by
                rcases hspchor with h | h
                · exact h
                · rcases h with h | ⟨k, hk, hkm⟩
                  · omega
                  · rw [elemKind, hgsp4] at hk
                    simp only [Option.map_some', Option.some.injEq] at hk
                    subst hk
                    simp at hkm
              have hspch' : spE'.children = [cd] := by
                simp [hspch, hextraSp]
              obtain ⟨cdE', hgcd', hcdn, hcdnm, hcdpar, hcdcd, _, extraCd, hcdch,
                hcdchor, _⟩ := hext4.2.1 cd _ hgcd4
              have hkcd' : elemKind m7 cd = some EName.CommunicationDirection := by
                simp [elemKind, hgcd', hcdn]
              have hgsubsp' : getSubElement m7 sp0 .CommunicationDirection = some cd := by
                unfold getSubElement
                rw [hgsp']
                simp only [Option.some_bind]
                rw [hspch']
                simp only [List.find?_singleton]
                rw [if_pos (by simp [hkcd'])]
              have hpd' : port_direction m7 sp0 = some d := by
                unfold port_direction
                rw [hgsubsp']
                simp only [Option.some_bind]
                rw [hgcd']
                simp only [Option.some_bind]
                rw [hcdcd]
                simp [cdataEnum, dirFromEnum_toEnum]
              obtain ⟨cpiE', hgcpi', hcpin, hcpinm, hcpipar, _, _, _⟩ :=
                hext4.2.1 cpi _ hgcpi4
              obtain ⟨connE2, hgconn2, hconn2n, hconn2nm, hconn2par, _, _, _⟩ :=
                hext.2.1 connector _ hgconn
              have hcpinm' : cpiE'.itemName = none := by
                rw [hcpinm]
                exact hnmcpi
              have hcpipar' : cpiE'.parent = some connector := by
                rw [hcpipar]
                exact hparcpi
              have hcpilt_sp : cpi < sp0 := by omega
              have hconnlt_cpi : connector < cpi := WF.parent_lt hwfA hgcpiA hparcpi
              have hnpsp : namedParentW m7 sp0 = namedParentW m7 cpi :=
                namedParentW_step_unnamed hgsp' (hsppar.trans rfl) hcpilt_sp hgcpi'
                  (by rw [hcpinm']; rfl)
              have hconn2nm' : connE2.itemName.isSome = true := by
                rw [hconn2nm]
                exact hconnnamed
              have hnpcpi : namedParentW m7 cpi = some connector :=
                namedParentW_step_named hgcpi' hcpipar' hconnlt_cpi hgconn2 hconn2nm'
              have hnpconn : namedParentW m connector = some ecu := by
                rw [namedParentW_step_unnamed hgconn hconnpar hconnslt hgconns
                  hconnsunnamed]
                exact namedParentW_step_named hgconns hconnspar hecult hgecu0 hecunamed
              have hke' : elemKind m7 ecu = some EName.EcuInstance := by
                rw [hext.elemKind_stable (Model.get_some_lt hgecu0)]
                simp [elemKind, hgecu0, hecuk]
              have hpe' : port_ecu m7 sp0 = some ecu := by
                unfold port_ecu
                rw [hnpsp, hnpcpi]
                simp only [Option.some_bind]
                rw [hext.namedParent_stable connector hconnlt, hnpconn]
                simp only [Option.some_bind]
                rw [if_pos (by simp [hke'])]
              have hgrtr' : get_reference_target m7 r = some sp0 := by
                unfold get_reference_target
                rw [hgr']
                simp [hgsp']
              have hksp' : elemKind m7 sp0 = some EName.IPduPort := by
                simp [elemKind, hgsp', hspn]
              -- the PDU triggering's reference collection in the state m7
              have g0 : ExtP mD mD (fun k => k ∈ [EName.IPduPortRef])
                  (fun k => k ∈ [EName.IPduPortRef])
                  (fun i => kindIn mD i [.IPduPortRefs]) := ExtP.refl mD _ _ _
              have g1 := cs_ext g0 (p := refs) (n := .IPduPortRef) (by simp)
                (fun _ => by simp)
                (fun _ => ⟨.IPduPortRefs, by simp [elemKind, hgrefsD, hkrefs], by simp⟩)
              rw [hr] at g1
              dsimp only at g1
              have hextD : ExtP mD m7 (fun k => k ∈ [EName.IPduPortRef])
                  (fun k => k ∈ [EName.IPduPortRef])
                  (fun i => kindIn mD i [.IPduPortRefs]) := by
                rw [hm7]
                exact ExtP_step_set_reference_target g1 hr1.ge
              have hgsubst' : getSubElement m7 pt .IPduPortRefs = some refs :=
                hextD.getSub_some hwfD hgsubD
              have hgrefs' : m7.get refs = some
                  { refsE with children := refsE.children ++ [r] } := by
                rw [hstab' refs (by omega)]
                exact hgrefsE
              have hclrefs' : childList m7 refs = refsE.children ++ [r] := by
                simp [childList, hgrefs']
              -- membership of the new port
              have hspmem : sp0 ∈ pdu_ports m7 pt := by
                unfold pdu_ports
                rw [hgsubst']
                rw [List.mem_filterMap]
                refine ⟨r, ?_, ?_⟩
                · rw [hclrefs']
                  exact List.mem_append_right _ (by simp)
                · rw [hgrtr']
                  simp [hksp']
              -- the only fresh element with the IPduPort kind is the new port
              have hfresh : ∀ j (ce : Elem), m.elems.length ≤ j → m7.get j = some ce →
                  ce.ename = EName.IPduPort → j = sp0 := by
                intro j ce hjL hgj hkj
                have hjlt : j < m7.elems.length := Model.get_some_lt hgj
                have hjcase : j = cpi ∨ j = sp0 ∨ j = cd ∨ j = refs ∨ j = r := by
                  rcases harithA with ⟨h1', h2'⟩ | ⟨h1', h2'⟩ <;>
                    rcases harithD with ⟨h3', h4'⟩ | ⟨h3', h4'⟩ <;> omega
                rcases hjcase with rfl | rfl | rfl | rfl | rfl
                · rw [hgcpi'] at hgj
                  injection hgj with he
                  subst he
                  rw [hcpin] at hkj
                  exact EName.noConfusion (hkcpi.symm.trans hkj)
                · rfl
                · rw [hgcd'] at hgj
                  injection hgj with he
                  subst he
                  rw [hcdn] at hkj
                  exact EName.noConfusion hkj
                · rw [hgrefs'] at hgj
                  injection hgj with he
                  subst he
                  exact EName.noConfusion (hkrefs.symm.trans hkj)
                · rw [hgr'] at hgj
                  injection hgj with he
                  subst he
                  exact EName.noConfusion hkj
              -- decomposition of the port list at m7
              have hdecomp : ∀ q ∈ pdu_ports m7 pt, q ∈ pdu_ports m pt ∨ q = sp0 := by
                intro q hq
                unfold pdu_ports at hq
                rw [hgsubst'] at hq
                rw [List.mem_filterMap] at hq
                obtain ⟨rc, hrcmem, hrcq⟩ := hq
                rw [hclrefs'] at hrcmem
                rcases List.mem_append.1 hrcmem with hrcold | hrcr
                · rcases hcasesD with ⟨hg0, hmeq, hreflt4⟩ | ⟨hnone0, hceq, _, _⟩
                  · have hkrefs4 : elemKind m4 refs = some EName.IPduPortRefs := by
                      rw [← hmeq]
                      simp [elemKind, hgrefsD, hkrefs]
                    have hrefs_ne_cpi : refs ≠ cpi := by
                      intro he
                      rw [he, elemKind, hgcpi4] at hkrefs4
                      simp only [Option.map_some', Option.some.injEq] at hkrefs4
                      exact EName.noConfusion (hkcpi.symm.trans hkrefs4)
                    have hrefs_ne_conn : refs ≠ connector := by
                      intro he
                      have hx : elemKind m connector = some EName.IPduPortRefs := by
                        rw [← e4.elemKind_stable hconnlt, ← he]
                        exact hkrefs4
                      rw [elemKind, hgconn] at hx
                      simp only [Option.map_some', Option.some.injEq] at hx
                      rw [hx] at hkconn
                      simp [isConnectorKind] at hkconn
                    have hrefsltL : refs < m.elems.length := by
                      by_contra hge
                      push_neg at hge
                      have hjcase : refs = cpi ∨ refs = sp0 ∨ refs = cd := by
                        rcases harithA with ⟨h1', h2'⟩ | ⟨h1', h2'⟩ <;> omega
                      rcases hjcase with he | he | he
                      · exact hrefs_ne_cpi he
                      · rw [he, elemKind, hgsp4] at hkrefs4
                        simp at hkrefs4
                      · rw [he, elemKind, hgcd4] at hkrefs4
                        simp at hkrefs4
                    have hgrefsm : m.get refs = some refsE := by
                      have hstep4 : m4.get refs = some refsE := by
                        rw [← hmeq]; exact hgrefsD
                      rw [hstab4 refs (by omega), hstabC refs (by omega) (by omega),
                        hstabB refs (by omega) hrefs_ne_cpi,
                        hstabA refs (by omega) hrefs_ne_conn] at hstep4
                      exact hstep4
                    have hclm : childList m refs = refsE.children := by
                      simp [childList, hgrefsm]
                    have hgsubm : getSubElement m pt .IPduPortRefs = some refs := by
                      cases hgs : getSubElement m pt .IPduPortRefs with
                      | none =>
                        exfalso
                        have hn4 := ExtP.getSub_none e4t hwf hgpt hgs (by simp)
                        rw [hg0] at hn4
                        exact Option.noConfusion hn4
                      | some x =>
                        have hs4 := ExtP.getSub_some e4t hwf hgs
                        rw [hg0] at hs4
                        injection hs4 with hx
                        rw [hx]
                    obtain ⟨rce, hgrc, _⟩ := WF.child_parent hwf hgrefsm hrcold
                    have hrcltL : rc < m.elems.length := Model.get_some_lt hgrc
                    cases hgt : get_reference_target m7 rc with
                    | none =>
                      rw [hgt] at hrcq
                      simp at hrcq
                    | some t =>
                      rw [hgt] at hrcq
                      simp only [Option.some_bind] at hrcq
                      have hkt : elemKind m7 t = some EName.IPduPort ∧ t = q := by
                        by_cases hk : elemKind m7 t = some EName.IPduPort
                        · rw [if_pos (by simpa using hk)] at hrcq
                          exact ⟨hk, by simpa using hrcq⟩
                        · rw [if_neg (by simpa using hk)] at hrcq
                          exact absurd hrcq (by simp)
                      rcases hkt with ⟨hktk, rfl⟩
                      rcases hext.grt_old (r := rc) hrcltL with hsame |
                        ⟨t', ce', hgt', htL, hgce', hKce⟩
                      · left
                        have hgtm : get_reference_target m rc = some t :=
                          hsame.symm.trans hgt
                        have htltL : t < m.elems.length := grt_some_lt hgtm
                        have hktm : elemKind m t = some EName.IPduPort := by
                          rw [← hext.elemKind_stable htltL]
                          exact hktk
                        unfold pdu_ports
                        rw [hgsubm]
                        rw [List.mem_filterMap]
                        refine ⟨rc, by rw [hclm]; exact hrcold, ?_⟩
                        rw [hgtm]
                        simp [hktm]
                      · right
                        rw [hgt] at hgt'
                        injection hgt' with htt
                        subst htt
                        have hcek : ce'.ename = EName.IPduPort := by
                          rw [elemKind, hgce'] at hktk
                          simpa using hktk
                        exact hfresh t ce' htL hgce' hcek
                  · exfalso
                    have hgn : m4.get refs = none := by
                      rw [Model.get]
                      exact List.getElem?_eq_none_iff.2 (by omega)
                    rw [hchrefs] at hrcold
                    simp [childList, hgn] at hrcold
                · right
                  have hrc : rc = r := by simpa using hrcr
                  subst hrc
                  rw [hgrtr'] at hrcq
                  simp [hksp'] at hrcq
                  omega
              -- the re-scan at m7 finds exactly the new port
              have hfind' : findPort m7 (pdu_ports m7 pt) ecu d = some sp0 := by
                unfold findPort
                apply find?_unique_mem hspmem
                · exact (findPort_pred sp0).mpr ⟨hpe', hpd'⟩
                · intro q hq hpq
                  obtain ⟨hqe, hqd⟩ := (findPort_pred q).mp hpq
                  rcases hdecomp q hq with hqm | rfl
                  · exfalso
                    obtain ⟨qe, hgq, _⟩ := mem_pdu_ports_get hqm
                    have hqlt : q < m.elems.length := Model.get_some_lt hgq
                    have hq1 : port_ecu m q = some ecu := by
                      rw [← hext.port_ecu_stable hqlt]
                      exact hqe
                    have hq2 : port_direction m q = some d := by
                      rw [← hext.port_direction_stable hwf hgq
                        (by simp [ptConnKext, connKext])]
                      exact hqd
                    exact findPort_none_facts hfp q hqm ⟨hq1, hq2⟩
                  · rfl
              -- pair-set decomposition at m7
              have hpairs : ∀ x ∈ ptPairs m7 pt, x ∈ ptPairs m pt ∨ x = (ecu, d) := by
                intro x hx
                unfold ptPairs at hx
                rw [List.mem_filterMap] at hx
                obtain ⟨q, hq, hqx⟩ := hx
                rcases hdecomp q hq with hqm | rfl
                · left
                  obtain ⟨qe, hgq, _⟩ := mem_pdu_ports_get hqm
                  have hqlt : q < m.elems.length := Model.get_some_lt hgq
                  rw [hext.port_ecu_stable hqlt,
                    hext.port_direction_stable hwf hgq
                      (by simp [ptConnKext, connKext])] at hqx
                  unfold ptPairs
                  rw [List.mem_filterMap]
                  exact ⟨q, hqm, hqx⟩
                · right
                  rw [hpe', hpd'] at hqx
                  simp only [Option.some_bind, Option.map_some'] at hqx
                  injection hqx with hh
                  exact hh.symm
              -- the trailing propagation loop over the child triggerings
              obtain ⟨pte7, hgpt7⟩ := Model.get_lt_isSome (lt_of_lt_of_le hptlt hext.1)
              obtain ⟨hwf8, hextL, hstpairs⟩ := connect_loop_ok _ m7 m8 u ecu d hwf7
                (hext.EcuOK_stable ⟨ecuE0, hgecu0, hecuk, hecunamed⟩)
                (fun s hs => mem_signal_triggerings_kind hs) hloop
              have hSrr7 : ∀ rr, getSubElement m7 pt .IPduPortRefs = some rr →
                  ¬ clS m7 rr := by
                intro rr hrr
                rintro ⟨k2, hk2, hkm2⟩
                rw [getSub_kind hrr] at hk2
                injection hk2 with hk2
                rw [← hk2] at hkm2
                simp at hkm2
              have hSgrp7 : ∀ grp, getSubElement m7 pt .ISignalTriggerings = some grp →
                  ¬ clS m7 grp := by
                intro grp hgrp
                rintro ⟨k2, hk2, hkm2⟩
                rw [getSub_kind hgrp] at hk2
                injection hk2 with hk2
                rw [← hk2] at hkm2
                simp at hkm2
              have hports_eq : pdu_ports m8 pt = pdu_ports m7 pt :=
                hextL.pdu_ports_eq hwf7 hgpt7 (by simp [connKext]) hSrr7
              have htrigs_eqL : signal_triggerings m8 pt = signal_triggerings m7 pt :=
                ExtP.signal_triggerings_eq2 hextL hwf7 hgpt7 (by simp [connKext])
                  (by simp [connKext]) hSgrp7
              have hppmem8 : sp0 ∈ pdu_ports m8 pt := by
                rw [hports_eq]
                exact hspmem
              have hpp7lt : sp0 < m7.elems.length := Model.get_some_lt hgsp'
              have hpe8 : port_ecu m8 sp0 = some ecu := by
                rw [hextL.port_ecu_stable hpp7lt]
                exact hpe'
              have hpd8 : port_direction m8 sp0 = some d := by
                rw [hextL.port_direction_stable hwf7 hgsp' (by simp [connKext])]
                exact hpd'
              have hfp_congr : findPort m8 (pdu_ports m7 pt) ecu d =
                  findPort m7 (pdu_ports m7 pt) ecu d :=
                findPort_congr (fun p hp => by
                  obtain ⟨pe0, hgp0, _⟩ := mem_pdu_ports_get hp
                  exact ⟨hextL.port_ecu_stable (Model.get_some_lt hgp0),
                    hextL.port_direction_stable hwf7 hgp0 (by simp [connKext])⟩)
              have hfind8 : findPort m8 (pdu_ports m8 pt) ecu d = some sp0 := by
                rw [hports_eq, hfp_congr]
                exact hfind'
              have hdecomp8 : ∀ q ∈ pdu_ports m8 pt, q ∈ pdu_ports m pt ∨ q = sp0 := by
                rw [hports_eq]
                exact hdecomp
              have hptpairs_eqL : ptPairs m8 pt = ptPairs m7 pt :=
                hextL.ptPairs_eq hwf7 hgpt7 (by simp [connKext]) (by simp [connKext])
                  hSrr7
              have hpairs8 : ∀ x ∈ ptPairs m8 pt, x ∈ ptPairs m pt ∨ x = (ecu, d) := by
                rw [hptpairs_eqL]
                exact hpairs
              have hSgrp_m : ∀ grp, getSubElement m pt .ISignalTriggerings = some grp →
                  ¬ ptConnS m pt grp := by
                intro grp hgrp
                have hkgrp := getSub_kind hgrp
                obtain ⟨e0, hg0, hmem0⟩ := getSub_mem hgrp
                obtain ⟨ce, hgc, hpar⟩ := WF.child_parent hwf hg0 hmem0
                have hltg := WF.parent_lt hwf hgc hpar
                rintro (he | ⟨k2, hk2, hkm2⟩ | hsub)
                · omega
                · rw [hkgrp] at hk2
                  injection hk2 with hk2
                  rw [← hk2] at hkm2
                  simp at hkm2
                · have hx := getSub_kind hsub
                  rw [hkgrp] at hx
                  exact EName.noConfusion (Option.some.inj hx)
              have htrigs7 : signal_triggerings m7 pt = signal_triggerings m pt :=
                ExtP.signal_triggerings_eq2 hext hwf hgpt
                  (by simp [ptConnKext, connKext]) (by simp [ptConnKext, connKext])
                  hSgrp_m
              have htrigs_full : signal_triggerings m8 pt = signal_triggerings m pt :=
                htrigs_eqL.trans htrigs7
              have hstpairs8 : ∀ s ∈ signal_triggerings m8 pt,
                  (ecu, d) ∈ stPairs m8 s := by
                intro s hs
                rw [htrigs_eqL] at hs
                exact hstpairs s hs
              have hextL' := hextL.mono ptConnK_of_connK ptConnKext_of_connKext
                (fun i hi => hi)
              have hextFull : ExtP m m8 ptConnK ptConnKext (ptConnS m pt) := by
                apply hext.comp hextL'
                intro i e hi hSi
                obtain ⟨k2, hk2, hkm2⟩ := hSi
                rw [hext.elemKind_stable (Model.get_some_lt hi)] at hk2
                exact Or.inr (Or.inl ⟨k2, hk2, clS_mem_ptConnS_list k2 hkm2⟩)
              exact ⟨hwf8, hextFull, hppmem8, hpe8, hpd8, hfind8, hdecomp8, hpairs8,
                htrigs_full, fun _ => hstpairs8, fun _ => by omega⟩

theorem mapping_signal_some_facts {m : Model} {mp s : Nat}
    (h : mapping_signal m mp = some s) :
    s < m.elems.length ∧ elemKind m s = some .ISignal := by
  unfold mapping_signal at h
  cases hgs : getSubElement m mp .ISignalRef with
  | none => rw [hgs] at h; simp at h
  | some r =>
    rw [hgs] at h
    simp only [Option.some_bind] at h
    cases hgt : get_reference_target m r with
    | none => rw [hgt] at h; simp at h
    | some t =>
      rw [hgt] at h
      simp only [Option.some_bind] at h
      by_cases hk : elemKind m t = some .ISignal
      · rw [if_pos (by simpa using hk)] at h
        injection h with h
        subst h
        exact ⟨grt_some_lt hgt, hk⟩
      · rw [if_neg (by simpa using hk)] at h
        exact Option.noConfusion h

/-- Characterization of a successful run of the back-fill loop of
`PduTriggering::new`: one fresh signal triggering, referencing the mapped
signal, is registered under the PDU triggering for every mapping whose
signal reference resolves. -/
theorem backfill_ok : ∀ (maps : List Nat) (m m' : Model) (u : Unit) (pt : Nat),
    WF m = true → elemKind m pt = some .PduTriggering →
    (∀ mp ∈ maps, elemKind m mp = some .ISignalToIPduMapping) →
    backfill m maps pt = (.ok u, m') →
    WF m' = true ∧
    ExtP m m' astK astKext (astS m pt) ∧
    countKind m' .ISignalTriggering = countKind m .ISignalTriggering +
      maps.countP (fun mp => (mapping_signal m mp).isSome) ∧
    (∀ x ∈ signal_triggerings m pt, x ∈ signal_triggerings m' pt) ∧
    (∀ mp ∈ maps, ∀ s, mapping_signal m mp = some s →
      ∃ st ∈ signal_triggerings m' pt, m.elems.length ≤ st ∧
        ∃ r, getSubElement m' st .ISignalRef = some r ∧
          get_reference_target m' r = some s) := by
  intro maps
  induction maps with
  | nil =>
    intro m m' u pt hwf hkpt hkmaps hok
    unfold backfill at hok
    injection hok with h1 h2
    subst h2
    exact ⟨hwf, ExtP.refl m _ _ _, by simp, fun x hx => hx, by simp⟩
  | cons mp rest ih =>
    intro m m' u pt hwf hkpt hkmaps hok
    unfold backfill at hok
    cases hms : mapping_signal m mp with
    | none =>
      rw [hms] at hok
      obtain ⟨hwf', hext, hcount, hmono, hmaps⟩ := ih m m' u pt hwf hkpt
        (fun q hq => hkmaps q (List.mem_cons_of_mem mp hq)) hok
      refine ⟨hwf', hext, ?_, hmono, ?_⟩
      · rw [hcount, List.countP_cons, hms]
        simp
      · intro q hq s hsq
        rcases List.mem_cons.1 hq with rfl | hq2
        · rw [hms] at hsq
          exact Option.noConfusion hsq
        · exact hmaps q hq2 s hsq
    | some s0 =>
      rw [hms] at hok
      dsimp only at hok
      rcases hast : PduTriggering.add_signal_triggering m pt s0 with ⟨res1, m1⟩
      rw [hast] at hok
      cases res1 with
      | error e => simp at hok
      | ok st =>
        dsimp only at hok
        obtain ⟨pte, hgpt, hptk⟩ := elemKind_some_get hkpt
        have hptlt : pt < m.elems.length := Model.get_some_lt hgpt
        have hs0lt : s0 < m.elems.length := (mapping_signal_some_facts hms).1
        obtain ⟨hwf1, hext1, hstge, hstlt1, hkst1, htrig1, ⟨rr, hgsrr, hgrtrr⟩,
          hcount1, hpairs1⟩ := ast_ok hwf hgpt hptk hs0lt hast
        have hkpt1 : elemKind m1 pt = some .PduTriggering := by
          rw [hext1.elemKind_stable hptlt]
          exact hkpt
        have hkmaps1 : ∀ q ∈ rest, elemKind m1 q = some .ISignalToIPduMapping := by
          intro q hq
          have hkq := hkmaps q (List.mem_cons_of_mem mp hq)
          have hqlt : q < m.elems.length := by
            obtain ⟨e, hg, _⟩ := elemKind_some_get hkq
            exact Model.get_some_lt hg
          rw [hext1.elemKind_stable hqlt]
          exact hkq
        obtain ⟨hwf', hext2, hcount2, hmono2, hmaps2⟩ := ih m1 m' u pt hwf1 hkpt1
          hkmaps1 hok
        have hmsstable : ∀ q ∈ rest, mapping_signal m1 q = mapping_signal m q := by
          intro q hq
          have hkq := hkmaps q (List.mem_cons_of_mem mp hq)
          obtain ⟨qe, hgq, hqk⟩ := elemKind_some_get hkq
          have hqne : q ≠ pt := by
            intro he
            rw [he] at hkq
            rw [hkpt] at hkq
            exact EName.noConfusion (Option.some.inj hkq)
          exact hext1.mapping_signal_stable hwf hgq
            (not_astS_of_kind hkq hqne (by simp)
              (by intro hx; exact EName.noConfusion hx))
        have hextFull : ExtP m m' astK astKext (astS m pt) := by
          apply hext1.comp hext2
          intro i e hi hSi
          rcases hSi with he | ⟨k2, hk2, hkm2⟩ | hsub | ⟨ch, hnp, hchk, hsub⟩
          · exact Or.inl he
          · rw [hext1.elemKind_stable (Model.get_some_lt hi)] at hk2
            exact Or.inr (Or.inl ⟨k2, hk2, hkm2⟩)
          · exact Or.inr (Or.inr (Or.inl
              (hext1.getSub_old hwf hgpt hsub (Model.get_some_lt hi))))
          · rw [hext1.namedParent_stable pt hptlt] at hnp
            have hchlt : ch < m.elems.length := lt_trans (namedParentW_lt hnp) hptlt
            obtain ⟨che, hgch⟩ := Model.get_lt_isSome hchlt
            obtain ⟨k3, hk3, hkm3⟩ := hchk
            rw [hext1.elemKind_stable hchlt] at hk3
            exact Or.inr (Or.inr (Or.inr ⟨ch, hnp, ⟨k3, hk3, hkm3⟩,
              hext1.getSub_old hwf hgch hsub (Model.get_some_lt hi)⟩))
        have hmono : ∀ x ∈ signal_triggerings m pt, x ∈ signal_triggerings m' pt := by
          intro x hx
          apply hmono2
          rw [htrig1]
          exact List.mem_append_left _ hx
        refine ⟨hwf', hextFull, ?_, hmono, ?_⟩
        · have hstab : rest.countP (fun q => (mapping_signal m1 q).isSome) =
              rest.countP (fun q => (mapping_signal m q).isSome) :=
            List.countP_congr (fun q hq => by rw [hmsstable q hq])
          rw [hcount2, hstab, hcount1, List.countP_cons, hms]
          simp only [Option.isSome_some, if_true]
          omega
        · intro q hq s hsq
          rcases List.mem_cons.1 hq with rfl | hq2
          · rw [hms] at hsq
            injection hsq with hsq
            subst hsq
            refine ⟨st, ?_, hstge, ?_⟩
            · apply hmono2
              rw [htrig1]
              exact List.mem_append_right _ (by simp)
            · exact ⟨rr, hext2.getSub_some hwf1 hgsrr, hext2.grt_some hgrtrr⟩
          · rw [← hmsstable q hq2] at hsq
            obtain ⟨st2, hst2mem, hst2ge, hrest⟩ := hmaps2 q hq2 s hsq
            exact ⟨st2, hst2mem, le_trans hext1.1 hst2ge, hrest⟩

/-- Characterization of a successful run of the fan-out loop of
`ISignalIPdu::map_signal`: one fresh signal triggering per listed PDU
triggering, appended to that triggering's list, whose pair set equals the
PDU triggering's pair set at call time. -/
theorem msl_ok : ∀ (pts : List Nat) (m m' : Model) (u : Unit) (signal : Nat),
    WF m = true →
    (∀ pt ∈ pts, elemKind m pt = some .PduTriggering) →
    pts.Nodup →
    signal < m.elems.length →
    ISignalIPdu.mapSignalLoop m pts signal = (.ok u, m') →
    WF m' = true ∧
    ExtP m m' astK astKext (mslS m pts) ∧
    countKind m' .ISignalTriggering = countKind m .ISignalTriggering + pts.length ∧
    ∃ sts : List Nat, sts.length = pts.length ∧
      ∀ j, j < pts.length →
        m.elems.length ≤ sts.getD j 0 ∧
        elemKind m' (sts.getD j 0) = some .ISignalTriggering ∧
        signal_triggerings m' (pts.getD j 0) =
          signal_triggerings m (pts.getD j 0) ++ [sts.getD j 0] ∧
        (∀ x, x ∈ stPairs m' (sts.getD j 0) ↔ x ∈ ptPairs m (pts.getD j 0)) := by
  intro pts
  induction pts with
  | nil =>
    intro m m' u signal hwf hkpts hnd hsiglt hok
    unfold ISignalIPdu.mapSignalLoop at hok
    injection hok with h1 h2
    subst h2
    exact ⟨hwf, ExtP.refl m _ _ _, by simp, [], rfl, fun j hj => absurd hj (by simp)⟩
  | cons pt rest ih =>
    intro m m' u signal hwf hkpts hnd hsiglt hok
    obtain ⟨hptnmem, hndr⟩ := List.nodup_cons.1 hnd
    unfold ISignalIPdu.mapSignalLoop at hok
    rcases hast : PduTriggering.add_signal_triggering m pt signal with ⟨res1, m1⟩
    rw [hast] at hok
    cases res1 with
    | error e => simp at hok
    | ok st =>
      dsimp only at hok
      rcases hprop : propagate_ports m1 (pdu_ports m1 pt) st with ⟨res2, m2⟩
      rw [hprop] at hok
      cases res2 with
      | error e => simp at hok
      | ok v =>
        dsimp only at hok
        have hkptm := hkpts pt (by simp)
        obtain ⟨pte, hgpt, hptk⟩ := elemKind_some_get hkptm
        have hptlt : pt < m.elems.length := Model.get_some_lt hgpt
        obtain ⟨hwf1, hext1, hstge, hstlt1, hkst1, htrig1, hsigref1, hcount1,
          hpairs1⟩ := ast_ok hwf hgpt hptk hsiglt hast
        obtain ⟨hwf2, hextP, hiffP⟩ := propagate_ports_ok (pdu_ports m1 pt) m1 m2 v
          hwf1 hstlt1 (fun p hp => by
            obtain ⟨pe, hg, _⟩ := mem_pdu_ports_get hp
            exact Model.get_some_lt hg) hprop
        -- the PDU triggering's pairs are untouched by the step
        have hptpairs1 : ptPairs m1 pt = ptPairs m pt :=
          hext1.ptPairs_eq hwf hgpt (by simp [astKext, connKext])
            (by simp [astKext, connKext]) (fun rr hrr =>
              not_astS_of_kind (getSub_kind hrr)
                (fun he => by
                  have hx := getSub_kind hrr
                  rw [he, hkptm] at hx
                  exact EName.noConfusion (Option.some.inj hx))
                (by simp) (fun hx => EName.noConfusion hx))
        have hpairs2 : ∀ x, x ∈ stPairs m2 st ↔ x ∈ ptPairs m pt := by
          intro x
          rw [hiffP x]
          constructor
          · rintro (hx | ⟨p, hp, hb⟩)
            · exact (hpairs1 x).1 hx
            · rw [← hptpairs1]
              unfold ptPairs
              rw [List.mem_filterMap]
              exact ⟨p, hp, hb⟩
          · intro hx
            exact Or.inl ((hpairs1 x).2 hx)
        -- footprint of the whole iteration
        have hextP' := hextP.mono astK_of_connK astKext_of_connKext (fun i hi => hi)
        have hextIter : ExtP m m2 astK astKext (astS m pt) := by
          apply hext1.comp hextP'
          intro i e hi hSi
          rcases hSi with he | ⟨k2, hk2, hkm2⟩ | hsub
          · have := Model.get_some_lt hi
            omega
          · rw [hext1.elemKind_stable (Model.get_some_lt hi)] at hk2
            exact Or.inr (Or.inl ⟨k2, hk2, conn4_mem_astS_list k2 hkm2⟩)
          · obtain ⟨e1, hg1, hmem1⟩ := getSub_mem hsub
            obtain ⟨ce1, hgc1, hpar1⟩ := WF.child_parent hwf1 hg1 hmem1
            have h1 := WF.parent_lt hwf1 hgc1 hpar1
            have h2 := Model.get_some_lt hi
            omega
        -- state of the new triggering at m2
        have hstlt2 : st < m2.elems.length := lt_of_lt_of_le hstlt1 hextP.1
        have hkst2 : elemKind m2 st = some .ISignalTriggering := by
          rw [hextP.elemKind_stable hstlt1]
          exact hkst1
        obtain ⟨pte1, hgpt1, hpte1n, _, _, _, _, _⟩ := hext1.2.1 pt _ hgpt
        obtain ⟨pte2, hgpt2, hpte2n, _, _, _, _, _⟩ := hextP.2.1 pt _ hgpt1
        -- the registered triggering list survives the propagation loop
        have htrig2 : signal_triggerings m2 pt = signal_triggerings m1 pt := by
          apply ExtP.signal_triggerings_eq hextP hwf1 hgpt1
          · rintro (he | ⟨k2, hk2, hkm2⟩ | hsub)
            · omega
            · rw [elemKind, hgpt1] at hk2
              simp only [Option.map_some', Option.some.injEq] at hk2
              rw [hpte1n, hptk] at hk2
              rw [← hk2] at hkm2
              simp at hkm2
            · obtain ⟨e1, hg1, hmem1⟩ := getSub_mem hsub
              obtain ⟨ce1, hgc1, hpar1⟩ := WF.child_parent hwf1 hg1 hmem1
              have h1 := WF.parent_lt hwf1 hgc1 hpar1
              omega
          · simp [connKext]
          · intro grp hgrp
            have hkgrp := getSub_kind hgrp
            rintro (he | ⟨k2, hk2, hkm2⟩ | hsub)
            · rw [he, hkst1] at hkgrp
              exact EName.noConfusion (Option.some.inj hkgrp)
            · rw [hkgrp] at hk2
              injection hk2 with hk2
              rw [← hk2] at hkm2
              simp at hkm2
            · have hx := getSub_kind hsub
              rw [hkgrp] at hx
              exact EName.noConfusion (Option.some.inj hx)
        -- kinds of the remaining PDU triggerings at m2
        have hltr : ∀ q ∈ rest, q < m.elems.length := by
          intro q hq
          obtain ⟨e, hg, _⟩ := elemKind_some_get (hkpts q (List.mem_cons_of_mem pt hq))
          exact Model.get_some_lt hg
        have hkr : ∀ q ∈ rest, elemKind m2 q = some .PduTriggering := by
          intro q hq
          rw [hextIter.elemKind_stable (hltr q hq)]
          exact hkpts q (List.mem_cons_of_mem pt hq)
        obtain ⟨hwf', hext2, hcount2, sts_r, hlen_r, hfacts_r⟩ := ih m2 m' u signal
          hwf2 hkr hndr (by
            have := hext1.1
            have := hextP.1
            omega) hok
        -- the head triggering's list and pairs survive the tail
        have hSpt2 : ¬ mslS m2 rest pt := by
          rintro (hmem | ⟨k2, hk2, hkm2⟩ | ⟨p, hp, hsub⟩)
          · exact hptnmem hmem
          · rw [elemKind, hgpt2] at hk2
            simp only [Option.map_some', Option.some.injEq] at hk2
            rw [hpte2n, hpte1n, hptk] at hk2
            rw [← hk2] at hkm2
            simp at hkm2
          · have hx := getSub_kind hsub
            rw [elemKind, hgpt2] at hx
            simp only [Option.map_some', Option.some.injEq] at hx
            rw [hpte2n, hpte1n, hptk] at hx
            exact EName.noConfusion hx
        have htrig3 : signal_triggerings m' pt = signal_triggerings m2 pt := by
          apply ExtP.signal_triggerings_eq hext2 hwf2 hgpt2 hSpt2
          · simp [astKext, connKext]
          · intro grp hgrp
            have hkgrp := getSub_kind hgrp
            rintro (hmem | ⟨k2, hk2, hkm2⟩ | ⟨p, hp, hsub⟩)
            · have := hkr grp hmem
              rw [hkgrp] at this
              exact EName.noConfusion (Option.some.inj this)
            · rw [hkgrp] at hk2
              injection hk2 with hk2
              rw [← hk2] at hkm2
              simp at hkm2
            · have he := getSub_parent_eq hwf2 hsub hgrp
              subst he
              rcases hp with hpmem | ⟨k3, hk3, hkm3⟩
              · exact hptnmem hpmem
              · rw [elemKind, hgpt2] at hk3
                simp only [Option.map_some', Option.some.injEq] at hk3
                rw [hpte2n, hpte1n, hptk] at hk3
                rw [← hk3] at hkm3
                simp at hkm3
        obtain ⟨ste2, hgst2⟩ := Model.get_lt_isSome hstlt2
        have hstpairs3 : stPairs m' st = stPairs m2 st := by
          apply ExtP.stPairs_eq2 hext2 hwf2 hgst2
          · rintro (hmem | ⟨k2, hk2, hkm2⟩ | ⟨p, hp, hsub⟩)
            · have := hltr st hmem
              omega
            · rw [hkst2] at hk2
              injection hk2 with hk2
              rw [← hk2] at hkm2
              simp at hkm2
            · have hx := getSub_kind hsub
              rw [hkst2] at hx
              exact EName.noConfusion (Option.some.inj hx)
          · simp [astKext, connKext]
          · intro rr hrr
            have hkrr := getSub_kind hrr
            rintro (hmem | ⟨k2, hk2, hkm2⟩ | ⟨p, hp, hsub⟩)
            · have := hkr rr hmem
              rw [hkrr] at this
              exact EName.noConfusion (Option.some.inj this)
            · rw [hkrr] at hk2
              injection hk2 with hk2
              rw [← hk2] at hkm2
              simp at hkm2
            · have hx := getSub_kind hsub
              rw [hkrr] at hx
              exact EName.noConfusion (Option.some.inj hx)
        -- composed footprint
        have hextIterW : ExtP m m2 astK astKext (mslS m (pt :: rest)) :=
          hextIter.mono (fun _ h => h) (fun _ h => h) (fun i hi => by
            rcases hi with he | ⟨k2, hk2, hkm2⟩ | hsub | ⟨ch, hnp, hchk, hsub⟩
            · exact Or.inl (by rw [he]; simp)
            · exact Or.inr (Or.inl ⟨k2, hk2, hkm2⟩)
            · exact Or.inr (Or.inr ⟨pt, Or.inl (by simp), hsub⟩)
            · exact Or.inr (Or.inr ⟨ch, Or.inr hchk, hsub⟩))
        have hextFull : ExtP m m' astK astKext (mslS m (pt :: rest)) := by
          apply hextIterW.comp hext2
          intro i e hi hSi
          rcases hSi with hmem | ⟨k2, hk2, hkm2⟩ | ⟨p, hp, hsub⟩
          · exact Or.inl (List.mem_cons_of_mem pt hmem)
          · rw [hextIter.elemKind_stable (Model.get_some_lt hi)] at hk2
            exact Or.inr (Or.inl ⟨k2, hk2, hkm2⟩)
          · rcases hp with hpmem | ⟨k3, hk3, hkm3⟩
            · obtain ⟨pe2, hgp2⟩ := Model.get_lt_isSome (hltr p hpmem)
              exact Or.inr (Or.inr ⟨p, Or.inl (List.mem_cons_of_mem pt hpmem),
                hextIter.getSub_old hwf hgp2 hsub (Model.get_some_lt hi)⟩)
            · have hplt : p < m.elems.length := by
                by_contra hge
                push_neg at hge
                obtain ⟨pe2, hgp2, hpe2k⟩ := elemKind_some_get hk3
                have hastk := hextIter.2.2 p pe2 hge hgp2
                rw [hpe2k] at hastk
                simp only [List.mem_cons, List.not_mem_nil, or_false] at hkm3
                rcases hkm3 with rfl | rfl | rfl <;>
                  simp [astK, connK] at hastk
              obtain ⟨pe2, hgp2⟩ := Model.get_lt_isSome hplt
              rw [hextIter.elemKind_stable hplt] at hk3
              exact Or.inr (Or.inr ⟨p, Or.inr ⟨k3, hk3, hkm3⟩,
                hextIter.getSub_old hwf hgp2 hsub (Model.get_some_lt hi)⟩)
        refine ⟨hwf', hextFull, ?_, st :: sts_r, by simp [hlen_r], ?_⟩
        · rw [hcount2, hextP.countKind_stable (by simp [connK]), hcount1]
          simp only [List.length_cons]
          omega
        · intro j hj
          cases j with
          | zero =>
            simp only [List.getD_cons_zero]
            refine ⟨hstge, ?_, ?_, ?_⟩
            · rw [hext2.elemKind_stable hstlt2]
              exact hkst2
            · rw [htrig3, htrig2, htrig1]
            · intro x
              rw [hstpairs3]
              exact hpairs2 x
          | succ j =>
            simp only [List.getD_cons_succ]
            have hjr : j < rest.length := by simpa using hj
            obtain ⟨hge_j, hkind_j, htrig_j, hpairs_j⟩ := hfacts_r j hjr
            have hptj_mem : rest.getD j 0 ∈ rest := by
              rw [List.getD_eq_getElem rest 0 hjr]
              exact List.getElem_mem hjr
            have hkptj := hkpts (rest.getD j 0) (List.mem_cons_of_mem pt hptj_mem)
            obtain ⟨ptje, hgptj, hptjk⟩ := elemKind_some_get hkptj
            have hnej : rest.getD j 0 ≠ pt := fun he => hptnmem (he ▸ hptj_mem)
            refine ⟨le_trans (le_trans hext1.1 hextP.1) hge_j, hkind_j, ?_, ?_⟩
            · rw [htrig_j]
              congr 1
              apply ExtP.signal_triggerings_eq hextIter hwf hgptj
              · exact not_astS_of_kind hkptj hnej (by simp)
                  (fun hx => EName.noConfusion hx)
              · simp [astKext, connKext]
              · intro grp hgrp
                exact not_astS_trigscoll hwf hkptj hkptm hnej hgrp
            · intro x
              rw [hpairs_j x]
              rw [hextIter.ptPairs_eq hwf hgptj (by simp [astKext, connKext])
                (by simp [astKext, connKext]) (fun rr hrr =>
                  not_astS_of_kind (getSub_kind hrr) (fun he => by
                    have hx := getSub_kind hrr
                    rw [he, hkptm] at hx
                    exact EName.noConfusion (Option.some.inj hx))
                  (by simp) (fun hx => EName.noConfusion hx))]

/-- Footprint of a successful `ISignalToIPduMapping::new`: only the mappings
collection gains a child (the fresh mapping record with its attribute
sub-elements). -/
theorem mapping_new_ext {m m' : Model} {mappings signal sm : Nat}
    {name : String} {sp : Nat} {bo : ByteOrder} {ub : Option Nat}
    {tp : TransferProperty}
    (hwf : WF m = true) {me : Elem} (hgmaps : m.get mappings = some me)
    (hsiglt : signal < m.elems.length)
    (hok : ISignalToIPduMapping.new m name mappings signal sp bo ub tp =
      (.ok sm, m')) :
    WF m' = true ∧
    ExtP m m' (fun k => k ∈ [EName.ISignalToIPduMapping, .ISignalRef,
      .PackingByteOrder, .StartPosition, .TransferProperty,
      .UpdateIndicationBitPosition])
      (fun k => k ∈ [EName.ISignalToIPduMapping])
      (fun i => i = mappings) := by
  unfold ISignalToIPduMapping.new at hok
  cases hcn : create_named_sub_element m mappings .ISignalToIPduMapping name with
  | error e =>
    rw [hcn] at hok
    simp at hok
  | ok smM =>
    rcases smM with ⟨sm0, mB⟩
    rw [hcn] at hok
    dsimp only at hok
    rcases hsr : create_sub_element mB sm0 .ISignalRef with ⟨sr, mC⟩
    rw [hsr] at hok
    dsimp only at hok
    set m3 := set_reference_target mC sr signal with hm3
    rcases hpbo : create_sub_element m3 sm0 .PackingByteOrder with ⟨pbo, mD⟩
    rw [hpbo] at hok
    dsimp only at hok
    set m5 := set_character_data mD pbo (.enum (byteOrderToEnum bo)) with hm5
    rcases hspos : create_sub_element m5 sm0 .StartPosition with ⟨spos, mE⟩
    rw [hspos] at hok
    dsimp only at hok
    set m7 := set_character_data mE spos (.int sp) with hm7
    rcases htp : create_sub_element m7 sm0 .TransferProperty with ⟨tpc, mF⟩
    rw [htp] at hok
    dsimp only at hok
    set m9 := set_character_data mF tpc (.enum (tpToEnum tp)) with hm9
    -- well-formedness and arithmetic along the chain
    have hBout := cns_out (n := .ISignalToIPduMapping) hwf hgmaps rfl hcn
    obtain ⟨hwfB, hsm0, hlenB, hgsmB, hstabB, hgmapsB⟩ := hBout
    have hCout := cs_out hwfB hgsmB rfl (n := .ISignalRef)
    rw [hsr] at hCout
    dsimp only at hCout
    obtain ⟨hwfC, hsr1, hlenC, hgsrC, hstabC, hgsmC⟩ := hCout
    have hwf3 : WF m3 = true := by
      rw [hm3]
      exact WF_set_reference_target hwfC (by omega)
    have hlen3 : m3.elems.length = mC.elems.length := by
      rw [hm3]; exact len_set_reference_target mC sr signal
    have hg3 : ∀ j, j < mC.elems.length → ∃ e, m3.get j = some e := by
      intro j hj
      exact Model.get_lt_isSome (by omega)
    obtain ⟨sm3, hgsm3⟩ := hg3 sm0 (by omega)
    have hDout := cs_out hwf3 hgsm3 rfl (n := .PackingByteOrder)
    rw [hpbo] at hDout
    dsimp only at hDout
    obtain ⟨hwfD, hpbo1, hlenD, hgpboD, hstabD, hgsmD⟩ := hDout
    have hwf5 : WF m5 = true := by
      rw [hm5]; exact WF_set_character_data hwfD
    have hlen5 : m5.elems.length = mD.elems.length := by
      rw [hm5]; exact len_set_character_data mD pbo _
    obtain ⟨sm5, hgsm5⟩ := Model.get_lt_isSome
      (show sm0 < m5.elems.length by omega)
    have hEout := cs_out hwf5 hgsm5 rfl (n := .StartPosition)
    rw [hspos] at hEout
    dsimp only at hEout
    obtain ⟨hwfE, hspos1, hlenE, hgsposE, hstabE, hgsmE⟩ := hEout
    have hwf7 : WF m7 = true := by
      rw [hm7]; exact WF_set_character_data hwfE
    have hlen7 : m7.elems.length = mE.elems.length := by
      rw [hm7]; exact len_set_character_data mE spos _
    obtain ⟨sm7, hgsm7⟩ := Model.get_lt_isSome
      (show sm0 < m7.elems.length by omega)
    have hFout := cs_out hwf7 hgsm7 rfl (n := .TransferProperty)
    rw [htp] at hFout
    dsimp only at hFout
    obtain ⟨hwfF, htp1, hlenF, hgtpF, hstabF, hgsmF⟩ := hFout
    have hwf9 : WF m9 = true := by
      rw [hm9]; exact WF_set_character_data hwfF
    have hlen9 : m9.elems.length = mF.elems.length := by
      rw [hm9]; exact len_set_character_data mF tpc _
    -- the extension chain
    have e0 := ExtP.refl m (fun k => k ∈ [EName.ISignalToIPduMapping, .ISignalRef,
      .PackingByteOrder, .StartPosition, .TransferProperty,
      .UpdateIndicationBitPosition])
      (fun k => k ∈ [EName.ISignalToIPduMapping])
      (fun i => i = mappings)
    have eB := cns_ext e0 hcn (by simp) (fun _ => by simp) (fun _ => rfl)
    have eC0 := cs_ext eB (p := sm0) (n := .ISignalRef) (by simp)
      (fun hlt => absurd hlt (by omega)) (fun hlt => absurd hlt (by omega))
    rw [hsr] at eC0
    dsimp only at eC0
    have e3 : ExtP m m3 (fun k => k ∈ [EName.ISignalToIPduMapping, .ISignalRef,
        .PackingByteOrder, .StartPosition, .TransferProperty,
        .UpdateIndicationBitPosition])
        (fun k => k ∈ [EName.ISignalToIPduMapping])
        (fun i => i = mappings) := by
      rw [hm3]
      exact ExtP_step_set_reference_target eC0 (by omega)
    have eD0 := cs_ext e3 (p := sm0) (n := .PackingByteOrder) (by simp)
      (fun hlt => absurd hlt (by omega)) (fun hlt => absurd hlt (by omega))
    rw [hpbo] at eD0
    dsimp only at eD0
    have e5 : ExtP m m5 (fun k => k ∈ [EName.ISignalToIPduMapping, .ISignalRef,
        .PackingByteOrder, .StartPosition, .TransferProperty,
        .UpdateIndicationBitPosition])
        (fun k => k ∈ [EName.ISignalToIPduMapping])
        (fun i => i = mappings) := by
      rw [hm5]
      exact ExtP_step_set_character_data eD0 (by omega)
    have eE0 := cs_ext e5 (p := sm0) (n := .StartPosition) (by simp)
      (fun hlt => absurd hlt (by omega)) (fun hlt => absurd hlt (by omega))
    rw [hspos] at eE0
    dsimp only at eE0
    have e7 : ExtP m m7 (fun k => k ∈ [EName.ISignalToIPduMapping, .ISignalRef,
        .PackingByteOrder, .StartPosition, .TransferProperty,
        .UpdateIndicationBitPosition])
        (fun k => k ∈ [EName.ISignalToIPduMapping])
        (fun i => i = mappings) := by
      rw [hm7]
      exact ExtP_step_set_character_data eE0 (by omega)
    have eF0 := cs_ext e7 (p := sm0) (n := .TransferProperty) (by simp)
      (fun hlt => absurd hlt (by omega)) (fun hlt => absurd hlt (by omega))
    rw [htp] at eF0
    dsimp only at eF0
    have e9 : ExtP m m9 (fun k => k ∈ [EName.ISignalToIPduMapping, .ISignalRef,
        .PackingByteOrder, .StartPosition, .TransferProperty,
        .UpdateIndicationBitPosition])
        (fun k => k ∈ [EName.ISignalToIPduMapping])
        (fun i => i = mappings) := by
      rw [hm9]
      exact ExtP_step_set_character_data eF0 (by omega)
    -- the optional update bit
    cases ub with
    | none =>
      dsimp only at hok
      injection hok with h1 h2
      injection h1 with h1
      subst h1
      subst h2
      exact ⟨hwf9, e9⟩
    | some ubp =>
      dsimp only at hok
      rcases hub : create_sub_element m9 sm0 .UpdateIndicationBitPosition
        with ⟨ubc, mG⟩
      rw [hub] at hok
      dsimp only at hok
      injection hok with h1 h2
      injection h1 with h1
      subst h1
      obtain ⟨sm9, hgsm9⟩ := Model.get_lt_isSome
        (show sm0 < m9.elems.length by omega)
      have hGout := cs_out hwf9 hgsm9 rfl (n := .UpdateIndicationBitPosition)
      rw [hub] at hGout
      dsimp only at hGout
      obtain ⟨hwfG, hub1, hlenG, hgubG, hstabG, hgsmG⟩ := hGout
      have eG0 := cs_ext e9 (p := sm0) (n := .UpdateIndicationBitPosition) (by simp)
        (fun hlt => absurd hlt (by omega)) (fun hlt => absurd hlt (by omega))
      rw [hub] at eG0
      dsimp only at eG0
      constructor
      · rw [← h2]
        exact WF_set_character_data hwfG
      · rw [← h2]
        exact ExtP_step_set_character_data eG0 (by omega)

theorem msTailK_incl : ∀ k, k ∈ [EName.ISignalToIPduMapping, .ISignalRef,
    .PackingByteOrder, .StartPosition, .TransferProperty,
    .UpdateIndicationBitPosition] →
    k ∈ [EName.ISignalToPduMappings, .ISignalToIPduMapping, .ISignalRef,
      .PackingByteOrder, .StartPosition, .TransferProperty,
      .UpdateIndicationBitPosition] := by
  intro k hk
  simp only [List.mem_cons, List.not_mem_nil, or_false] at hk ⊢
  tauto

theorem msTailKe_incl : ∀ k, k ∈ [EName.ISignalToIPduMapping] →
    k ∈ [EName.ISignalToPduMappings, .ISignalToIPduMapping] := by
  intro k hk
  simp only [List.mem_cons, List.not_mem_nil, or_false] at hk ⊢
  tauto

/-! ## Claim C1 -/

/-- C1: for an `ISignalIPdu` with `N` existing `PduTriggering`s (a list
without duplicates), a successful `map_signal` creates exactly `N` new
`ISignalTriggering` elements — one appended to each PDU triggering's list —
and each new triggering's (ECU, direction) pair set equals the pair set of
its PDU triggering at call time. -/
theorem C1_map_signal_fanout {m m' : Model} {pdu signal mp : Nat} {sp : Nat}
    {bo : ByteOrder} {ub : Option Nat} {tp : TransferProperty}
    (hwf : WF m = true) (hkpdu : elemKind m pdu = some .ISignalIPdu)
    (hnd : (pdu_triggerings m pdu).Nodup)
    (hok : ISignalIPdu.map_signal m pdu signal sp bo ub tp = (.ok mp, m')) :
    countKind m' .ISignalTriggering =
      countKind m .ISignalTriggering + (pdu_triggerings m pdu).length ∧
    ∃ sts : List Nat, sts.length = (pdu_triggerings m pdu).length ∧
      ∀ j, j < (pdu_triggerings m pdu).length →
        m.elems.length ≤ sts.getD j 0 ∧
        elemKind m' (sts.getD j 0) = some .ISignalTriggering ∧
        signal_triggerings m' ((pdu_triggerings m pdu).getD j 0) =
          signal_triggerings m ((pdu_triggerings m pdu).getD j 0) ++ [sts.getD j 0] ∧
        (∀ x, x ∈ stPairs m' (sts.getD j 0) ↔
          x ∈ ptPairs m ((pdu_triggerings m pdu).getD j 0)) := by
  unfold ISignalIPdu.map_signal at hok
  cases hnm : elemName m signal with
  | none =>
    rw [hnm] at hok
    simp at hok
  | some signal_name =>
    rw [hnm] at hok
    dsimp only at hok
    rcases hloop : ISignalIPdu.mapSignalLoop m (pdu_triggerings m pdu) signal
      with ⟨res1, m1⟩
    rw [hloop] at hok
    cases res1 with
    | error e => simp at hok
    | ok v =>
      dsimp only at hok
      rcases hgoc : get_or_create_sub_element m1 pdu .ISignalToPduMappings
        with ⟨mappings, mm⟩
      rw [hgoc] at hok
      dsimp only at hok
      have hsiglt : signal < m.elems.length := by
        unfold elemName at hnm
        cases hg : m.get signal with
        | none => rw [hg] at hnm; simp at hnm
        | some e => exact Model.get_some_lt hg
      obtain ⟨hwf1, hextL, hcount1, sts, hlen, hfacts⟩ := msl_ok
        (pdu_triggerings m pdu) m m1 v signal hwf
        (fun pt hpt => mem_pdu_triggerings_kind hpt) hnd hsiglt hloop
      obtain ⟨pde, hgpdu, hpdk⟩ := elemKind_some_get hkpdu
      have hpdlt : pdu < m.elems.length := Model.get_some_lt hgpdu
      obtain ⟨pde1, hgpdu1, hpde1n, _, _, _, _, _⟩ := hextL.2.1 pdu _ hgpdu
      have hkpdu1 : elemKind m1 pdu = some .ISignalIPdu := by
        simp [elemKind, hgpdu1, hpde1n, hpdk]
      have hAout := goc_out (n := .ISignalToPduMappings) hwf1 hgpdu1 rfl hgoc
      obtain ⟨hwfA, hmapsltA, hlenA, ⟨mapsE, hgmapsA, hkmaps, hnmmaps, hparmaps, _⟩,
        hgsubA, hstabA, hcasesA⟩ := hAout
      have hsiglt1 : signal < mm.elems.length := by
        have := hextL.1
        omega
      obtain ⟨hwfT, hextM⟩ := mapping_new_ext hwfA hgmapsA hsiglt1 hok
      have hextG : ExtP m1 mm
          (fun k => k ∈ [EName.ISignalToPduMappings, .ISignalToIPduMapping,
            .ISignalRef, .PackingByteOrder, .StartPosition, .TransferProperty,
            .UpdateIndicationBitPosition])
          (fun k => k ∈ [EName.ISignalToPduMappings, .ISignalToIPduMapping])
          (fun i => i = pdu ∨ getSubElement m1 pdu .ISignalToPduMappings = some i) :=
        goc_ext (ExtP.refl m1 _ _ _) hgoc (by simp) (fun _ => by simp)
          (fun _ => Or.inl rfl)
      have hextM' : ExtP mm m'
          (fun k => k ∈ [EName.ISignalToPduMappings, .ISignalToIPduMapping,
            .ISignalRef, .PackingByteOrder, .StartPosition, .TransferProperty,
            .UpdateIndicationBitPosition])
          (fun k => k ∈ [EName.ISignalToPduMappings, .ISignalToIPduMapping])
          (fun i => i = mappings) :=
        hextM.mono msTailK_incl msTailKe_incl (fun i hi => hi)
      have hextT : ExtP m1 m'
          (fun k => k ∈ [EName.ISignalToPduMappings, .ISignalToIPduMapping,
            .ISignalRef, .PackingByteOrder, .StartPosition, .TransferProperty,
            .UpdateIndicationBitPosition])
          (fun k => k ∈ [EName.ISignalToPduMappings, .ISignalToIPduMapping])
          (fun i => i = pdu ∨ getSubElement m1 pdu .ISignalToPduMappings = some i) := by
        apply hextG.comp hextM'
        intro i e hi hSi
        subst hSi
        rcases hcasesA with ⟨hg0, hmeq, _⟩ | ⟨_, hceq, _, _⟩
        · exact Or.inr hg0
        · exact absurd (Model.get_some_lt hi) (by omega)
      refine ⟨?_, sts, hlen, ?_⟩
      · rw [hextT.countKind_stable (by simp), hcount1]
      · intro j hj
        obtain ⟨hge_j, hkind_j, htrig_j, hpairs_j⟩ := hfacts j hj
        have hptj_mem : (pdu_triggerings m pdu).getD j 0 ∈ pdu_triggerings m pdu := by
          rw [List.getD_eq_getElem _ 0 hj]
          exact List.getElem_mem hj
        have hkptj := mem_pdu_triggerings_kind hptj_mem
        have hptjlt := mem_pdu_triggerings_lt hptj_mem
        obtain ⟨ptje1, hgptj1⟩ := Model.get_lt_isSome (lt_of_lt_of_le hptjlt hextL.1)
        have hstjlt1 : sts.getD j 0 < m1.elems.length := by
          obtain ⟨e, hg, _⟩ := elemKind_some_get hkind_j
          exact Model.get_some_lt hg
        obtain ⟨stje1, hgstj1⟩ := Model.get_lt_isSome hstjlt1
        have hSgrpT : ∀ grp,
            getSubElement m1 ((pdu_triggerings m pdu).getD j 0)
              .ISignalTriggerings = some grp →
            ¬ (grp = pdu ∨
              getSubElement m1 pdu .ISignalToPduMappings = some grp) := by
          intro grp hgrp
          have hkgrp := getSub_kind hgrp
          rintro (he | hsub)
          · rw [he, hkpdu1] at hkgrp
            exact EName.noConfusion (Option.some.inj hkgrp)
          · have hx := getSub_kind hsub
            rw [hkgrp] at hx
            exact EName.noConfusion (Option.some.inj hx)
        have hSrrT : ∀ rr,
            getSubElement m1 (sts.getD j 0) .ISignalPortRefs = some rr →
            ¬ (rr = pdu ∨
              getSubElement m1 pdu .ISignalToPduMappings = some rr) := by
          intro rr hrr
          have hkrr := getSub_kind hrr
          rintro (he | hsub)
          · rw [he, hkpdu1] at hkrr
            exact EName.noConfusion (Option.some.inj hkrr)
          · have hx := getSub_kind hsub
            rw [hkrr] at hx
            exact EName.noConfusion (Option.some.inj hx)
        have htrigT := ExtP.signal_triggerings_eq2 hextT hwf1 hgptj1
          (by simp) (by simp) hSgrpT
        have hpairsT := ExtP.stPairs_eq hextT hwf1 hgstj1 (by simp) (by simp) hSrrT
        refine ⟨hge_j, ?_, ?_, ?_⟩
        · rw [hextT.elemKind_stable hstjlt1]
          exact hkind_j
        · rw [htrigT]
          exact htrig_j
        · intro x
          rw [hpairsT]
          exact hpairs_j x

/-! ## Claim C4 -/

/-- C4: a successful `PduTriggering` creation for an `ISignalIPdu` on a
channel back-fills, before returning, exactly one fresh `ISignalTriggering`
per mapping whose signal reference resolves, so that every mapped signal of
the Pdu has a child triggering (whose signal reference resolves to that
signal) under the new PDU triggering from the moment of its creation. -/
theorem C4_pdu_triggering_new_backfills {m m' : Model} {ipdu channel pt : Nat}
    (hwf : WF m = true)
    (hch : kindIn m channel [.CanPhysicalChannel, .EthernetPhysicalChannel,
      .FlexrayPhysicalChannel])
    (hok : PduTriggering.new m (Pdu.ISignalIPdu ipdu) channel = (.ok pt, m')) :
    countKind m' .ISignalTriggering = countKind m .ISignalTriggering +
      (mapped_signals m ipdu).countP (fun mp => (mapping_signal m mp).isSome) ∧
    ∀ mp ∈ mapped_signals m ipdu, ∀ s, mapping_signal m mp = some s →
      ∃ st ∈ signal_triggerings m' pt, m.elems.length ≤ st ∧
        ∃ r, getSubElement m' st .ISignalRef = some r ∧
          get_reference_target m' r = some s := by
  unfold PduTriggering.new at hok
  dsimp only [Pdu.element] at hok
  cases hnm : elemName m ipdu with
  | none =>
    rw [hnm] at hok
    simp at hok
  | some pdu_name =>
    rw [hnm] at hok
    dsimp only at hok
    rcases hgoc : get_or_create_sub_element m channel .PduTriggerings with ⟨trgs, mA⟩
    rw [hgoc] at hok
    dsimp only at hok
    cases hcn : create_named_sub_element mA trgs .PduTriggering
        (make_unique_name m channel ("PT_" ++ pdu_name)) with
    | error e =>
      rw [hcn] at hok
      simp at hok
    | ok ptM =>
      rcases ptM with ⟨pt0, mB⟩
      rw [hcn] at hok
      dsimp only at hok
      rcases hcs : create_sub_element mB pt0 .IPduRef with ⟨ref, mC⟩
      rw [hcs] at hok
      dsimp only at hok
      set m4 := set_reference_target mC ref ipdu with hm4
      rcases hbf : backfill m4 (mapped_signals m4 ipdu) pt0 with ⟨res1, m5⟩
      rw [hbf] at hok
      cases res1 with
      | error e => simp at hok
      | ok u =>
        dsimp only at hok
        injection hok with h1 h2
        injection h1 with h1
        subst h1
        subst h2
        obtain ⟨kc, hkc, hkcm⟩ := hch
        obtain ⟨che, hgch, hchek⟩ := elemKind_some_get hkc
        have hAout := goc_out (n := .PduTriggerings) hwf hgch rfl hgoc
        obtain ⟨hwfA, htrgsltA, hlenA, ⟨trgsE, hgtrgsA, hktrgs, hnmtrgs, hpartrgs, _⟩,
          hgsubA, hstabA, hcasesA⟩ := hAout
        have harithA : trgs < m.elems.length ∧ mA.elems.length = m.elems.length ∨
            trgs = m.elems.length ∧ mA.elems.length = m.elems.length + 1 := by
          rcases hcasesA with ⟨_, hmeq, hlt⟩ | ⟨_, hceq, hleq, _⟩
          · exact Or.inl ⟨hlt, by rw [hmeq]⟩
          · exact Or.inr ⟨hceq, hleq⟩
        have hBout := cns_out (n := .PduTriggering) hwfA hgtrgsA rfl hcn
        obtain ⟨hwfB, hpt0, hlenB, hgptB, hstabB, hgtrgsB⟩ := hBout
        have hCout := cs_out hwfB hgptB rfl (n := .IPduRef)
        rw [hcs] at hCout
        dsimp only at hCout
        obtain ⟨hwfC, href1, hlenC, hgrefC, hstabC, hgptC⟩ := hCout
        rw [← href1] at hgrefC hgptC
        have hipdult : ipdu < m.elems.length := by
          unfold elemName at hnm
          cases hg : m.get ipdu with
          | none => rw [hg] at hnm; simp at hnm
          | some e => exact Model.get_some_lt hg
        obtain ⟨pdue, hgpdu⟩ := Model.get_lt_isSome hipdult
        have hwf4 : WF m4 = true := by
          rw [hm4]
          exact WF_set_reference_target hwfC (by
            rcases harithA with ⟨_, h⟩ | ⟨_, h⟩ <;> omega)
        have hstab4 : ∀ j, j ≠ ref → m4.get j = mC.get j := fun j hj => by
          rw [hm4]; exact get_set_reference_target_ne mC ipdu hj
        have hkpt4 : elemKind m4 pt0 = some .PduTriggering := by
          rw [elemKind, hstab4 pt0 (by omega), hgptC]
          rfl
        have e0 := ExtP.refl m
          (fun k => k ∈ [EName.PduTriggerings, .PduTriggering, .IPduRef])
          (fun k => k ∈ [EName.PduTriggerings, .PduTriggering])
          (fun i => i = channel ∨ getSubElement m channel .PduTriggerings = some i)
        have eA := goc_ext e0 hgoc (by simp) (fun _ => by simp) (fun _ => Or.inl rfl)
        have hStrgs : trgs < m.elems.length →
            trgs = channel ∨ getSubElement m channel .PduTriggerings = some trgs := by
          intro hlt
          rcases hcasesA with ⟨hg0, _, _⟩ | ⟨_, hceq, _, _⟩
          · exact Or.inr hg0
          · omega
        have eB := cns_ext eA hcn (by simp) (fun _ => by simp) hStrgs
        have eC0 := cs_ext eB (p := pt0) (n := .IPduRef) (by simp)
          (fun hlt => absurd hlt (by omega)) (fun hlt => absurd hlt (by omega))
        rw [hcs] at eC0
        dsimp only at eC0
        have hext4 : ExtP m m4
            (fun k => k ∈ [EName.PduTriggerings, .PduTriggering, .IPduRef])
            (fun k => k ∈ [EName.PduTriggerings, .PduTriggering])
            (fun i => i = channel ∨
              getSubElement m channel .PduTriggerings = some i) := by
          rw [hm4]
          exact ExtP_step_set_reference_target eC0 (by
            rcases harithA with ⟨_, h⟩ | ⟨_, h⟩ <;> omega)
        have hSexclM : ∀ grp, getSubElement m ipdu .ISignalToPduMappings = some grp →
            ¬ (grp = channel ∨
              getSubElement m channel .PduTriggerings = some grp) := by
          intro grp hgrp
          have hkgrp := getSub_kind hgrp
          rintro (he | hsub)
          · rw [he, hkc] at hkgrp
            injection hkgrp with hkgrp
            rw [hkgrp] at hkcm
            simp at hkcm
          · have hx := getSub_kind hsub
            rw [hkgrp] at hx
            exact EName.noConfusion (Option.some.inj hx)
        have hmseq : mapped_signals m4 ipdu = mapped_signals m ipdu :=
          ExtP.mapped_signals_eq hext4 hwf hgpdu (by simp) hSexclM
        have hmsig : ∀ mp ∈ mapped_signals m ipdu,
            mapping_signal m4 mp = mapping_signal m mp := by
          intro mp hmp
          have hkmp := mem_mapped_signals_kind hmp
          obtain ⟨mpe, hgmp, _⟩ := elemKind_some_get hkmp
          apply hext4.mapping_signal_stable hwf hgmp
          rintro (he | hsub)
          · rw [he, hkc] at hkmp
            injection hkmp with hkmp
            rw [hkmp] at hkcm
            simp at hkcm
          · have hx := getSub_kind hsub
            rw [hkmp] at hx
            exact EName.noConfusion (Option.some.inj hx)
        obtain ⟨hwf5, hextB, hcountB, hmonoB, hmapsB⟩ := backfill_ok
          (mapped_signals m4 ipdu) m4 m5 u pt0 hwf4 hkpt4
          (fun mp hmp => mem_mapped_signals_kind hmp) hbf
        constructor
        · have hcA : countKind mA .ISignalTriggering = countKind m .ISignalTriggering :=
            countKind_goc hgoc (by intro hx; exact EName.noConfusion hx)
          have hcB : countKind mB .ISignalTriggering =
              countKind mA .ISignalTriggering := by
            rw [countKind_cns hcn]
            simp
          have hcC : countKind mC .ISignalTriggering =
              countKind mB .ISignalTriggering := by
            have hx := congrArg Prod.snd hcs
            dsimp only at hx
            rw [← hx, countKind_cs]
            simp
          have hc4 : countKind m4 .ISignalTriggering =
              countKind m .ISignalTriggering := by
            rw [hm4, countKind_set_reference_target, hcC, hcB, hcA]
          have hcntP : (mapped_signals m4 ipdu).countP
              (fun mp => (mapping_signal m4 mp).isSome) =
              (mapped_signals m ipdu).countP
              (fun mp => (mapping_signal m mp).isSome) := by
            rw [hmseq]
            exact List.countP_congr (fun mp hmp => by rw [hmsig mp hmp])
          rw [hcountB, hc4, hcntP]
        · intro mp hmp s hs
          have hmp4 : mp ∈ mapped_signals m4 ipdu := by
            rw [hmseq]
            exact hmp
          have hs4 : mapping_signal m4 mp = some s := by
            rw [hmsig mp hmp]
            exact hs
          obtain ⟨st, hstmem, hstge, r, hgr, hgrt⟩ := hmapsB mp hmp4 s hs4
          exact ⟨st, hstmem, le_trans hext4.1 hstge, r, hgr, hgrt⟩

theorem C1_map_signal_fanout_witness :
    (WF demoM4 = true ∧ elemKind demoM4 10 = some EName.ISignalIPdu ∧
      (pdu_triggerings demoM4 10).Nodup ∧
      ISignalIPdu.map_signal demoM4 10 11 0 .MostSignificantByteFirst (some 7)
        .Triggered = (.ok 45, demoM5)) ∧
    (countKind demoM5 .ISignalTriggering =
      countKind demoM4 .ISignalTriggering + (pdu_triggerings demoM4 10).length ∧
    ∃ sts : List Nat, sts.length = (pdu_triggerings demoM4 10).length ∧
      ∀ j, j < (pdu_triggerings demoM4 10).length →
        demoM4.elems.length ≤ sts.getD j 0 ∧
        elemKind demoM5 (sts.getD j 0) = some .ISignalTriggering ∧
        signal_triggerings demoM5 ((pdu_triggerings demoM4 10).getD j 0) =
          signal_triggerings demoM4 ((pdu_triggerings demoM4 10).getD j 0) ++
            [sts.getD j 0] ∧
        (∀ x, x ∈ stPairs demoM5 (sts.getD j 0) ↔
          x ∈ ptPairs demoM4 ((pdu_triggerings demoM4 10).getD j 0))) :=
  ⟨⟨by decide, by decide, by decide, by decide⟩,
   @C1_map_signal_fanout demoM4 demoM5 10 11 45 0 .MostSignificantByteFirst
     (some 7) .Triggered (by decide) (by decide) (by decide) (by decide)⟩

/-! ## Claim C2 -/

/-- C2 (amended): immediately after a successful `PduTriggering::connect_to_ecu`
call that created a port — no (ECU, direction) port existed on the PDU
triggering before the call — every child signal triggering of the PDU
triggering carries a port pair for exactly that ECU and direction.  (The
second half of the claim, the global pair-set equality invariant, is refuted
by `C2_global_pair_equality_cex`.) -/
theorem C2_connect_propagates_to_children {m m' : Model} {pt ecu pp : Nat}
    {d : CommunicationDirection}
    (hwf : WF m = true) (hptlt : pt < m.elems.length) (hecu : EcuOK m ecu)
    (hfp : findPort m (pdu_ports m pt) ecu d = none)
    (hok : PduTriggering.connect_to_ecu m pt ecu d = (.ok pp, m')) :
    ∀ s ∈ signal_triggerings m' pt, (ecu, d) ∈ stPairs m' s := by
  obtain ⟨_, _, _, _, _, _, _, _, _, hprop, _⟩ := pt_connect_ok hwf hptlt hecu hok
  exact hprop hfp

theorem C2_connect_propagates_to_children_witness :
    (WF c2a = true ∧ 13 < c2a.elems.length ∧ EcuOK c2a 2 ∧
      findPort c2a (pdu_ports c2a 13) 2 .In = none ∧
      PduTriggering.connect_to_ecu c2a 13 2 .In = (.ok 28, c2c)) ∧
    (∀ s ∈ signal_triggerings c2c 13,
      (2, CommunicationDirection.In) ∈ stPairs c2c s) :=
  ⟨⟨by decide, by decide,
    ⟨{ ename := .EcuInstance, itemName := some "EcuA", parent := some 0,
       children := [3] }, by decide, rfl, rfl⟩, by decide, by decide⟩,
   @C2_connect_propagates_to_children c2a c2c 13 2 28 .In (by decide) (by decide)
     ⟨{ ename := .EcuInstance, itemName := some "EcuA", parent := some 0,
        children := [3] }, by decide, rfl, rfl⟩ (by decide) (by decide)⟩

/-- C2 counterexample: the claimed global invariant — in every state reachable
through the public operations, a PDU triggering's (ECU, direction) pair set
equals the pair set of each of its child signal triggerings — is false.  The
state `c2b`, built from `demoBase` by `PduTriggering::new`,
`ISignalIPdu::map_signal` and `ISignalTriggering::connect_to_ecu` alone, has
PDU triggering 13 with child signal triggering 16 whose pair set contains
(EcuA, In) while the PDU triggering's pair set is empty. -/
theorem C2_global_pair_equality_cex :
    WF c2b = true ∧
    (ISignalTriggering.connect_to_ecu c2a 16 2 .In).1 = .ok 28 ∧
    signal_triggerings c2b 13 = [16] ∧
    (2, CommunicationDirection.In) ∈ stPairs c2b 16 ∧
    ptPairs c2b 13 = [] :=
  ⟨by decide, by decide, by decide, by decide, by decide⟩

/-! ## Claim C3 -/

/-- C3: `connect_to_ecu` is idempotent on both triggering types: after a
successful call returning port `p`, repeating the call with the same ECU and
direction returns exactly `p` and leaves the graph unchanged — no second port
is ever created for one (triggering, ECU, direction) triple. -/
theorem C3_connect_to_ecu_idempotent {m m' n n' : Model}
    {st ecu sp : Nat} {d : CommunicationDirection}
    {pt ecu2 pp : Nat} {d2 : CommunicationDirection}
    (hwf : WF m = true) (hstlt : st < m.elems.length) (hecu : EcuOK m ecu)
    (hok : ISignalTriggering.connect_to_ecu m st ecu d = (.ok sp, m'))
    (hwfn : WF n = true) (hptlt : pt < n.elems.length) (hecun : EcuOK n ecu2)
    (hokn : PduTriggering.connect_to_ecu n pt ecu2 d2 = (.ok pp, n')) :
    ISignalTriggering.connect_to_ecu m' st ecu d = (.ok sp, m') ∧
    PduTriggering.connect_to_ecu n' pt ecu2 d2 = (.ok pp, n') := by
  constructor
  · obtain ⟨_, _, _, _, _, hfind, _, _, _⟩ := st_connect_ok hwf hstlt hecu hok
    unfold ISignalTriggering.connect_to_ecu
    rw [hfind]
  · obtain ⟨_, _, _, _, _, hfind, _, _, _, _, _⟩ :=
      pt_connect_ok hwfn hptlt hecun hokn
    unfold PduTriggering.connect_to_ecu
    rw [hfind]

theorem C3_connect_to_ecu_idempotent_witness :
    (WF c8M2 = true ∧ 17 < c8M2.elems.length ∧ EcuOK c8M2 2 ∧
      ISignalTriggering.connect_to_ecu c8M2 17 2 .In = (.ok 20, c3stM) ∧
      WF demoM1 = true ∧ 13 < demoM1.elems.length ∧ EcuOK demoM1 2 ∧
      PduTriggering.connect_to_ecu demoM1 13 2 .In = (.ok 16, demoM2)) ∧
    (ISignalTriggering.connect_to_ecu c3stM 17 2 .In = (.ok 20, c3stM) ∧
      PduTriggering.connect_to_ecu demoM2 13 2 .In = (.ok 16, demoM2)) :=
  ⟨⟨by decide, by decide,
    ⟨{ ename := .EcuInstance, itemName := some "EcuA", parent := some 0,
       children := [3] }, by decide, rfl, rfl⟩, by decide,
    by decide, by decide,
    ⟨{ ename := .EcuInstance, itemName := some "EcuA", parent := some 0,
       children := [3] }, by decide, rfl, rfl⟩, by decide⟩,
   @C3_connect_to_ecu_idempotent c8M2 c3stM demoM1 demoM2 17 2 20 .In 13 2 16 .In
     (by decide) (by decide)
     ⟨{ ename := .EcuInstance, itemName := some "EcuA", parent := some 0,
        children := [3] }, by decide, rfl, rfl⟩ (by decide)
     (by decide) (by decide)
     ⟨{ ename := .EcuInstance, itemName := some "EcuA", parent := some 0,
        children := [3] }, by decide, rfl, rfl⟩ (by decide)⟩

theorem C4_pdu_triggering_new_backfills_witness :
    (WF demoM5 = true ∧
      kindIn demoM5 1 [.CanPhysicalChannel, .EthernetPhysicalChannel,
        .FlexrayPhysicalChannel] ∧
      PduTriggering.new demoM5 (Pdu.ISignalIPdu 10) 1 = (.ok 51, c4M)) ∧
    (countKind c4M .ISignalTriggering = countKind demoM5 .ISignalTriggering +
      (mapped_signals demoM5 10).countP
        (fun mp => (mapping_signal demoM5 mp).isSome) ∧
    ∀ mp ∈ mapped_signals demoM5 10, ∀ s, mapping_signal demoM5 mp = some s →
      ∃ st ∈ signal_triggerings c4M 51, demoM5.elems.length ≤ st ∧
        ∃ r, getSubElement c4M st .ISignalRef = some r ∧
          get_reference_target c4M r = some s) :=
  ⟨⟨by decide, ⟨.CanPhysicalChannel, by decide, by simp⟩, by decide⟩,
   @C4_pdu_triggering_new_backfills demoM5 c4M 10 1 51 (by decide)
     ⟨.CanPhysicalChannel, by decide, by simp⟩ (by decide)⟩

/-! ## Claim C7 -/

/-- C7: for every name, bit length and package, creating a `Signal` — and
likewise a `SignalGroup` — with the signal scope equal to the system scope
fails with the invalid-parameter error, leaving the graph unchanged. -/
theorem C7_same_scope_creation_fails (m : Model) (name : String) (bit_length : Nat)
    (p : Nat) :
    Signal.new m name bit_length p p = (.error (.InvalidParameter
      "you must use different packages for the ISIgnal and the SystemSignal"), m) ∧
    SignalGroup.new m name p p = (.error (.InvalidParameter
      "you must use different packages for the ISIgnal and the SystemSignal"), m) :=
  ⟨by simp [Signal.new], by simp [SignalGroup.new]⟩

/-! ## Claim C10 -/

/-- C10: for every model and mapping element, `update_bit` returns exactly
what `start_position` returns — it reads the `StartPosition` field, never the
`UpdateIndicationBitPosition` field that creation writes. -/
theorem C10_update_bit_equals_start_position (m : Model) (mp : Nat) :
    ISignalToIPduMapping.update_bit m mp = ISignalToIPduMapping.start_position m mp := rfl

/-! ## Claim C5 -/

/-- C5: the concrete scenario run shows the returned mapping holds the
supplied signal, start position, byte order and transfer property, but its
`update_bit` accessor yields the start position (0), not the supplied
update-bit position (7): the getter reads the wrong field. -/
theorem C5_update_bit_getter_wrong_field :
    (ISignalIPdu.map_signal demoM4 10 11 0 .MostSignificantByteFirst (some 7)
      .Triggered).1 = .ok 45 ∧
    ISignalToIPduMapping.signal demoM5 45 = some 11 ∧
    ISignalToIPduMapping.start_position demoM5 45 = some 0 ∧
    ISignalToIPduMapping.byte_order demoM5 45 = some .MostSignificantByteFirst ∧
    ISignalToIPduMapping.transfer_property demoM5 45 = some .Triggered ∧
    ISignalToIPduMapping.update_bit demoM5 45 = some 0 ∧
    (some 0 : Option Nat) ≠ some 7 :=
  ⟨by decide, by decide, by decide, by decide, by decide, by decide, by decide⟩

/-! ## Claim C9 -/

/-- C9: a concrete execution of `PduTriggering::connect_to_ecu` in which the
propagation loop over the child signal triggerings fails: the `IPduPort`
(element 16, fresh: the initial graph has 15 elements) created and registered
before the loop remains in the graph and keeps its ECU and direction. -/
theorem C9_partial_failure_not_rolled_back :
    (PduTriggering.connect_to_ecu c9Base 8 2 .In).1 =
      .error (.ConversionError 13 "PhysicalChannel") ∧
    pdu_ports c9Base 8 = [] ∧
    c9Base.elems.length = 15 ∧
    pdu_ports (PduTriggering.connect_to_ecu c9Base 8 2 .In).2 8 = [16] ∧
    port_ecu (PduTriggering.connect_to_ecu c9Base 8 2 .In).2 16 = some 2 ∧
    port_direction (PduTriggering.connect_to_ecu c9Base 8 2 .In).2 16 = some .In :=
  ⟨by decide, by decide, by decide, by decide, by decide, by decide⟩

/-! ## Claim C8 -/

/-- C8: for a triggering with no existing port for (E, D), when the
channel/connector collaborator reports no connector for (channel, E), both
`PduTriggering::connect_to_ecu` and `ISignalTriggering::connect_to_ecu` fail
with the invalid-parameter error "The ECU is not connected to the channel",
leaving the graph unchanged. -/
theorem C8_unconnected_ecu_invalid_parameter (m : Model) (t ecu : Nat)
    (d : CommunicationDirection) (ch : Nat)
    (hch : physical_channel m t = .ok ch)
    (hconn : get_ecu_connector m ch ecu = none) :
    (findPort m (pdu_ports m t) ecu d = none →
      PduTriggering.connect_to_ecu m t ecu d =
        (.error (.InvalidParameter "The ECU is not connected to the channel"), m)) ∧
    (findPort m (signal_ports m t) ecu d = none →
      ISignalTriggering.connect_to_ecu m t ecu d =
        (.error (.InvalidParameter "The ECU is not connected to the channel"), m)) := by
  constructor <;> intro hf
  · simp only [PduTriggering.connect_to_ecu, hf, hch, hconn]
  · simp only [ISignalTriggering.connect_to_ecu, hf, hch, hconn]

/-- Witness for C8: in `c8M2`, ECU 12 has no connector to channel 1, and both
connect attempts (on `PduTriggering` 14 and `ISignalTriggering` 17) fail with
the invalid-parameter error. -/
theorem C8_unconnected_ecu_invalid_parameter_witness :
    PduTriggering.connect_to_ecu c8M2 14 12 .In =
      (.error (.InvalidParameter "The ECU is not connected to the channel"), c8M2) ∧
    ISignalTriggering.connect_to_ecu c8M2 17 12 .In =
      (.error (.InvalidParameter "The ECU is not connected to the channel"), c8M2) :=
  ⟨(C8_unconnected_ecu_invalid_parameter c8M2 14 12 .In 1 (by decide) (by decide)).1
      (by decide),
   (C8_unconnected_ecu_invalid_parameter c8M2 17 12 .In 1 (by decide) (by decide)).2
      (by decide)⟩

/-! ## Claim C6 -/

/-- C6: constructing any of the nine `Pdu` variants and converting the created
element back through `TryFrom` yields the same variant value; converting an
element whose kind tag is none of the nine Pdu kinds fails with a conversion
error carrying the element and the destination type name "Pdu". -/
theorem C6_pdu_roundtrip_and_conversion_error (m : Model) (name : String)
    (pkg len : Nat) :
    (∀ p m', ISignalIPdu.new m name pkg len = (.ok p, m') →
      Pdu.try_from m' p = .ok (.ISignalIPdu p)) ∧
    (∀ p m', NmPdu.new m name pkg len = (.ok p, m') →
      Pdu.try_from m' p = .ok (.NmPdu p)) ∧
    (∀ p m', NPdu.new m name pkg len = (.ok p, m') →
      Pdu.try_from m' p = .ok (.NPdu p)) ∧
    (∀ p m', DcmIPdu.new m name pkg len = (.ok p, m') →
      Pdu.try_from m' p = .ok (.DcmIPdu p)) ∧
    (∀ p m', GeneralPurposePdu.new m name pkg len = (.ok p, m') →
      Pdu.try_from m' p = .ok (.GeneralPurposePdu p)) ∧
    (∀ p m', GeneralPurposeIPdu.new m name pkg len = (.ok p, m') →
      Pdu.try_from m' p = .ok (.GeneralPurposeIPdu p)) ∧
    (∀ p m', ContainerIPdu.new m name pkg len = (.ok p, m') →
      Pdu.try_from m' p = .ok (.ContainerIPdu p)) ∧
    (∀ p m', SecuredIPdu.new m name pkg len = (.ok p, m') →
      Pdu.try_from m' p = .ok (.SecuredIPdu p)) ∧
    (∀ p m', MultiplexedIPdu.new m name pkg len = (.ok p, m') →
      Pdu.try_from m' p = .ok (.MultiplexedIPdu p)) ∧
    (∀ e el, m.get e = some el → isPduKind el.ename = false →
      Pdu.try_from m e = .error (.ConversionError e "Pdu")) := by
  refine ⟨?_, ?_, ?_, ?_, ?_, ?_, ?_, ?_, ?_, ?_⟩
  · intro p m' h
    have hk := pduNew_kind (h : pduNew .ISignalIPdu m name pkg len = _)
    simp [Pdu.try_from, variantTryFrom, hk, Except.map]
  · intro p m' h
    have hk := pduNew_kind (h : pduNew .NmPdu m name pkg len = _)
    simp [Pdu.try_from, variantTryFrom, hk, Except.map]
  · intro p m' h
    have hk := pduNew_kind (h : pduNew .NPdu m name pkg len = _)
    simp [Pdu.try_from, variantTryFrom, hk, Except.map]
  · intro p m' h
    have hk := pduNew_kind (h : pduNew .DcmIPdu m name pkg len = _)
    simp [Pdu.try_from, variantTryFrom, hk, Except.map]
  · intro p m' h
    have hk := pduNew_kind (h : pduNew .GeneralPurposePdu m name pkg len = _)
    simp [Pdu.try_from, variantTryFrom, hk, Except.map]
  · intro p m' h
    have hk := pduNew_kind (h : pduNew .GeneralPurposeIPdu m name pkg len = _)
    simp [Pdu.try_from, variantTryFrom, hk, Except.map]
  · intro p m' h
    have hk := pduNew_kind (h : pduNew .ContainerIPdu m name pkg len = _)
    simp [Pdu.try_from, variantTryFrom, hk, Except.map]
  · intro p m' h
    have hk := pduNew_kind (h : pduNew .SecuredIPdu m name pkg len = _)
    simp [Pdu.try_from, variantTryFrom, hk, Except.map]
  · intro p m' h
    have hk := pduNew_kind (h : pduNew .MultiplexedIPdu m name pkg len = _)
    simp [Pdu.try_from, variantTryFrom, hk, Except.map]
  · intro e el hget hk
    have hkind : elemKind m e = some el.ename := by simp [elemKind, hget]
    cases hcase : el.ename <;> rw [hcase] at hkind hk <;>
      simp_all [Pdu.try_from, isPduKind]

/-- Witness for C6: the nine round trips on `demoBase` (each created element
is 13) and a failing conversion of the `Connectors` element 3. -/
theorem C6_pdu_roundtrip_and_conversion_error_witness :
    Pdu.try_from (ISignalIPdu.new demoBase "Q" 0 8).2 13 = .ok (.ISignalIPdu 13) ∧
    Pdu.try_from (NmPdu.new demoBase "Q" 0 8).2 13 = .ok (.NmPdu 13) ∧
    Pdu.try_from (NPdu.new demoBase "Q" 0 8).2 13 = .ok (.NPdu 13) ∧
    Pdu.try_from (DcmIPdu.new demoBase "Q" 0 8).2 13 = .ok (.DcmIPdu 13) ∧
    Pdu.try_from (GeneralPurposePdu.new demoBase "Q" 0 8).2 13 =
      .ok (.GeneralPurposePdu 13) ∧
    Pdu.try_from (GeneralPurposeIPdu.new demoBase "Q" 0 8).2 13 =
      .ok (.GeneralPurposeIPdu 13) ∧
    Pdu.try_from (ContainerIPdu.new demoBase "Q" 0 8).2 13 = .ok (.ContainerIPdu 13) ∧
    Pdu.try_from (SecuredIPdu.new demoBase "Q" 0 8).2 13 = .ok (.SecuredIPdu 13) ∧
    Pdu.try_from (MultiplexedIPdu.new demoBase "Q" 0 8).2 13 =
      .ok (.MultiplexedIPdu 13) ∧
    Pdu.try_from demoBase 3 = .error (.ConversionError 3 "Pdu") := by
  have h := C6_pdu_roundtrip_and_conversion_error demoBase "Q" 0 8
  exact ⟨h.1 13 _ (by decide), h.2.1 13 _ (by decide), h.2.2.1 13 _ (by decide),
    h.2.2.2.1 13 _ (by decide), h.2.2.2.2.1 13 _ (by decide),
    h.2.2.2.2.2.1 13 _ (by decide), h.2.2.2.2.2.2.1 13 _ (by decide),
    h.2.2.2.2.2.2.2.1 13 _ (by decide), h.2.2.2.2.2.2.2.2.1 13 _ (by decide),
    h.2.2.2.2.2.2.2.2.2 3 { ename := .Connectors, parent := some 2, children := [4] }
      (by decide) (by decide)⟩

end Autosar
